import Mathlib

/-!
# tinyprintf (lib/kernel/tinyprintf.c): a shallow embedding and its properties

Modelling conventions.

* A C `char` is an `Int` (OpenCL C `char` is a signed 8-bit integer); `ord c` is the
  value of the ASCII character `c`, so `ch < '1'` is written `ch < ord '1'`.
* A `const char *` is the list of bytes found in memory from the pointer on.  A byte
  beyond the end of the list reads as NUL, so a list without a NUL is a C string that
  sits in zeroed memory, and `s ++ 0 :: junk` is the string `s` followed by its
  terminator and by whatever lies behind it in memory.  Every read of the format is
  `*(fmt++)`, so the bytes read so far are exactly those in front of the pointer.
* The variable arguments are a list `args`; the `va_list` is the number of arguments
  fetched so far.
* The functions declared in `printf_base.h` (`__pocl_printf_putcf`, `__pocl_printf_puts`,
  `__pocl_printf_ulong`, `__pocl_printf_long`) have no body in tinyprintf.c: the
  scanner takes them as a parameter `H : Helpers` and records every call it makes to
  them, together with the request it passes, in a list of `Call`s.
* `cl_khr_int64` is a compile-time switch: the parameter `wide : Bool`.
* The locals `ul` and `l` of `__pocl_printf_format_simple` are declared without an
  initialiser: their initial contents are the parameters `ul0`, `l0`.
* The source names start with `__`; the definitions drop these two underscores.
-/

namespace TinyPrintf

/-! ## Characters, strings, arguments -/

/-- The value of an ASCII character as a C `char`. -/
def ord (c : Char) : Int := Int.ofNat c.toNat

/-- The bytes of a string literal, without terminator. -/
def cstr (s : String) : List Int := s.toList.map ord

/-- The read `*(fmt++)`: the byte under the pointer and the advanced pointer. -/
def next (fmt : List Int) : Int × List Int :=
  match fmt with
  | [] => (0, [])
  | c :: r => (c, r)

/-- Conversion of a value to an unsigned integer type of `w` bits. -/
def wrapU (w : Nat) (v : Int) : Nat := (v % (2 : Int) ^ w).toNat

/-- Conversion of a value to a signed (two's complement) integer type of `w` bits. -/
def wrapS (w : Nat) (v : Int) : Int :=
  (v + (2 : Int) ^ (w - 1)) % (2 : Int) ^ w - (2 : Int) ^ (w - 1)

/-- One variable argument as the caller passed it: an integer or a string. -/
inductive Arg where
  | int (v : Int)
  | str (s : List Int)
  deriving DecidableEq, Repr

/-- The integer an argument holds (0 for a string argument, whose bits the model
does not give a value to). -/
def Arg.asInt : Arg → Int
  | .int v => v
  | .str _ => 0

/-- The bytes an argument points to (none for an integer argument). -/
def Arg.asStr : Arg → List Int
  | .int _ => []
  | .str s => s

/-- The argument `va_arg` fetches when `va` arguments were fetched before. -/
def va_arg (args : List Arg) (va : Nat) : Arg := args.getD va (Arg.int 0)

/-! ## The request record -/

/-- The `flags` member of `param_t`. -/
structure flags_t where
  zero : Bool
  alt : Bool
  align_left : Bool
  always_sign : Bool
  uc : Bool
  deriving DecidableEq, Repr

/-- The members of `param_t` that tinyprintf.c reads or writes.  `alt` is the member
written by `p->alt = 1` in the `case 'p'` of the switch; `flags.alt` is the one the
`#` flag sets.  The member `bf`, which is pointed at the scanner's local staging
array for the converters, is left out.  The flags are only ever assigned 0 or 1. -/
structure param_t where
  flags : flags_t
  width : Nat
  base : Nat
  alt : Bool
  printf_buffer : List Int
  printf_buffer_index : Nat
  printf_buffer_capacity : Nat
  deriving DecidableEq, Repr

/-- The functions of `printf_base.h` that the scanner calls. -/
structure Helpers where
  putcf : param_t → Int → param_t
  puts : param_t → List Int → param_t
  ulong : param_t → Nat → param_t
  long : param_t → Int → param_t

/-- One call from the scanner to a function of `printf_base.h`, with its arguments. -/
inductive Call where
  | putcf (p : param_t) (c : Int)
  | puts (p : param_t) (s : List Int)
  | ulong (p : param_t) (v : Nat)
  | long (p : param_t) (v : Int)
  deriving DecidableEq, Repr

/-! ## `__pocl_printf_a2d` and `__pocl_printf_a2u` -/

/-- The function `__pocl_printf_a2d`. -/
def pocl_printf_a2d (ch : Int) : Int :=
  if ch ≥ ord '0' ∧ ch ≤ ord '9' then ch - ord '0'
  else if ch ≥ ord 'a' ∧ ch ≤ ord 'f' then ch - ord 'a' + 10
  else if ch ≥ ord 'A' ∧ ch ≤ ord 'F' then ch - ord 'A' + 10
  else -1

/-- The `while` loop of `__pocl_printf_a2u` over its locals `num`, `ch` and `p`; the
result is `(ch, p, num)` at the exit of the loop.  `num` is an `unsigned int`.  When
the memory list is used up the byte read is NUL, on which the next test
`a2d (ch) >= 0` fails. -/
def a2u_loop (num : Nat) (ch : Int) : List Int → Int × List Int × Nat
  | [] =>
    if pocl_printf_a2d ch ≥ 0 then
      if pocl_printf_a2d ch > 10 then (ch, [], num)
      else (0, [], (num * 10 + (pocl_printf_a2d ch).toNat) % 2 ^ 32)
    else (ch, [], num)
  | c :: p =>
    if pocl_printf_a2d ch ≥ 0 then
      if pocl_printf_a2d ch > 10 then (ch, c :: p, num)
      else a2u_loop ((num * 10 + (pocl_printf_a2d ch).toNat) % 2 ^ 32) c p
    else (ch, c :: p, num)

/-- The function `__pocl_printf_a2u`: the result is `(returned char, *src, *width)`. -/
def pocl_printf_a2u (ch : Int) (src : List Int) : Int × List Int × Nat :=
  a2u_loop 0 ch src

/-! ## `__pocl_printf_format_simple` -/

/-- The scanner's position inside a directive: the current character `ch`, the
pointer `fmt` and the request `*p`. -/
structure Scan where
  ch : Int
  fmt : List Int
  p : param_t
  deriving DecidableEq, Repr

/-- The block "Init parameter struct" (lines 88-94). -/
def init_param (p : param_t) : param_t :=
  { p with
    flags := { zero := false, alt := false, align_left := false,
               always_sign := false, uc := false }
    width := 0 }

/-- The block "Flags" (lines 96-114). -/
def scan_flags (s : Scan) : Scan :=
  if s.ch < ord '1' then
    let p1 : param_t :=
      if s.ch = ord '-' then { s.p with flags := { s.p.flags with align_left := true } }
      else if s.ch = ord '0' then { s.p with flags := { s.p.flags with zero := true } }
      else if s.ch = ord '#' then { s.p with flags := { s.p.flags with alt := true } }
      else s.p
    { ch := (next s.fmt).1, fmt := (next s.fmt).2, p := p1 }
  else s

/-- The block "Width" (lines 116-120). -/
def scan_width (s : Scan) : Scan :=
  if s.ch ≥ ord '0' ∧ s.ch ≤ ord '9' then
    let r := pocl_printf_a2u s.ch s.fmt
    { ch := r.1, fmt := r.2.1, p := { s.p with width := r.2.2 } }
  else s

/-- The loop `do ch = *(fmt++); while (ch >= '0' && ch <= '9')` (lines 129-133). -/
def skip_digits : List Int → Int × List Int
  | [] => (0, [])
  | c :: r => if c ≥ ord '0' ∧ c ≤ ord '9' then skip_digits r else (c, r)

/-- The block that accepts `x.y` (lines 122-134). -/
def scan_precision (s : Scan) : Scan :=
  if s.ch = ord '.' then
    let r := skip_digits s.fmt
    { ch := r.1, fmt := r.2, p := { s.p with flags := { s.p.flags with zero := true } } }
  else s

/-- The scanner's position after the length modifiers, with the locals `lng`, `shr`. -/
structure Len where
  ch : Int
  fmt : List Int
  lng : Nat
  shr : Nat
  deriving DecidableEq, Repr

/-- The test for `l` (lines 151-159); `none` is `goto abort`. -/
def scan_l (wide : Bool) (ch : Int) (fmt : List Int) : Option Len :=
  if ch = ord 'l' then
    if wide then some { ch := (next fmt).1, fmt := (next fmt).2, lng := 1, shr := 0 }
    else none
  else some { ch := ch, fmt := fmt, lng := 0, shr := 0 }

/-- The test for `h` and `hh` (lines 161-170). -/
def scan_h (s : Len) : Len :=
  if s.ch = ord 'h' then
    if (next s.fmt).1 = ord 'h' then
      { s with ch := (next (next s.fmt).2).1, fmt := (next (next s.fmt).2).2, shr := 2 }
    else { s with ch := (next s.fmt).1, fmt := (next s.fmt).2, shr := 1 }
  else s

/-- The argument fetch (lines 172-199): the new contents of `ul` and `l`, given the
argument `a` that `va_arg` yields.  Every branch fetches exactly one argument.  The
assignment to `ul` (`UINT_T`) or `l` (`INT_T`) keeps the value: these typedefs of
`printf_base.h` are taken to be at least as wide as the type fetched. -/
def fetch (wide : Bool) (s : Len) (a : Arg) (ul : Nat) (l : Int) : Nat × Int :=
  if s.ch > ord 'i' then
    if s.shr = 2 then (wrapU 8 (wrapU 32 a.asInt), l)
    else if s.shr = 1 then (wrapU 16 (wrapU 32 a.asInt), l)
    else if wide ∧ s.lng = 1 then (wrapU 64 a.asInt, l)
    else (wrapU 32 a.asInt, l)
  else
    if s.shr = 2 then (ul, wrapS 8 (wrapS 32 a.asInt))
    else if s.shr = 1 then (ul, wrapS 16 (wrapS 32 a.asInt))
    else if wide ∧ s.lng = 1 then (ul, wrapS 64 a.asInt)
    else (ul, wrapS 32 a.asInt)

/-- The `switch (ch)` (lines 201-229): `none` is `goto abort`, otherwise the request
after the case and the call made in it. -/
def convert (H : Helpers) (ch : Int) (p : param_t) (ul : Nat) (l : Int) :
    Option (param_t × List Call) :=
  if ch = 0 then none
  else if ch = ord 'o' then
    let p1 := { p with base := 8 }
    some (H.ulong p1 ul, [Call.ulong p1 ul])
  else if ch = ord 'u' then
    let p1 := { p with base := 10 }
    some (H.ulong p1 ul, [Call.ulong p1 ul])
  else if ch = ord 'd' ∨ ch = ord 'i' then
    let p1 := { p with base := 10 }
    some (H.long p1 l, [Call.long p1 l])
  else if ch = ord 'p' ∨ ch = ord 'x' ∨ ch = ord 'X' then
    let p0 := if ch = ord 'p' then { p with alt := true } else p
    let p1 := { p0 with base := 16, flags := { p0.flags with uc := decide (ch = ord 'X') } }
    some (H.ulong p1 ul, [Call.ulong p1 ul])
  else some (p, [])

/-- The locals and the request of `__pocl_printf_format_simple`: the pointer `fmt`,
the request `*p`, the number `va` of arguments fetched, and `ul`, `l`. -/
structure State where
  fmt : List Int
  p : param_t
  va : Nat
  ul : Nat
  l : Int
  deriving DecidableEq, Repr

/-- What one directive does: whether it left by `goto abort`, the state after it and
the calls it made. -/
structure Step where
  abort : Bool
  st : State
  calls : List Call
  deriving DecidableEq, Repr

/-- The second half of a directive (lines 136-229): the conversions `c` and `s`, the
length modifiers, the argument fetch and the switch, entered at the position `s`
that the flag, width and precision blocks have reached. -/
def dispatch (H : Helpers) (wide : Bool) (args : List Arg) (s : Scan) (st : State) :
    Step :=
  if s.ch = ord 'c' then
    let cc := wrapS 8 (wrapS 32 (va_arg args st.va).asInt)
    { abort := false
      st := { st with fmt := s.fmt, p := H.putcf s.p cc, va := st.va + 1 }
      calls := [Call.putcf s.p cc] }
  else if s.ch = ord 's' then
    let str := (va_arg args st.va).asStr
    { abort := false
      st := { st with fmt := s.fmt, p := H.puts s.p str, va := st.va + 1 }
      calls := [Call.puts s.p str] }
  else
    match scan_l wide s.ch s.fmt with
    | none => { abort := true, st := { st with fmt := s.fmt, p := s.p }, calls := [] }
    | some s1 =>
      let s2 := scan_h s1
      let f := fetch wide s2 (va_arg args st.va) st.ul st.l
      match convert H s2.ch s.p f.1 f.2 with
      | none =>
        { abort := true
          st := { fmt := s2.fmt, p := s.p, va := st.va + 1, ul := f.1, l := f.2 }
          calls := [] }
      | some r =>
        { abort := false
          st := { fmt := s2.fmt, p := r.1, va := st.va + 1, ul := f.1, l := f.2 }
          calls := r.2 }

/-- The body of the loop from "Init parameter struct" on (lines 88-229), entered with
the character `ch` that follows the `%`: the request is initialised, the flag, width
and precision blocks run, and `dispatch` does the rest. -/
def directive (H : Helpers) (wide : Bool) (args : List Arg) (ch : Int) (st : State) :
    Step :=
  dispatch H wide args (scan_precision (scan_width (scan_flags
    { ch := ch, fmt := st.fmt, p := init_param st.p }))) st

/-- How the scan ended: the `while` condition read the terminator, a `goto abort`
was taken, or the model's iteration bound was used up. -/
inductive Exit where
  | finished
  | aborted
  | fuel
  deriving DecidableEq, Repr

/-- The outcome of a scan: how it ended, the final state, and the calls made. -/
structure Result where
  exit : Exit
  st : State
  calls : List Call
  deriving DecidableEq, Repr

/-- Puts the calls `cs` in front of those of `r`. -/
def Result.emit (cs : List Call) (r : Result) : Result :=
  { r with calls := cs ++ r.calls }

/-- The `while ((ch = *(fmt++)))` loop of `__pocl_printf_format_simple` (lines 75-230),
for at most `n` iterations. -/
def format_simple_loop (H : Helpers) (wide : Bool) (args : List Arg) :
    Nat → State → Result
  | 0, st => { exit := Exit.fuel, st := st, calls := [] }
  | n + 1, st =>
    let ch := (next st.fmt).1
    let fmt := (next st.fmt).2
    if ch = 0 then { exit := Exit.finished, st := { st with fmt := fmt }, calls := [] }
    else if ch ≠ ord '%' then
      (format_simple_loop H wide args n
        { st with fmt := fmt, p := H.putcf st.p ch }).emit [Call.putcf st.p ch]
    else
      let ch2 := (next fmt).1
      let fmt2 := (next fmt).2
      if ch2 = ord '%' then
        (format_simple_loop H wide args n
          { st with fmt := fmt2, p := H.putcf st.p (ord '%') }).emit
          [Call.putcf st.p (ord '%')]
      else
        let d := directive H wide args ch2 { st with fmt := fmt2 }
        if d.abort then { exit := Exit.aborted, st := d.st, calls := d.calls }
        else (format_simple_loop H wide args n d.st).emit d.calls

/-- The scan from a given state.  Every iteration moves the pointer by at least one
byte of the list or ends the loop, so `fmt.length + 1` iterations are enough
(`scan_exit_ne_fuel`). -/
def scan (H : Helpers) (wide : Bool) (args : List Arg) (st : State) : Result :=
  format_simple_loop H wide args (st.fmt.length + 1) st

/-- The function `__pocl_printf_format_simple (fmt, p, va)`. -/
def pocl_printf_format_simple (H : Helpers) (wide : Bool) (fmt : List Int) (p : param_t)
    (args : List Arg) (ul0 : Nat) (l0 : Int) : Result :=
  scan H wide args { fmt := fmt, p := p, va := 0, ul := ul0, l := l0 }

/-! ## `__pocl_printf` -/

/-- The initialiser `param_t p = { 0 }`. -/
def param_zero : param_t :=
  { flags := { zero := false, alt := false, align_left := false,
               always_sign := false, uc := false }
    width := 0, base := 0, alt := false
    printf_buffer := [], printf_buffer_index := 0, printf_buffer_capacity := 0 }

/-- The values `__pocl_printf` leaves behind: its return value, the value stored
through `__buffer_index`, and the contents of `__buffer`. -/
structure PrintfResult where
  ret : Int
  buffer_index : Nat
  buffer : List Int
  deriving DecidableEq, Repr

/-- The function `__pocl_printf (__buffer, __buffer_index, __buffer_capacity, fmt, ...)`. -/
def pocl_printf (H : Helpers) (wide : Bool) (buffer : List Int) (buffer_index : Nat)
    (buffer_capacity : Nat) (fmt : List Int) (args : List Arg) (ul0 : Nat) (l0 : Int) :
    PrintfResult :=
  let p : param_t :=
    { param_zero with
      printf_buffer := buffer
      printf_buffer_capacity := buffer_capacity
      printf_buffer_index := buffer_index }
  let r := pocl_printf_format_simple H wide fmt p args ul0 l0
  { ret := 0, buffer_index := r.st.p.printf_buffer_index, buffer := r.st.p.printf_buffer }


/-! ## Reading the list of calls -/

/-- The character a call pushes when it is a call of `__pocl_printf_putcf`. -/
def Call.char? : Call → Option Int
  | .putcf _ c => some c
  | _ => none

/-- The request a call passes to its callee. -/
def Call.req : Call → param_t
  | .putcf p _ => p
  | .puts p _ => p
  | .ulong p _ => p
  | .long p _ => p

/-- The value a call hands to `__pocl_printf_ulong`, when it is such a call. -/
def Call.toUlong : Call → Option Nat
  | .ulong _ v => some v
  | _ => none

/-- The value a call hands to `__pocl_printf_long`, when it is such a call. -/
def Call.toLong : Call → Option Int
  | .long _ v => some v
  | _ => none

/-- The values handed to `__pocl_printf_ulong`, in the order of the calls. -/
def ulong_values (cs : List Call) : List Nat := cs.filterMap Call.toUlong

/-- The characters pushed by the scanner's own calls of `__pocl_printf_putcf`. -/
def putc_chars (cs : List Call) : List Int := cs.filterMap Call.char?

/-- Whether a call invokes a numeric converter (`__pocl_printf_ulong` or
`__pocl_printf_long`). -/
def Call.isConv : Call → Bool
  | .ulong _ _ => true
  | .long _ _ => true
  | _ => false

/-- A decimal digit character, `'0'` to `'9'`. -/
def is_digit (c : Int) : Prop := ord '0' ≤ c ∧ c ≤ ord '9'

instance (c : Int) : Decidable (is_digit c) := by
  unfold is_digit; exact inferInstance

/-- The value of a string of decimal digits, most significant digit first. -/
def decimal (ds : List Int) : Nat :=
  ds.foldl (fun n c => n * 10 + (c - ord '0').toNat) 0

/-- A character at which the flag, width and precision blocks stop whatever they have
scanned: above `'9'` and neither `a` nor `A` (which the width scanner accepts). -/
def ends_run (t : Int) : Prop := t > ord '9' ∧ t ≠ ord 'a' ∧ t ≠ ord 'A'

instance (t : Int) : Decidable (ends_run t) := by
  unfold ends_run; exact inferInstance

/-- Helpers that leave the request as it is; they serve to evaluate the scanner on
concrete formats, where only the list of calls is looked at. -/
def stub_helpers : Helpers :=
  { putcf := fun p _ => p, puts := fun p _ => p, ulong := fun p _ => p, long := fun p _ => p }

/-! ## The buffer sink and the converters, as the specification describes them -/

/-- Modelled from the spec: `__pocl_printf_putcf`, which `printf_base.h` declares and
whose body is not among the sources.  Section 4.4: "While `cursor < capacity`: store
the character at `buffer[cursor]`, then increment `cursor`.  Once `cursor ≥ capacity`:
stop storing characters but continue to let callers observe the final cursor value";
the glossary ("excess is dropped but counted") and scenario 5 of section 8 (capacity
3, `"abcdef"`, cursor 6) fix that the cursor counts every character, stored or
dropped. -/
def spec_putcf (p : param_t) (c : Int) : param_t :=
  { p with
    printf_buffer :=
      if p.printf_buffer_index < p.printf_buffer_capacity then
        p.printf_buffer.set p.printf_buffer_index c
      else p.printf_buffer
    printf_buffer_index := p.printf_buffer_index + 1 }

/-- Modelled from the spec: a text handed to the sink character by character, "in
final order" (section 4.3). -/
def spec_push (p : param_t) (text : List Int) : param_t := text.foldl spec_putcf p

/-- The characters of the C string at a pointer: those in front of the first NUL. -/
def c_string (s : List Int) : List Int := s.takeWhile (fun c => c ≠ 0)

/-- Modelled from the spec: the helpers of `printf_base.h`.  `__pocl_printf_puts`
"copies it verbatim until its terminating null" (section 4.1); the numeric converters
render the value and hand the characters to the sink (section 4.3).  The rendering
itself is left open: `render_ulong` and `render_long` are arbitrary functions of the
request and the value. -/
def sink_helpers (render_ulong : param_t → Nat → List Int)
    (render_long : param_t → Int → List Int) : Helpers :=
  { putcf := spec_putcf
    puts := fun p s => spec_push p (c_string s)
    ulong := fun p v => spec_push p (render_ulong p v)
    long := fun p v => spec_push p (render_long p v) }

/-- The characters one call hands to the sink under `sink_helpers`. -/
def Call.text (render_ulong : param_t → Nat → List Int)
    (render_long : param_t → Int → List Int) : Call → List Int
  | .putcf _ c => [c]
  | .puts _ s => c_string s
  | .ulong p v => render_ulong p v
  | .long p v => render_long p v

/-- The characters produced by a list of calls, in order. -/
def produced (render_ulong : param_t → Nat → List Int)
    (render_long : param_t → Int → List Int) (cs : List Call) : List Int :=
  cs.flatMap (Call.text render_ulong render_long)

/-- Two requests with the same buffer, cursor and capacity. -/
def same_buf (p q : param_t) : Prop :=
  p.printf_buffer = q.printf_buffer ∧ p.printf_buffer_index = q.printf_buffer_index ∧
    p.printf_buffer_capacity = q.printf_buffer_capacity

/-- How a position `(ch, fmt)` of the scan of a format `F` relates to the position
`(ch', fmt')` of the same scan of `F ++ X`: either both are at the same character, with
`X` still to come on the longer side, or the scan of `F` has run off its end (it has
read NUL from an empty list). -/
def Sync (X : List Int) (ch : Int) (fmt : List Int) (ch' : Int) (fmt' : List Int) : Prop :=
  (ch ≠ 0 ∧ ch' = ch ∧ fmt' = fmt ++ X) ∨ (ch = 0 ∧ fmt = [])

/-- The relation `Sync` for two positions inside a directive: when the shorter scan has not run
off its end, the requests agree as well. -/
def ScanSync (X : List Int) (s s' : Scan) : Prop :=
  Sync X s.ch s.fmt s'.ch s'.fmt ∧ (s.ch ≠ 0 → s'.p = s.p)

/-- The relation `Sync` for two positions behind the length modifiers: when the shorter scan has
not run off its end, `lng` and `shr` agree as well. -/
def LenSync (X : List Int) (s s' : Len) : Prop :=
  Sync X s.ch s.fmt s'.ch s'.fmt ∧ (s.ch ≠ 0 → s'.lng = s.lng ∧ s'.shr = s.shr)

/-- A hexadecimal digit character: `'0'`-`'9'`, `'a'`-`'f'` or `'A'`-`'F'`. -/
def is_hex_digit (c : Int) : Prop :=
  (ord '0' ≤ c ∧ c ≤ ord '9') ∨ (ord 'a' ≤ c ∧ c ≤ ord 'f') ∨ (ord 'A' ≤ c ∧ c ≤ ord 'F')

instance (c : Int) : Decidable (is_hex_digit c) := by
  unfold is_hex_digit; exact inferInstance

/-- What holds of the request of every converter call: always-sign is clear, the base
is 8, 10 or 16, and uppercase is set only with base 16.  Calls of
`__pocl_printf_putcf` and `__pocl_printf_puts` are not constrained. -/
def conv_req_ok (k : Call) : Prop :=
  k.isConv = true →
    k.req.flags.always_sign = false ∧
    (k.req.base = 8 ∨ k.req.base = 10 ∨ k.req.base = 16) ∧
    (k.req.flags.uc = true → k.req.base = 16)

/-- The base that belongs to a conversion character as the specification states it:
`o` gives 8, `u`, `d` and `i` give 10, `x`, `X` and `p` give 16. -/
def conv_base (c : Int) : Nat :=
  if c = ord 'o' then 8
  else if c = ord 'u' ∨ c = ord 'd' ∨ c = ord 'i' then 10
  else if c = ord 'x' ∨ c = ord 'X' ∨ c = ord 'p' then 16
  else 0

/-- The flags and the width of the request a call passes. -/
def Call.fw (k : Call) : flags_t × Nat := (k.req.flags, k.req.width)

/-- Two positions inside a directive that are at the same character of the same text
with the same flags and width in the request; the other members of the request may
differ. -/
def FW (s s' : Scan) : Prop :=
  s.ch = s'.ch ∧ s.fmt = s'.fmt ∧ s.p.flags = s'.p.flags ∧ s.p.width = s'.p.width

/-- The position at which the flag, width and precision blocks (lines 88-134) leave a
directive that is entered with the character `ch` behind the `%` and the pointer at
`fmt`: the argument that `directive` hands to `dispatch`. -/
def stages (ch : Int) (fmt : List Int) (p : param_t) : Scan :=
  scan_precision (scan_width (scan_flags { ch := ch, fmt := fmt, p := init_param p }))

/-- The position at which `switch (ch)` is entered from the position `s` behind the
precision block, after the tests for `l` and `h` (lines 151-170); `none` is the
`goto abort` of the test for `l`.  Its character is the conversion character of the
directive. -/
def switch_entry (wide : Bool) (s : Scan) : Option Len :=
  (scan_l wide s.ch s.fmt).map scan_h

/-- A character that the width and precision blocks leave alone: not a decimal digit,
not `.`, and neither `a` nor `A`, which the width scanner takes for digits. -/
def ends_digits (t : Int) : Prop :=
  ¬ is_digit t ∧ t ≠ ord '.' ∧ t ≠ ord 'a' ∧ t ≠ ord 'A'

instance (t : Int) : Decidable (ends_digits t) := by
  unfold ends_digits; exact inferInstance

@[simp] theorem ord_pct : ord '%' = 37 := rfl
@[simp] theorem ord_hash : ord '#' = 35 := rfl
@[simp] theorem ord_minus : ord '-' = 45 := rfl
@[simp] theorem ord_dot : ord '.' = 46 := rfl
@[simp] theorem ord_0 : ord '0' = 48 := rfl
@[simp] theorem ord_1 : ord '1' = 49 := rfl
@[simp] theorem ord_9 : ord '9' = 57 := rfl
@[simp] theorem ord_A : ord 'A' = 65 := rfl
@[simp] theorem ord_F : ord 'F' = 70 := rfl
@[simp] theorem ord_X : ord 'X' = 88 := rfl
@[simp] theorem ord_a : ord 'a' = 97 := rfl
@[simp] theorem ord_c : ord 'c' = 99 := rfl
@[simp] theorem ord_d : ord 'd' = 100 := rfl
@[simp] theorem ord_f : ord 'f' = 102 := rfl
@[simp] theorem ord_h : ord 'h' = 104 := rfl
@[simp] theorem ord_i : ord 'i' = 105 := rfl
@[simp] theorem ord_l : ord 'l' = 108 := rfl
@[simp] theorem ord_o : ord 'o' = 111 := rfl
@[simp] theorem ord_p : ord 'p' = 112 := rfl
@[simp] theorem ord_s : ord 's' = 115 := rfl
@[simp] theorem ord_u : ord 'u' = 117 := rfl
@[simp] theorem ord_x : ord 'x' = 120 := rfl

theorem next_suffix (fmt : List Int) : (next fmt).2 <:+ fmt := by
  cases fmt with
  | nil => exact List.suffix_refl _
  | cons c r => exact List.suffix_cons c r

theorem a2u_loop_suffix (fmt : List Int) : ∀ (num : Nat) (ch : Int),
    (a2u_loop num ch fmt).2.1 <:+ fmt := by
  induction fmt with
  | nil =>
    intro num ch
    unfold a2u_loop
    split_ifs <;> exact List.suffix_refl _
  | cons c r ih =>
    intro num ch
    unfold a2u_loop
    split_ifs
    · exact List.suffix_refl _
    · exact (ih _ c).trans (List.suffix_cons c r)
    · exact List.suffix_refl _

theorem skip_digits_suffix (fmt : List Int) : (skip_digits fmt).2 <:+ fmt := by
  induction fmt with
  | nil => exact List.suffix_refl _
  | cons c r ih =>
    unfold skip_digits
    split_ifs
    · exact ih.trans (List.suffix_cons c r)
    · exact List.suffix_cons c r

theorem scan_flags_ch (s : Scan) :
    (scan_flags s).ch = if s.ch < ord '1' then (next s.fmt).1 else s.ch := by
  unfold scan_flags
  by_cases h : s.ch < ord '1'
  · rw [if_pos h, if_pos h]
  · rw [if_neg h, if_neg h]

theorem scan_flags_fmt (s : Scan) :
    (scan_flags s).fmt = if s.ch < ord '1' then (next s.fmt).2 else s.fmt := by
  unfold scan_flags
  by_cases h : s.ch < ord '1'
  · rw [if_pos h, if_pos h]
  · rw [if_neg h, if_neg h]

theorem scan_flags_suffix (s : Scan) : (scan_flags s).fmt <:+ s.fmt := by
  rw [scan_flags_fmt]
  split_ifs
  · exact next_suffix _
  · exact List.suffix_refl _

theorem scan_width_suffix (s : Scan) : (scan_width s).fmt <:+ s.fmt := by
  unfold scan_width
  split_ifs
  · exact a2u_loop_suffix _ _ _
  · exact List.suffix_refl _

theorem scan_precision_suffix (s : Scan) : (scan_precision s).fmt <:+ s.fmt := by
  unfold scan_precision
  split_ifs
  · exact skip_digits_suffix _
  · exact List.suffix_refl _

theorem scan_l_suffix {wide : Bool} {ch : Int} {fmt : List Int} {s : Len}
    (h : scan_l wide ch fmt = some s) : s.fmt <:+ fmt := by
  unfold scan_l at h
  split_ifs at h
  · cases h; exact next_suffix _
  · cases h; exact List.suffix_refl _

theorem scan_h_suffix (s : Len) : (scan_h s).fmt <:+ s.fmt := by
  unfold scan_h
  split_ifs
  · exact (next_suffix _).trans (next_suffix _)
  · exact next_suffix _
  · exact List.suffix_refl _

theorem directive_suffix_flags (H : Helpers) (wide : Bool) (args : List Arg) (ch : Int)
    (st : State) :
    (directive H wide args ch st).st.fmt <:+
      (scan_flags { ch := ch, fmt := st.fmt, p := init_param st.p }).fmt := by
  have h3 : (scan_precision (scan_width (scan_flags
      { ch := ch, fmt := st.fmt, p := init_param st.p }))).fmt <:+
      (scan_flags { ch := ch, fmt := st.fmt, p := init_param st.p }).fmt :=
    (scan_precision_suffix _).trans (scan_width_suffix _)
  unfold directive dispatch
  simp only
  split_ifs
  · exact h3
  · exact h3
  · split
    · exact h3
    · rename_i s1 hs1
      have h5 := ((scan_h_suffix s1).trans (scan_l_suffix hs1)).trans h3
      split <;> exact h5

theorem directive_suffix (H : Helpers) (wide : Bool) (args : List Arg) (ch : Int)
    (st : State) : (directive H wide args ch st).st.fmt <:+ st.fmt :=
  (directive_suffix_flags H wide args ch st).trans (scan_flags_suffix _)

/-! ## The iteration bound is never reached -/

theorem loop_fuel (H : Helpers) (wide : Bool) (args : List Arg) :
    ∀ (n m : Nat) (st : State), st.fmt.length < n → st.fmt.length < m →
      format_simple_loop H wide args n st = format_simple_loop H wide args m st := by
  intro n
  induction n with
  | zero => intro m st h; exact absurd h (Nat.not_lt_zero _)
  | succ n ih =>
    intro m st hn hm
    cases m with
    | zero => exact absurd hm (Nat.not_lt_zero _)
    | succ m =>
      have hsuf := next_suffix st.fmt
      have hlen : (next st.fmt).1 ≠ 0 → (next st.fmt).2.length < st.fmt.length := by
        cases hf : st.fmt with
        | nil => intro h; exact absurd rfl h
        | cons c r => intro _; simp [next]
      simp only [format_simple_loop]
      by_cases h0 : (next st.fmt).1 = 0
      · rw [if_pos h0, if_pos h0]
      · have hl := hlen h0
        rw [if_neg h0, if_neg h0]
        by_cases h1 : (next st.fmt).1 ≠ ord '%'
        · rw [if_pos h1, if_pos h1]
          rw [ih m _ (by simpa using by omega) (by simpa using by omega)]
        · rw [if_neg h1, if_neg h1]
          have hl2 := (next_suffix (next st.fmt).2).length_le
          by_cases h2 : (next (next st.fmt).2).1 = ord '%'
          · rw [if_pos h2, if_pos h2]
            rw [ih m _ (by simpa using by omega) (by simpa using by omega)]
          · rw [if_neg h2, if_neg h2]
            have hl3 := (directive_suffix H wide args (next (next st.fmt).2).1
              { st with fmt := (next (next st.fmt).2).2 }).length_le
            simp only at hl3
            rw [ih m _ (by omega) (by omega)]

theorem exit_ne_fuel (H : Helpers) (wide : Bool) (args : List Arg) :
    ∀ (n : Nat) (st : State), st.fmt.length < n →
      (format_simple_loop H wide args n st).exit ≠ Exit.fuel := by
  intro n
  induction n with
  | zero => intro st h; exact absurd h (Nat.not_lt_zero _)
  | succ n ih =>
    intro st hn
    have hlen : (next st.fmt).1 ≠ 0 → (next st.fmt).2.length < st.fmt.length := by
      cases hf : st.fmt with
      | nil => intro h; exact absurd rfl h
      | cons c r => intro _; simp [next]
    simp only [format_simple_loop]
    by_cases h0 : (next st.fmt).1 = 0
    · rw [if_pos h0]; simp
    · have hl := hlen h0
      rw [if_neg h0]
      by_cases h1 : (next st.fmt).1 ≠ ord '%'
      · rw [if_pos h1]
        exact ih _ (by simpa using by omega)
      · rw [if_neg h1]
        have hl2 := (next_suffix (next st.fmt).2).length_le
        by_cases h2 : (next (next st.fmt).2).1 = ord '%'
        · rw [if_pos h2]
          exact ih _ (by simpa using by omega)
        · rw [if_neg h2]
          have hl3 := (directive_suffix H wide args (next (next st.fmt).2).1
            { st with fmt := (next (next st.fmt).2).2 }).length_le
          simp only at hl3
          split_ifs
          · simp
          · exact ih _ (by omega)

/-- The scan never ends because the model's iteration bound ran out. -/
theorem scan_exit_ne_fuel (H : Helpers) (wide : Bool) (args : List Arg) (st : State) :
    (scan H wide args st).exit ≠ Exit.fuel :=
  exit_ne_fuel H wide args _ st (Nat.lt_succ_self _)

theorem loop_eq_scan (H : Helpers) (wide : Bool) (args : List Arg) (n : Nat) (st : State)
    (h : st.fmt.length < n) : format_simple_loop H wide args n st = scan H wide args st :=
  loop_fuel H wide args n _ st h (Nat.lt_succ_self _)

/-! ## One iteration of the scan -/

theorem loop_succ (H : Helpers) (wide : Bool) (args : List Arg) (n : Nat) (st : State) :
    format_simple_loop H wide args (n + 1) st =
      if (next st.fmt).1 = 0 then
        { exit := Exit.finished, st := { st with fmt := (next st.fmt).2 }, calls := [] }
      else if (next st.fmt).1 ≠ ord '%' then
        (format_simple_loop H wide args n
          { st with fmt := (next st.fmt).2, p := H.putcf st.p (next st.fmt).1 }).emit
          [Call.putcf st.p (next st.fmt).1]
      else if (next (next st.fmt).2).1 = ord '%' then
        (format_simple_loop H wide args n
          { st with fmt := (next (next st.fmt).2).2, p := H.putcf st.p (ord '%') }).emit
          [Call.putcf st.p (ord '%')]
      else if (directive H wide args (next (next st.fmt).2).1
          { st with fmt := (next (next st.fmt).2).2 }).abort then
        { exit := Exit.aborted
          st := (directive H wide args (next (next st.fmt).2).1
            { st with fmt := (next (next st.fmt).2).2 }).st
          calls := (directive H wide args (next (next st.fmt).2).1
            { st with fmt := (next (next st.fmt).2).2 }).calls }
      else
        (format_simple_loop H wide args n (directive H wide args (next (next st.fmt).2).1
            { st with fmt := (next (next st.fmt).2).2 }).st).emit
          (directive H wide args (next (next st.fmt).2).1
            { st with fmt := (next (next st.fmt).2).2 }).calls := rfl

theorem scan_nil (H : Helpers) (wide : Bool) (args : List Arg) (st : State)
    (h : st.fmt = []) :
    scan H wide args st = { exit := Exit.finished, st := st, calls := [] } := by
  cases st with
  | mk fmt p va ul l =>
    simp only at h
    subst h
    rfl

theorem scan_nul (H : Helpers) (wide : Bool) (args : List Arg) (st : State)
    (rest : List Int) (h : st.fmt = 0 :: rest) :
    scan H wide args st =
      { exit := Exit.finished, st := { st with fmt := rest }, calls := [] } := by
  cases st with
  | mk fmt p va ul l =>
    simp only at h
    subst h
    rfl

theorem scan_literal (H : Helpers) (wide : Bool) (args : List Arg) (st : State)
    (c : Int) (rest : List Int) (h : st.fmt = c :: rest) (h0 : c ≠ 0) (h1 : c ≠ ord '%') :
    scan H wide args st =
      (scan H wide args { st with fmt := rest, p := H.putcf st.p c }).emit
        [Call.putcf st.p c] := by
  rw [scan, h, List.length_cons, loop_succ, h]
  simp only [next]
  rw [if_neg h0, if_pos h1]
  rfl

theorem scan_percent (H : Helpers) (wide : Bool) (args : List Arg) (st : State)
    (rest : List Int) (h : st.fmt = ord '%' :: ord '%' :: rest) :
    scan H wide args st =
      (scan H wide args { st with fmt := rest, p := H.putcf st.p (ord '%') }).emit
        [Call.putcf st.p (ord '%')] := by
  rw [scan, h, List.length_cons, loop_succ, h]
  simp only [next]
  rw [if_neg (by decide), if_neg (by simp), if_pos trivial,
    loop_eq_scan _ _ _ _ _ (by simp only [List.length_cons]; omega)]

theorem scan_directive (H : Helpers) (wide : Bool) (args : List Arg) (st : State)
    (c : Int) (rest : List Int) (h : st.fmt = ord '%' :: c :: rest) (hc : c ≠ ord '%') :
    scan H wide args st =
      if (directive H wide args c { st with fmt := rest }).abort then
        { exit := Exit.aborted, st := (directive H wide args c { st with fmt := rest }).st
          calls := (directive H wide args c { st with fmt := rest }).calls }
      else
        (scan H wide args (directive H wide args c { st with fmt := rest }).st).emit
          (directive H wide args c { st with fmt := rest }).calls := by
  rw [scan, h, List.length_cons, loop_succ, h]
  simp only [next]
  rw [if_neg (by decide), if_neg (by simp), if_neg hc]
  have hl := (directive_suffix H wide args c { st with fmt := rest }).length_le
  simp only at hl
  rw [loop_eq_scan _ _ _ _ _ (by simp only [List.length_cons]; omega)]

/-- A lone `%` as the last byte of the memory list: the two bytes read behind it are
NUL and the scan leaves by `goto abort` after one argument fetch. -/
theorem scan_lone_percent (H : Helpers) (wide : Bool) (args : List Arg) (st : State)
    (h : st.fmt = [ord '%']) :
    (scan H wide args st).exit = Exit.aborted := by
  cases st with
  | mk fmt p va ul l =>
    simp only at h
    subst h
    rfl

/-- The pointer only moves forward: what is left of the format at the end of a scan
is a suffix of what was there at its start. -/
theorem loop_suffix (H : Helpers) (wide : Bool) (args : List Arg) :
    ∀ (n : Nat) (st : State), (format_simple_loop H wide args n st).st.fmt <:+ st.fmt := by
  intro n
  induction n with
  | zero => intro st; exact List.suffix_refl _
  | succ n ih =>
    intro st
    rw [loop_succ]
    split_ifs
    · exact next_suffix _
    · exact (ih _).trans (next_suffix _)
    · exact (ih _).trans ((next_suffix _).trans (next_suffix _))
    · exact (directive_suffix _ _ _ _ _).trans ((next_suffix _).trans (next_suffix _))
    · exact (ih _).trans ((directive_suffix _ _ _ _ _).trans
        ((next_suffix _).trans (next_suffix _)))

theorem scan_suffix (H : Helpers) (wide : Bool) (args : List Arg) (st : State) :
    (scan H wide args st).st.fmt <:+ st.fmt :=
  loop_suffix H wide args _ st

/-! ## The width scanner on a run of decimal digits -/

theorem a2d_digit (c : Int) (h : is_digit c) : pocl_printf_a2d c = c - ord '0' := by
  unfold is_digit at h
  unfold pocl_printf_a2d
  rw [if_pos ⟨h.1, h.2⟩]

theorem a2u_loop_stop (num : Nat) (t : Int) (l : List Int)
    (ht : ¬ (pocl_printf_a2d t ≥ 0 ∧ ¬ pocl_printf_a2d t > 10)) :
    a2u_loop num t l = (t, l, num) := by
  cases l with
  | nil =>
    unfold a2u_loop
    split_ifs with h1 h2
    · rfl
    · exact absurd ⟨h1, h2⟩ ht
    · rfl
  | cons c r =>
    unfold a2u_loop
    split_ifs with h1 h2
    · rfl
    · exact absurd ⟨h1, h2⟩ ht
    · rfl

/-- One step of the accumulation in `__pocl_printf_a2u` on a decimal digit. -/
theorem a2u_loop_cons_digit (num : Nat) (d c : Int) (r : List Int) (hd : is_digit d) :
    a2u_loop num d (c :: r) = a2u_loop ((num * 10 + (d - ord '0').toNat) % 2 ^ 32) c r := by
  have h := a2d_digit d hd
  unfold is_digit at hd
  simp only [ord_0, ord_9] at hd h
  rw [a2u_loop, h]
  simp only [ord_0]
  rw [if_pos (by omega), if_neg (by omega)]

theorem foldl_mod_step (ds : List Int) : ∀ (n : Nat),
    ds.foldl (fun n c => (n * 10 + (c - ord '0').toNat) % 2 ^ 32) (n % 2 ^ 32) =
      ds.foldl (fun n c => n * 10 + (c - ord '0').toNat) n % 2 ^ 32 := by
  induction ds with
  | nil => intro n; simp
  | cons c r ih =>
    intro n
    simp only [List.foldl_cons]
    rw [← ih]
    congr 1
    omega

/-- On a decimal digit `d`, a run `w` of decimal digits and a character `t` that is
neither a decimal digit nor `a` nor `A`, the width scanner returns `t`, leaves the
pointer behind `t` and yields the decimal value of `d :: w` modulo 2^32. -/
theorem a2u_loop_digits (w : List Int) : ∀ (num : Nat) (d : Int) (t : Int)
    (rest : List Int), is_digit d → (∀ c ∈ w, is_digit c) →
    ¬ (pocl_printf_a2d t ≥ 0 ∧ ¬ pocl_printf_a2d t > 10) →
    a2u_loop num d (w ++ t :: rest) =
      (t, rest, w.foldl (fun n c => (n * 10 + (c - ord '0').toNat) % 2 ^ 32)
        ((num * 10 + (d - ord '0').toNat) % 2 ^ 32)) := by
  induction w with
  | nil =>
    intro num d t rest hd _ ht
    rw [List.nil_append, a2u_loop_cons_digit num d t rest hd, a2u_loop_stop _ _ _ ht]
    rfl
  | cons c r ih =>
    intro num d t rest hd hw ht
    rw [List.cons_append, a2u_loop_cons_digit num d c _ hd,
      ih _ c t rest (hw c (List.mem_cons_self _ _))
        (fun x hx => hw x (List.mem_cons_of_mem _ hx)) ht]
    rfl

theorem a2u_digits (d : Int) (w : List Int) (t : Int) (rest : List Int)
    (hd : is_digit d) (hw : ∀ c ∈ w, is_digit c)
    (ht : ¬ (pocl_printf_a2d t ≥ 0 ∧ ¬ pocl_printf_a2d t > 10)) :
    pocl_printf_a2u d (w ++ t :: rest) = (t, rest, decimal (d :: w) % 2 ^ 32) := by
  rw [pocl_printf_a2u, a2u_loop_digits w 0 d t rest hd hw ht]
  have h := foldl_mod_step w (0 * 10 + (d - ord '0').toNat)
  rw [h]
  rfl

theorem skip_digits_run (w : List Int) (t : Int) (rest : List Int)
    (hw : ∀ c ∈ w, is_digit c) (ht : ¬ is_digit t) :
    skip_digits (w ++ t :: rest) = (t, rest) := by
  induction w with
  | nil =>
    rw [List.nil_append, skip_digits, if_neg (fun h => ht ⟨h.1, h.2⟩)]
  | cons c r ih =>
    have hc := hw c (List.mem_cons_self _ _)
    rw [List.cons_append, skip_digits, if_pos ⟨hc.1, hc.2⟩,
      ih (fun x hx => hw x (List.mem_cons_of_mem _ hx))]

/-! ## A directive, block by block -/

/-- The directive from the test for `l` on, once the position `s` after the flag,
width and precision blocks is known and its character is neither `c` nor `s`. -/
theorem directive_of_stages (H : Helpers) (wide : Bool) (args : List Arg) (ch : Int)
    (st : State) (s : Scan) (s2 : Len)
    (hs : scan_precision (scan_width (scan_flags
      { ch := ch, fmt := st.fmt, p := init_param st.p })) = s)
    (h1 : s.ch ≠ ord 'c') (h2 : s.ch ≠ ord 's')
    (hl : (scan_l wide s.ch s.fmt).map scan_h = some s2) :
    directive H wide args ch st =
      match convert H s2.ch s.p (fetch wide s2 (va_arg args st.va) st.ul st.l).1
          (fetch wide s2 (va_arg args st.va) st.ul st.l).2 with
      | none =>
        { abort := true
          st := { fmt := s2.fmt, p := s.p, va := st.va + 1
                  ul := (fetch wide s2 (va_arg args st.va) st.ul st.l).1
                  l := (fetch wide s2 (va_arg args st.va) st.ul st.l).2 }
          calls := [] }
      | some r =>
        { abort := false
          st := { fmt := s2.fmt, p := r.1, va := st.va + 1
                  ul := (fetch wide s2 (va_arg args st.va) st.ul st.l).1
                  l := (fetch wide s2 (va_arg args st.va) st.ul st.l).2 }
          calls := r.2 } := by
  unfold directive dispatch
  simp only [hs]
  rw [if_neg h1, if_neg h2]
  cases hsl : scan_l wide s.ch s.fmt with
  | none => rw [hsl] at hl; cases hl
  | some s1 =>
    rw [hsl] at hl
    simp only [Option.map_some', Option.some.injEq] at hl
    subst hl
    rfl

/-- The directive when the test for `l` leaves by `goto abort`. -/
theorem directive_of_stages_abort (H : Helpers) (wide : Bool) (args : List Arg) (ch : Int)
    (st : State) (s : Scan)
    (hs : scan_precision (scan_width (scan_flags
      { ch := ch, fmt := st.fmt, p := init_param st.p })) = s)
    (h1 : s.ch ≠ ord 'c') (h2 : s.ch ≠ ord 's')
    (hl : scan_l wide s.ch s.fmt = none) :
    directive H wide args ch st =
      { abort := true, st := { st with fmt := s.fmt, p := s.p }, calls := [] } := by
  unfold directive dispatch
  simp only [hs]
  rw [if_neg h1, if_neg h2, hl]

/-- A character that ends a run of width digits: not a decimal digit, not `a`, not `A`. -/
theorem a2u_stops_at (t : Int) (h1 : ¬ is_digit t) (h2 : t ≠ ord 'a') (h3 : t ≠ ord 'A') :
    ¬ (pocl_printf_a2d t ≥ 0 ∧ ¬ pocl_printf_a2d t > 10) := by
  unfold is_digit at h1
  unfold pocl_printf_a2d
  simp only [ord_0, ord_9, ord_a, ord_f, ord_A, ord_F] at *
  split_ifs <;> omega

/-- The width block on a (possibly empty) run `w` of decimal digits followed by a
character `t` that ends the run. -/
theorem scan_width_run (w : List Int) (t : Int) (rest : List Int) (p : param_t)
    (hw : ∀ c ∈ w, is_digit c) (h1 : ¬ is_digit t) (h2 : t ≠ ord 'a') (h3 : t ≠ ord 'A') :
    scan_width { ch := (next (w ++ t :: rest)).1, fmt := (next (w ++ t :: rest)).2, p := p }
      = { ch := t, fmt := rest
          p := { p with width := if w = [] then p.width else decimal w % 2 ^ 32 } } := by
  cases w with
  | nil =>
    simp only [List.nil_append, next, if_true]
    rw [scan_width, if_neg (fun h => h1 ⟨h.1, h.2⟩)]
  | cons d r =>
    have hd := hw d (List.mem_cons_self _ _)
    simp only [List.cons_append, next]
    rw [scan_width, if_pos ⟨hd.1, hd.2⟩]
    simp only
    rw [a2u_digits d r t rest hd (fun x hx => hw x (List.mem_cons_of_mem _ hx))
      (a2u_stops_at t h1 h2 h3)]
    simp

/-! ## Literal text -/

theorem emit_calls (cs : List Call) (r : Result) : (r.emit cs).calls = cs ++ r.calls := rfl

theorem emit_st (cs : List Call) (r : Result) : (r.emit cs).st = r.st := rfl

theorem emit_exit (cs : List Call) (r : Result) : (r.emit cs).exit = r.exit := rfl

/-- A scan started on literal characters `s` followed by a terminator. -/
theorem scan_literals (H : Helpers) (wide : Bool) (args : List Arg) (s t : List Int)
    (ht : (next t).1 = 0) : ∀ (st : State), (∀ c ∈ s, c ≠ 0 ∧ c ≠ ord '%') →
    st.fmt = s ++ t →
    (scan H wide args st).calls.map Call.char? = s.map some ∧
    (scan H wide args st).st.va = st.va ∧
    (scan H wide args st).exit = Exit.finished ∧
    (scan H wide args st).st.fmt = (next t).2 := by
  induction s with
  | nil =>
    intro st _ hfmt
    rw [List.nil_append] at hfmt
    cases t with
    | nil => rw [scan_nil H wide args st hfmt]; exact ⟨rfl, rfl, rfl, hfmt⟩
    | cons c r =>
      simp only [next] at ht
      subst ht
      rw [scan_nul H wide args st r hfmt]
      exact ⟨rfl, rfl, rfl, rfl⟩
  | cons c r ih =>
    intro st hs hfmt
    have hc := hs c (List.mem_cons_self _ _)
    rw [List.cons_append] at hfmt
    rw [scan_literal H wide args st c (r ++ t) hfmt hc.1 hc.2]
    have h := ih { st with fmt := r ++ t, p := H.putcf st.p c }
      (fun x hx => hs x (List.mem_cons_of_mem _ hx)) rfl
    rw [emit_calls, emit_st, emit_exit]
    refine ⟨?_, h.2.1, h.2.2.1, h.2.2.2⟩
    simp only [List.singleton_append, List.map_cons, Call.char?, h.1]

/-! ## Narrowing conversions -/

theorem wrapS_8_32 (a : Int) : wrapS 8 (wrapS 32 a) = (a + 2 ^ 7) % 2 ^ 8 - 2 ^ 7 := by
  simp only [wrapS]
  norm_num
  omega

theorem wrapS_16_32 (a : Int) : wrapS 16 (wrapS 32 a) = (a + 2 ^ 15) % 2 ^ 16 - 2 ^ 15 := by
  simp only [wrapS]
  norm_num
  omega

theorem wrapS_32 (a : Int) : wrapS 32 a = (a + 2 ^ 31) % 2 ^ 32 - 2 ^ 31 := rfl

theorem wrapS_64 (a : Int) : wrapS 64 a = (a + 2 ^ 63) % 2 ^ 64 - 2 ^ 63 := rfl

theorem wrapU_8_32 (a : Int) : wrapU 8 (wrapU 32 a) = (a % 2 ^ 8).toNat := by
  simp only [wrapU]
  norm_num
  omega

theorem wrapU_16_32 (a : Int) : wrapU 16 (wrapU 32 a) = (a % 2 ^ 16).toNat := by
  simp only [wrapU]
  norm_num
  omega

/-! ## The sink -/

theorem same_buf_refl (p : param_t) : same_buf p p := ⟨rfl, rfl, rfl⟩

theorem same_buf_trans {p q r : param_t} (h1 : same_buf p q) (h2 : same_buf q r) :
    same_buf p r :=
  ⟨h1.1.trans h2.1, h1.2.1.trans h2.2.1, h1.2.2.trans h2.2.2⟩

theorem same_buf_putcf {p q : param_t} (h : same_buf p q) (c : Int) :
    same_buf (spec_putcf p c) (spec_putcf q c) := by
  obtain ⟨h1, h2, h3⟩ := h
  unfold same_buf spec_putcf
  simp only [h1, h2, h3, and_self]

theorem same_buf_push (t : List Int) : ∀ {p q : param_t}, same_buf p q →
    same_buf (spec_push p t) (spec_push q t) := by
  induction t with
  | nil => intro p q h; exact h
  | cons c r ih => intro p q h; exact ih (same_buf_putcf h c)

theorem spec_push_append (p : param_t) (t u : List Int) :
    spec_push p (t ++ u) = spec_push (spec_push p t) u := by
  unfold spec_push
  rw [List.foldl_append]

theorem spec_push_index (t : List Int) : ∀ (p : param_t),
    (spec_push p t).printf_buffer_index = p.printf_buffer_index + t.length := by
  induction t with
  | nil => intro p; rfl
  | cons c r ih =>
    intro p
    show (spec_push (spec_putcf p c) r).printf_buffer_index = _
    rw [ih]
    simp only [spec_putcf, List.length_cons]
    omega

theorem spec_push_capacity (t : List Int) : ∀ (p : param_t),
    (spec_push p t).printf_buffer_capacity = p.printf_buffer_capacity := by
  induction t with
  | nil => intro p; rfl
  | cons c r ih =>
    intro p
    show (spec_push (spec_putcf p c) r).printf_buffer_capacity = _
    rw [ih]
    rfl

theorem spec_push_length (t : List Int) : ∀ (p : param_t),
    (spec_push p t).printf_buffer.length = p.printf_buffer.length := by
  induction t with
  | nil => intro p; rfl
  | cons c r ih =>
    intro p
    show (spec_push (spec_putcf p c) r).printf_buffer.length = _
    rw [ih]
    simp only [spec_putcf]
    split_ifs
    · exact List.length_set _ _ _
    · rfl

/-- The sink stores nothing in front of the cursor and nothing at or behind the
capacity. -/
theorem spec_push_outside (t : List Int) : ∀ (p : param_t) (o : Nat),
    o < p.printf_buffer_index ∨ p.printf_buffer_capacity ≤ o →
    (spec_push p t).printf_buffer[o]? = p.printf_buffer[o]? := by
  induction t with
  | nil => intro p o _; rfl
  | cons c r ih =>
    intro p o ho
    show (spec_push (spec_putcf p c) r).printf_buffer[o]? = _
    rw [ih (spec_putcf p c) o (by simp only [spec_putcf]; omega)]
    simp only [spec_putcf]
    split_ifs with hlt
    · exact List.getElem?_set_ne (by omega)
    · rfl

/-- Inside the buffer and below the capacity, the sink stores the pushed characters
in order from the cursor on. -/
theorem spec_push_inside (t : List Int) : ∀ (p : param_t) (o : Nat),
    p.printf_buffer_index ≤ o → o < p.printf_buffer_index + t.length →
    o < p.printf_buffer_capacity → o < p.printf_buffer.length →
    (spec_push p t).printf_buffer[o]? = t[o - p.printf_buffer_index]? := by
  induction t with
  | nil =>
    intro p o h1 h2 _ _
    simp only [List.length_nil] at h2
    omega
  | cons c r ih =>
    intro p o h1 h2 h3 h4
    show (spec_push (spec_putcf p c) r).printf_buffer[o]? = _
    by_cases heq : o = p.printf_buffer_index
    · rw [spec_push_outside r (spec_putcf p c) o (by simp only [spec_putcf]; omega)]
      subst heq
      simp only [spec_putcf, if_pos h3, Nat.sub_self, List.getElem?_cons_zero]
      exact List.getElem?_set_self h4
    · have hlen : (spec_putcf p c).printf_buffer.length = p.printf_buffer.length := by
        simp only [spec_putcf]
        split_ifs
        · exact List.length_set _ _ _
        · rfl
      rw [ih (spec_putcf p c) o (by simp only [spec_putcf]; omega)
        (by simp only [spec_putcf, List.length_cons] at h2 ⊢; omega)
        (by simpa only [spec_putcf] using h3) (by rw [hlen]; exact h4)]
      have hs : o - p.printf_buffer_index = (o - (p.printf_buffer_index + 1)) + 1 := by
        omega
      rw [hs, List.getElem?_cons_succ]
      rfl

/-! ## The scan over the sink -/

theorem produced_nil (ru : param_t → Nat → List Int) (rl : param_t → Int → List Int) :
    produced ru rl [] = [] := rfl

theorem produced_append (ru : param_t → Nat → List Int) (rl : param_t → Int → List Int)
    (cs ds : List Call) : produced ru rl (cs ++ ds) = produced ru rl cs ++ produced ru rl ds := by
  unfold produced
  exact List.flatMap_append _ _ _

theorem produced_single (ru : param_t → Nat → List Int) (rl : param_t → Int → List Int)
    (c : Call) : produced ru rl [c] = Call.text ru rl c := by
  unfold produced
  simp

theorem init_param_same_buf (p : param_t) : same_buf (init_param p) p := ⟨rfl, rfl, rfl⟩

theorem scan_flags_same_buf (s : Scan) : same_buf (scan_flags s).p s.p := by
  unfold scan_flags
  split_ifs <;> exact ⟨rfl, rfl, rfl⟩

theorem scan_width_same_buf (s : Scan) : same_buf (scan_width s).p s.p := by
  unfold scan_width
  split_ifs <;> exact ⟨rfl, rfl, rfl⟩

theorem scan_precision_same_buf (s : Scan) : same_buf (scan_precision s).p s.p := by
  unfold scan_precision
  split_ifs <;> exact ⟨rfl, rfl, rfl⟩

theorem stages_same_buf (ch : Int) (fmt : List Int) (p : param_t) :
    same_buf (scan_precision (scan_width (scan_flags
      { ch := ch, fmt := fmt, p := init_param p }))).p p :=
  same_buf_trans (scan_precision_same_buf _) (same_buf_trans (scan_width_same_buf _)
    (same_buf_trans (scan_flags_same_buf _) (init_param_same_buf p)))

theorem convert_sink (ru : param_t → Nat → List Int) (rl : param_t → Int → List Int)
    (ch : Int) (p : param_t) (ul : Nat) (l : Int) (r : param_t × List Call)
    (h : convert (sink_helpers ru rl) ch p ul l = some r) :
    same_buf r.1 (spec_push p (produced ru rl r.2)) := by
  unfold convert at h
  split_ifs at h <;> cases h
  · rw [produced_single]
    exact same_buf_push _ ⟨rfl, rfl, rfl⟩
  · rw [produced_single]
    exact same_buf_push _ ⟨rfl, rfl, rfl⟩
  · rw [produced_single]
    exact same_buf_push _ ⟨rfl, rfl, rfl⟩
  · rw [produced_single]
    exact same_buf_push _ ⟨rfl, rfl, rfl⟩
  · rw [produced_single]
    exact same_buf_push _ ⟨rfl, rfl, rfl⟩
  · exact same_buf_refl _

theorem directive_sink (ru : param_t → Nat → List Int) (rl : param_t → Int → List Int)
    (wide : Bool) (args : List Arg) (ch : Int) (st : State) :
    same_buf (directive (sink_helpers ru rl) wide args ch st).st.p
      (spec_push st.p (produced ru rl (directive (sink_helpers ru rl) wide args ch st).calls)) := by
  have hs := stages_same_buf ch st.fmt st.p
  unfold directive dispatch
  simp only
  split_ifs
  · rw [produced_single]
    exact same_buf_putcf hs _
  · rw [produced_single]
    exact same_buf_push _ hs
  · split
    · exact hs
    · split
      · exact hs
      · rename_i r hr
        exact same_buf_trans (convert_sink ru rl _ _ _ _ r hr) (same_buf_push _ hs)

/-- Over the sink, the buffer, cursor and capacity at the end of a scan are those
obtained by pushing the characters of all calls, in order, from the initial request. -/
theorem loop_sink (ru : param_t → Nat → List Int) (rl : param_t → Int → List Int)
    (wide : Bool) (args : List Arg) : ∀ (n : Nat) (st : State),
    same_buf (format_simple_loop (sink_helpers ru rl) wide args n st).st.p
      (spec_push st.p
        (produced ru rl (format_simple_loop (sink_helpers ru rl) wide args n st).calls)) := by
  intro n
  induction n with
  | zero => intro st; exact same_buf_refl _
  | succ n ih =>
    intro st
    rw [loop_succ]
    split_ifs
    · exact same_buf_refl _
    · rw [emit_calls, emit_st, produced_append, spec_push_append, produced_single]
      exact ih _
    · rw [emit_calls, emit_st, produced_append, spec_push_append, produced_single]
      exact ih _
    · exact directive_sink ru rl wide args _ _
    · rw [emit_calls, emit_st, produced_append, spec_push_append]
      exact same_buf_trans (ih _) (same_buf_push _ (directive_sink ru rl wide args _ _))

theorem produced_of_chars (ru : param_t → Nat → List Int) (rl : param_t → Int → List Int) :
    ∀ (cs : List Call) (s : List Int), cs.map Call.char? = s.map some →
      produced ru rl cs = s := by
  intro cs
  induction cs with
  | nil =>
    intro s h
    cases s with
    | nil => rfl
    | cons x r => simp at h
  | cons k ks ih =>
    intro s h
    cases s with
    | nil => simp at h
    | cons x r =>
      simp only [List.map_cons, List.cons.injEq] at h
      have hk : Call.text ru rl k = [x] := by
        cases k with
        | putcf q y =>
          simp only [Call.char?, Option.some.injEq] at h
          simp [Call.text, h.1]
        | puts q y => simp [Call.char?] at h
        | ulong q y => simp [Call.char?] at h
        | long q y => simp [Call.char?] at h
      have := ih r h.2
      rw [show k :: ks = [k] ++ ks from rfl, produced_append, produced_single, hk, this]
      rfl

/-- The request `__pocl_printf` starts from. -/
theorem pocl_printf_eq (H : Helpers) (wide : Bool) (buf : List Int) (c N : Nat)
    (fmt : List Int) (args : List Arg) (ul0 : Nat) (l0 : Int) :
    pocl_printf H wide buf c N fmt args ul0 l0 =
      { ret := 0
        buffer_index := (pocl_printf_format_simple H wide fmt
          { param_zero with printf_buffer := buf, printf_buffer_capacity := N
                            printf_buffer_index := c } args ul0 l0).st.p.printf_buffer_index
        buffer := (pocl_printf_format_simple H wide fmt
          { param_zero with printf_buffer := buf, printf_buffer_capacity := N
                            printf_buffer_index := c } args ul0 l0).st.p.printf_buffer } := rfl

/-! ## A format with more text behind it -/

theorem next_sync (X F : List Int) (hF : ∀ c ∈ F, c ≠ 0) :
    Sync X (next F).1 (next F).2 (next (F ++ X)).1 (next (F ++ X)).2 := by
  cases F with
  | nil => exact Or.inr ⟨rfl, rfl⟩
  | cons c r => exact Or.inl ⟨hF c (List.mem_cons_self _ _), rfl, rfl⟩

theorem next_nonzero (F : List Int) (hF : ∀ c ∈ F, c ≠ 0) : ∀ c ∈ (next F).2, c ≠ 0 :=
  fun c hc => hF c ((next_suffix F).subset hc)

theorem a2u_loop_sync (X : List Int) : ∀ (F : List Int) (num : Nat) (ch : Int),
    (∀ c ∈ F, c ≠ 0) → ch ≠ 0 →
    Sync X (a2u_loop num ch F).1 (a2u_loop num ch F).2.1
      (a2u_loop num ch (F ++ X)).1 (a2u_loop num ch (F ++ X)).2.1 ∧
    ((a2u_loop num ch F).1 ≠ 0 →
      (a2u_loop num ch (F ++ X)).2.2 = (a2u_loop num ch F).2.2) := by
  intro F
  induction F with
  | nil =>
    intro num ch _ hch
    by_cases hd : pocl_printf_a2d ch ≥ 0 ∧ ¬ pocl_printf_a2d ch > 10
    · have h : a2u_loop num ch [] =
          (0, [], (num * 10 + (pocl_printf_a2d ch).toNat) % 2 ^ 32) := by
        rw [a2u_loop, if_pos hd.1, if_neg hd.2]
      rw [h]
      exact ⟨Or.inr ⟨rfl, rfl⟩, fun h0 => absurd rfl h0⟩
    · rw [a2u_loop_stop num ch [] hd, List.nil_append, a2u_loop_stop num ch X hd]
      exact ⟨Or.inl ⟨hch, rfl, rfl⟩, fun _ => rfl⟩
  | cons c r ih =>
    intro num ch hF hch
    by_cases hd : pocl_printf_a2d ch ≥ 0 ∧ ¬ pocl_printf_a2d ch > 10
    · have h1 : a2u_loop num ch (c :: r) =
          a2u_loop ((num * 10 + (pocl_printf_a2d ch).toNat) % 2 ^ 32) c r := by
        rw [a2u_loop, if_pos hd.1, if_neg hd.2]
      have h2 : a2u_loop num ch (c :: r ++ X) =
          a2u_loop ((num * 10 + (pocl_printf_a2d ch).toNat) % 2 ^ 32) c (r ++ X) := by
        rw [List.cons_append, a2u_loop, if_pos hd.1, if_neg hd.2]
      rw [h1, h2]
      exact ih _ c (fun x hx => hF x (List.mem_cons_of_mem _ hx))
        (hF c (List.mem_cons_self _ _))
    · rw [a2u_loop_stop num ch _ hd, a2u_loop_stop num ch _ hd]
      exact ⟨Or.inl ⟨hch, rfl, rfl⟩, fun _ => rfl⟩

theorem skip_digits_sync (X : List Int) : ∀ (F : List Int), (∀ c ∈ F, c ≠ 0) →
    Sync X (skip_digits F).1 (skip_digits F).2
      (skip_digits (F ++ X)).1 (skip_digits (F ++ X)).2 := by
  intro F
  induction F with
  | nil => intro _; exact Or.inr ⟨rfl, rfl⟩
  | cons c r ih =>
    intro hF
    by_cases hd : c ≥ ord '0' ∧ c ≤ ord '9'
    · rw [List.cons_append, skip_digits, skip_digits, if_pos hd, if_pos hd]
      exact ih (fun x hx => hF x (List.mem_cons_of_mem _ hx))
    · rw [List.cons_append, skip_digits, skip_digits, if_neg hd, if_neg hd]
      exact Or.inl ⟨hF c (List.mem_cons_self _ _), rfl, rfl⟩

theorem scan_flags_p (s : Scan) :
    (scan_flags s).p =
      if s.ch < ord '1' then
        if s.ch = ord '-' then { s.p with flags := { s.p.flags with align_left := true } }
        else if s.ch = ord '0' then { s.p with flags := { s.p.flags with zero := true } }
        else if s.ch = ord '#' then { s.p with flags := { s.p.flags with alt := true } }
        else s.p
      else s.p := by
  unfold scan_flags
  by_cases h : s.ch < ord '1'
  · rw [if_pos h, if_pos h]
  · rw [if_neg h, if_neg h]

theorem scan_flags_sync (X : List Int) (s s' : Scan) (hF : ∀ c ∈ s.fmt, c ≠ 0)
    (h : ScanSync X s s') : ScanSync X (scan_flags s) (scan_flags s') := by
  obtain ⟨hsy, hp⟩ := h
  unfold ScanSync
  rw [scan_flags_ch s, scan_flags_fmt s, scan_flags_p s, scan_flags_ch s',
    scan_flags_fmt s', scan_flags_p s']
  rcases hsy with ⟨h0, hc, hf⟩ | ⟨h0, hf⟩
  · rw [hc, hf, hp h0]
    by_cases hlt : s.ch < ord '1'
    · repeat rw [if_pos hlt]
      exact ⟨next_sync X s.fmt hF, fun _ => rfl⟩
    · repeat rw [if_neg hlt]
      exact ⟨Or.inl ⟨h0, rfl, rfl⟩, fun _ => rfl⟩
  · have hlt : s.ch < ord '1' := by rw [h0]; decide
    repeat rw [if_pos hlt]
    rw [hf]
    exact ⟨Or.inr ⟨rfl, rfl⟩, fun h => absurd rfl h⟩

theorem scan_width_sync (X : List Int) (s s' : Scan) (hF : ∀ c ∈ s.fmt, c ≠ 0)
    (h : ScanSync X s s') : ScanSync X (scan_width s) (scan_width s') := by
  obtain ⟨hsy, hp⟩ := h
  rcases hsy with ⟨h0, hc, hf⟩ | ⟨h0, hf⟩
  · have hp' := hp h0
    by_cases hd : s.ch ≥ ord '0' ∧ s.ch ≤ ord '9'
    · have hd' : s'.ch ≥ ord '0' ∧ s'.ch ≤ ord '9' := by rw [hc]; exact hd
      have hs := a2u_loop_sync X s.fmt 0 s.ch hF h0
      unfold ScanSync scan_width
      rw [if_pos hd, if_pos hd']
      simp only [pocl_printf_a2u, hc, hf, hp']
      exact ⟨hs.1, fun hne => by rw [hs.2 hne]⟩
    · have hd' : ¬ (s'.ch ≥ ord '0' ∧ s'.ch ≤ ord '9') := by rw [hc]; exact hd
      unfold ScanSync scan_width
      rw [if_neg hd, if_neg hd']
      exact ⟨Or.inl ⟨h0, hc, hf⟩, fun _ => hp'⟩
  · have hd : ¬ (s.ch ≥ ord '0' ∧ s.ch ≤ ord '9') := by rw [h0]; decide
    unfold ScanSync
    rw [show scan_width s = s from by rw [scan_width, if_neg hd]]
    exact ⟨Or.inr ⟨h0, hf⟩, fun h => absurd h0 h⟩

theorem scan_precision_sync (X : List Int) (s s' : Scan) (hF : ∀ c ∈ s.fmt, c ≠ 0)
    (h : ScanSync X s s') : ScanSync X (scan_precision s) (scan_precision s') := by
  obtain ⟨hsy, hp⟩ := h
  rcases hsy with ⟨h0, hc, hf⟩ | ⟨h0, hf⟩
  · have hp' := hp h0
    by_cases hd : s.ch = ord '.'
    · have hd' : s'.ch = ord '.' := by rw [hc]; exact hd
      unfold ScanSync scan_precision
      rw [if_pos hd, if_pos hd']
      rw [hf, hp']
      exact ⟨skip_digits_sync X s.fmt hF, fun _ => rfl⟩
    · have hd' : ¬ s'.ch = ord '.' := by rw [hc]; exact hd
      unfold ScanSync scan_precision
      rw [if_neg hd, if_neg hd']
      exact ⟨Or.inl ⟨h0, hc, hf⟩, fun _ => hp'⟩
  · have hd : ¬ s.ch = ord '.' := by rw [h0]; decide
    unfold ScanSync
    rw [show scan_precision s = s from by rw [scan_precision, if_neg hd]]
    exact ⟨Or.inr ⟨h0, hf⟩, fun h => absurd h0 h⟩

theorem suffix_nonzero {F G : List Int} (h : G <:+ F) (hF : ∀ c ∈ F, c ≠ 0) :
    ∀ c ∈ G, c ≠ 0 :=
  fun c hc => hF c (h.subset hc)

/-- The flag, width and precision blocks on a format with more text behind it. -/
theorem stages_sync (X : List Int) (ch : Int) (F : List Int) (p : param_t)
    (hF : ∀ c ∈ F, c ≠ 0) (hch : ch ≠ 0) :
    ScanSync X
      (scan_precision (scan_width (scan_flags { ch := ch, fmt := F, p := p })))
      (scan_precision (scan_width (scan_flags { ch := ch, fmt := F ++ X, p := p }))) := by
  have h0 : ScanSync X { ch := ch, fmt := F, p := p } { ch := ch, fmt := F ++ X, p := p } :=
    ⟨Or.inl ⟨hch, rfl, rfl⟩, fun _ => rfl⟩
  have h1 := scan_flags_sync X _ _ hF h0
  have hF1 := suffix_nonzero (scan_flags_suffix { ch := ch, fmt := F, p := p }) hF
  have h2 := scan_width_sync X _ _ hF1 h1
  have hF2 := suffix_nonzero (scan_width_suffix (scan_flags { ch := ch, fmt := F, p := p })) hF1
  exact scan_precision_sync X _ _ hF2 h2

theorem dispatch_numeric (H : Helpers) (wide : Bool) (args : List Arg) (s : Scan)
    (st : State) (s2 : Len) (h1 : s.ch ≠ ord 'c') (h2 : s.ch ≠ ord 's')
    (hl : (scan_l wide s.ch s.fmt).map scan_h = some s2) :
    dispatch H wide args s st =
      match convert H s2.ch s.p (fetch wide s2 (va_arg args st.va) st.ul st.l).1
          (fetch wide s2 (va_arg args st.va) st.ul st.l).2 with
      | none =>
        { abort := true
          st := { fmt := s2.fmt, p := s.p, va := st.va + 1
                  ul := (fetch wide s2 (va_arg args st.va) st.ul st.l).1
                  l := (fetch wide s2 (va_arg args st.va) st.ul st.l).2 }
          calls := [] }
      | some r =>
        { abort := false
          st := { fmt := s2.fmt, p := r.1, va := st.va + 1
                  ul := (fetch wide s2 (va_arg args st.va) st.ul st.l).1
                  l := (fetch wide s2 (va_arg args st.va) st.ul st.l).2 }
          calls := r.2 } := by
  unfold dispatch
  rw [if_neg h1, if_neg h2]
  cases hsl : scan_l wide s.ch s.fmt with
  | none => rw [hsl] at hl; cases hl
  | some s1 =>
    rw [hsl] at hl
    simp only [Option.map_some', Option.some.injEq] at hl
    subst hl
    rfl

theorem dispatch_l_abort (H : Helpers) (wide : Bool) (args : List Arg) (s : Scan)
    (st : State) (h1 : s.ch ≠ ord 'c') (h2 : s.ch ≠ ord 's')
    (hl : scan_l wide s.ch s.fmt = none) :
    dispatch H wide args s st =
      { abort := true, st := { st with fmt := s.fmt, p := s.p }, calls := [] } := by
  unfold dispatch
  rw [if_neg h1, if_neg h2, hl]

theorem convert_nul (H : Helpers) (p : param_t) (ul : Nat) (l : Int) :
    convert H 0 p ul l = none := by
  unfold convert
  rw [if_pos rfl]

theorem convert_eq_none (H : Helpers) (ch : Int) (p : param_t) (ul : Nat) (l : Int) :
    convert H ch p ul l = none ↔ ch = 0 := by
  unfold convert
  split_ifs with h <;> simp [h]

theorem scan_l_sync (X : List Int) (wide : Bool) (ch : Int) (F : List Int)
    (hF : ∀ c ∈ F, c ≠ 0) (hch : ch ≠ 0) :
    (scan_l wide ch F = none ∧ scan_l wide ch (F ++ X) = none) ∨
    ∃ a b, scan_l wide ch F = some a ∧ scan_l wide ch (F ++ X) = some b ∧ LenSync X a b := by
  unfold scan_l
  by_cases hl : ch = ord 'l'
  · rw [if_pos hl, if_pos hl]
    cases wide with
    | false => exact Or.inl ⟨rfl, rfl⟩
    | true =>
      exact Or.inr ⟨_, _, rfl, rfl, next_sync X F hF, fun _ => ⟨rfl, rfl⟩⟩
  · rw [if_neg hl, if_neg hl]
    exact Or.inr ⟨_, _, rfl, rfl, Or.inl ⟨hch, rfl, rfl⟩, fun _ => ⟨rfl, rfl⟩⟩

theorem scan_l_suffix_nonzero {wide : Bool} {ch : Int} {F : List Int} {a : Len}
    (h : scan_l wide ch F = some a) (hF : ∀ c ∈ F, c ≠ 0) : ∀ c ∈ a.fmt, c ≠ 0 :=
  suffix_nonzero (scan_l_suffix h) hF

theorem scan_h_sync (X : List Int) (a b : Len) (hF : ∀ c ∈ a.fmt, c ≠ 0)
    (h : LenSync X a b) : LenSync X (scan_h a) (scan_h b) := by
  obtain ⟨hsy, hp⟩ := h
  rcases hsy with ⟨h0, hc, hf⟩ | ⟨h0, hf⟩
  · obtain ⟨hlng, hshr⟩ := hp h0
    by_cases hh : a.ch = ord 'h'
    · have hh' : b.ch = ord 'h' := by rw [hc]; exact hh
      have hn := next_sync X a.fmt hF
      unfold LenSync scan_h
      rw [if_pos hh, if_pos hh', hf]
      rcases hn with ⟨n0, nc, nf⟩ | ⟨n0, nf⟩
      · rw [nc, nf]
        by_cases h2 : (next a.fmt).1 = ord 'h'
        · rw [if_pos h2, if_pos h2]
          exact ⟨next_sync X _ (next_nonzero a.fmt hF), fun _ => ⟨hlng, rfl⟩⟩
        · rw [if_neg h2, if_neg h2]
          exact ⟨Or.inl ⟨n0, rfl, rfl⟩, fun _ => ⟨hlng, rfl⟩⟩
      · have h2 : ¬ (next a.fmt).1 = ord 'h' := by rw [n0]; decide
        rw [if_neg h2]
        refine ⟨Or.inr ⟨n0, nf⟩, fun h => absurd n0 h⟩
    · have hh' : ¬ b.ch = ord 'h' := by rw [hc]; exact hh
      unfold LenSync scan_h
      rw [if_neg hh, if_neg hh']
      exact ⟨Or.inl ⟨h0, hc, hf⟩, fun _ => ⟨hlng, hshr⟩⟩
  · have hh : ¬ a.ch = ord 'h' := by rw [h0]; decide
    unfold LenSync
    rw [show scan_h a = a from by rw [scan_h, if_neg hh]]
    exact ⟨Or.inr ⟨h0, hf⟩, fun h => absurd h0 h⟩

theorem fetch_congr (wide : Bool) (a b : Len) (x : Arg) (ul : Nat) (l : Int)
    (h1 : b.ch = a.ch) (h2 : b.lng = a.lng) (h3 : b.shr = a.shr) :
    fetch wide b x ul l = fetch wide a x ul l := by
  unfold fetch
  rw [h1, h2, h3]

/-- The second half of a directive on a format with more text behind it: when it does
not abort on the shorter format, it does the same on the longer one and leaves the
extra text in front of the pointer. -/
theorem dispatch_sync (H : Helpers) (wide : Bool) (args : List Arg) (X : List Int)
    (s s' : Scan) (st : State) (hF : ∀ c ∈ s.fmt, c ≠ 0) (h : ScanSync X s s')
    (hab : (dispatch H wide args s st).abort = false) :
    dispatch H wide args s' st =
      { abort := false
        st := { (dispatch H wide args s st).st with
                fmt := (dispatch H wide args s st).st.fmt ++ X }
        calls := (dispatch H wide args s st).calls } := by
  obtain ⟨hsy, hp⟩ := h
  rcases hsy with ⟨h0, hc, hf⟩ | ⟨h0, hf⟩
  · have hp' := hp h0
    by_cases h1 : s.ch = ord 'c'
    · have h1' : s'.ch = ord 'c' := by rw [hc]; exact h1
      unfold dispatch
      rw [if_pos h1, if_pos h1', hf, hp']
    · by_cases h2 : s.ch = ord 's'
      · have h1' : ¬ s'.ch = ord 'c' := by rw [hc]; exact h1
        have h2' : s'.ch = ord 's' := by rw [hc]; exact h2
        unfold dispatch
        rw [if_neg h1, if_neg h1', if_pos h2, if_pos h2', hf, hp']
      · have h1' : s'.ch ≠ ord 'c' := by rw [hc]; exact h1
        have h2' : s'.ch ≠ ord 's' := by rw [hc]; exact h2
        rcases scan_l_sync X wide s.ch s.fmt hF h0 with ⟨hn, _⟩ | ⟨a, b, ha, hb, hlen⟩
        · rw [dispatch_l_abort H wide args s st h1 h2 hn] at hab
          cases hab
        · have hFa := scan_l_suffix_nonzero ha hF
          obtain ⟨hsy2, hp2⟩ := scan_h_sync X a b hFa hlen
          have e1 := dispatch_numeric H wide args s st (scan_h a) h1 h2 (by rw [ha]; rfl)
          have e2 := dispatch_numeric H wide args s' st (scan_h b) h1' h2'
            (by rw [hc, hf, hb]; rfl)
          rw [e1] at hab
          rw [e1, e2]
          rcases hsy2 with ⟨z0, zc, zf⟩ | ⟨z0, zf⟩
          · obtain ⟨zl, zs⟩ := hp2 z0
            rw [fetch_congr wide (scan_h a) (scan_h b) _ _ _ zc zl zs, zc, zf, hp']
            cases hcv : convert H (scan_h a).ch s.p
                (fetch wide (scan_h a) (va_arg args st.va) st.ul st.l).1
                (fetch wide (scan_h a) (va_arg args st.va) st.ul st.l).2 with
            | none => rw [hcv] at hab; cases hab
            | some r => rfl
          · rw [z0, convert_nul] at hab
            cases hab
  · have h1 : s.ch ≠ ord 'c' := by rw [h0]; decide
    have h2 : s.ch ≠ ord 's' := by rw [h0]; decide
    have hl : (scan_l wide s.ch s.fmt).map scan_h =
        some { ch := 0, fmt := [], lng := 0, shr := 0 } := by
      rw [h0, hf, scan_l, if_neg (by decide)]
      rfl
    rw [dispatch_numeric H wide args s st _ h1 h2 hl] at hab
    simp only [convert_nul] at hab
    cases hab

/-- A directive on a format with more text behind it. -/
theorem directive_append (H : Helpers) (wide : Bool) (args : List Arg) (X : List Int)
    (ch : Int) (st : State) (hF : ∀ c ∈ st.fmt, c ≠ 0) (hch : ch ≠ 0)
    (hab : (directive H wide args ch st).abort = false) :
    directive H wide args ch { st with fmt := st.fmt ++ X } =
      { abort := false
        st := { (directive H wide args ch st).st with
                fmt := (directive H wide args ch st).st.fmt ++ X }
        calls := (directive H wide args ch st).calls } := by
  have hs := stages_sync X ch st.fmt (init_param st.p) hF hch
  have hF3 : ∀ c ∈ (scan_precision (scan_width (scan_flags
      { ch := ch, fmt := st.fmt, p := init_param st.p }))).fmt, c ≠ 0 :=
    suffix_nonzero ((scan_precision_suffix _).trans
      ((scan_width_suffix _).trans (scan_flags_suffix _))) hF
  have h := dispatch_sync H wide args X _ _ st hF3 hs hab
  exact h

theorem emit_nil (r : Result) : r.emit [] = r := rfl

theorem emit_emit (a b : List Call) (r : Result) : (r.emit a).emit b = r.emit (b ++ a) := by
  unfold Result.emit
  simp only [List.append_assoc]

/-- A format that the scan finishes, with more text `X` behind it instead of the
terminator: the scan does on it what it does on the format alone, and then goes on
with `X` from the state it has reached. -/
theorem scan_append (H : Helpers) (wide : Bool) (args : List Arg) (X : List Int) :
    ∀ (n : Nat) (fmt : List Int) (p : param_t) (va ul : Nat) (l : Int),
    fmt.length ≤ n → (∀ c ∈ fmt, c ≠ 0) →
    (scan H wide args { fmt := fmt, p := p, va := va, ul := ul, l := l }).exit
      = Exit.finished →
    scan H wide args { fmt := fmt ++ X, p := p, va := va, ul := ul, l := l } =
      (scan H wide args
        { (scan H wide args { fmt := fmt, p := p, va := va, ul := ul, l := l }).st with
          fmt := X }).emit
        (scan H wide args { fmt := fmt, p := p, va := va, ul := ul, l := l }).calls := by
  intro n
  induction n with
  | zero =>
    intro fmt p va ul l hlen _ _
    have : fmt = [] := List.length_eq_zero.mp (Nat.le_zero.mp hlen)
    subst this
    rw [scan_nil H wide args { fmt := [], p := p, va := va, ul := ul, l := l } rfl]
    rfl
  | succ n ih =>
    intro fmt p va ul l hlen hF hfin
    cases fmt with
    | nil =>
      rw [scan_nil H wide args { fmt := [], p := p, va := va, ul := ul, l := l } rfl]
      rfl
    | cons c r =>
      have hc0 : c ≠ 0 := hF c (List.mem_cons_self _ _)
      have hFr : ∀ x ∈ r, x ≠ 0 := fun x hx => hF x (List.mem_cons_of_mem _ hx)
      have hlr : r.length ≤ n := by simp only [List.length_cons] at hlen; omega
      by_cases hpc : c = ord '%'
      · subst hpc
        cases r with
        | nil =>
          rw [scan_lone_percent H wide args _ rfl] at hfin
          cases hfin
        | cons c2 r2 =>
          have hc2 : c2 ≠ 0 := hFr c2 (List.mem_cons_self _ _)
          have hFr2 : ∀ x ∈ r2, x ≠ 0 := fun x hx => hFr x (List.mem_cons_of_mem _ hx)
          have hlr2 : r2.length ≤ n := by simp only [List.length_cons] at hlr; omega
          by_cases hpc2 : c2 = ord '%'
          · subst hpc2
            have e1 := scan_percent H wide args
              { fmt := ord '%' :: ord '%' :: r2, p := p, va := va, ul := ul, l := l } r2 rfl
            have e2 := scan_percent H wide args
              { fmt := ord '%' :: ord '%' :: r2 ++ X, p := p, va := va, ul := ul, l := l }
              (r2 ++ X) rfl
            rw [e1, emit_exit] at hfin
            rw [e1, e2, ih r2 _ va ul l hlr2 hFr2 hfin, emit_emit, emit_st, emit_calls]
          · have e1 := scan_directive H wide args
              { fmt := ord '%' :: c2 :: r2, p := p, va := va, ul := ul, l := l } c2 r2 rfl hpc2
            have e2 := scan_directive H wide args
              { fmt := ord '%' :: c2 :: r2 ++ X, p := p, va := va, ul := ul, l := l }
              c2 (r2 ++ X) rfl hpc2
            rw [e1] at hfin
            rw [e1, e2]
            cases hab : (directive H wide args c2
                { fmt := r2, p := p, va := va, ul := ul, l := l }).abort with
            | true =>
              simp only [hab, if_true] at hfin
              cases hfin
            | false =>
              have hd := directive_append H wide args X c2
                { fmt := r2, p := p, va := va, ul := ul, l := l } hFr2 hc2 hab
              simp only [hab, Bool.false_eq_true, if_false] at hfin ⊢
              rw [emit_exit] at hfin
              simp only at hd
              rw [hd]
              simp only [Bool.false_eq_true, if_false]
              have hsuf := directive_suffix H wide args c2
                { fmt := r2, p := p, va := va, ul := ul, l := l }
              have h := ih _ _ _ _ _ (le_trans hsuf.length_le hlr2)
                (suffix_nonzero hsuf hFr2) hfin
              rw [h, emit_emit, emit_st, emit_calls]
      · have e1 := scan_literal H wide args
          { fmt := c :: r, p := p, va := va, ul := ul, l := l } c r rfl hc0 hpc
        have e2 := scan_literal H wide args
          { fmt := c :: r ++ X, p := p, va := va, ul := ul, l := l } c (r ++ X) rfl hc0 hpc
        rw [e1, emit_exit] at hfin
        rw [e1, e2, ih r _ va ul l hlr hFr hfin, emit_emit, emit_st, emit_calls]

/-! ## The head of a directive: flag, width, precision -/

theorem scan_flags_take (s : Scan) (h : s.ch < ord '1') :
    scan_flags s = { ch := (next s.fmt).1, fmt := (next s.fmt).2, p := (scan_flags s).p } := by
  have h1 := scan_flags_ch s
  have h2 := scan_flags_fmt s
  rw [if_pos h] at h1 h2
  cases hs : scan_flags s with
  | mk ch fmt p =>
    rw [hs] at h1 h2
    simp only at h1 h2
    rw [h1, h2]

theorem scan_flags_skip (s : Scan) (h : ¬ s.ch < ord '1') : scan_flags s = s := by
  rw [scan_flags, if_neg h]

theorem ends_run_facts (t : Int) (ht : ends_run t) :
    ¬ t < ord '1' ∧ ¬ is_digit t ∧ t ≠ ord 'a' ∧ t ≠ ord 'A' ∧ t ≠ ord '.' ∧
      t ≠ ord '%' ∧ ¬ (t ≥ ord '0' ∧ t ≤ ord '9') := by
  unfold ends_run at ht
  unfold is_digit
  simp only [ord_9, ord_a, ord_A, ord_1, ord_0, ord_dot, ord_pct] at *
  omega

/-- Behind the flag block, width digits `w` and an optional `.` with digits bring the
scanner to the character `t` that follows them. -/
theorem width_precision_run (w pr R : List Int) (t : Int) (p1 : param_t)
    (ht : ends_run t) (hw : ∀ d ∈ w, is_digit d)
    (hpr : pr = [] ∨ ∃ ds, pr = ord '.' :: ds ∧ ∀ d ∈ ds, is_digit d) :
    (scan_precision (scan_width
      { ch := (next (w ++ pr ++ t :: R)).1
        fmt := (next (w ++ pr ++ t :: R)).2, p := p1 })).ch = t ∧
    (scan_precision (scan_width
      { ch := (next (w ++ pr ++ t :: R)).1
        fmt := (next (w ++ pr ++ t :: R)).2, p := p1 })).fmt = R := by
  obtain ⟨_, t2, t3, t4, t5, _, _⟩ := ends_run_facts t ht
  rcases hpr with rfl | ⟨ds, rfl, hds⟩
  · rw [List.append_nil, scan_width_run w t R p1 hw t2 t3 t4, scan_precision, if_neg t5]
    exact ⟨rfl, rfl⟩
  · have e : w ++ ord '.' :: ds ++ t :: R = w ++ ord '.' :: (ds ++ t :: R) := by
      simp
    rw [e, scan_width_run w (ord '.') _ p1 hw (by decide) (by decide) (by decide),
      scan_precision, if_pos rfl]
    simp only
    rw [skip_digits_run ds t R hds t2]
    exact ⟨rfl, rfl⟩

/-- The flag, width and precision blocks on `[flag] [width] [. digits]` followed by a
character `t` at which they stop: the scanner arrives at `t`, with the pointer behind
it. -/
theorem stages_run (fl w pr R : List Int) (t : Int) (p0 : param_t) (ht : ends_run t)
    (hfl : fl = [] ∨ fl = [ord '-'] ∨ fl = [ord '0'] ∨ fl = [ord '#'])
    (hw : ∀ d ∈ w, is_digit d)
    (hpr : pr = [] ∨ ∃ ds, pr = ord '.' :: ds ∧ ∀ d ∈ ds, is_digit d) :
    ∃ c rest, fl ++ w ++ pr ++ t :: R = c :: rest ∧ c ≠ ord '%' ∧
      (scan_precision (scan_width (scan_flags { ch := c, fmt := rest, p := p0 }))).ch
        = t ∧
      (scan_precision (scan_width (scan_flags { ch := c, fmt := rest, p := p0 }))).fmt
        = R := by
  obtain ⟨t1, _, _, _, t5, t6, t7⟩ := ends_run_facts t ht
  have hflag : ∀ f, f < ord '1' → f ≠ ord '%' →
      ∃ c rest, [f] ++ w ++ pr ++ t :: R = c :: rest ∧ c ≠ ord '%' ∧
      (scan_precision (scan_width (scan_flags { ch := c, fmt := rest, p := p0 }))).ch
        = t ∧
      (scan_precision (scan_width (scan_flags { ch := c, fmt := rest, p := p0 }))).fmt
        = R := by
    intro f hf hne
    refine ⟨f, w ++ pr ++ t :: R, by simp, hne, ?_⟩
    rw [scan_flags_take _ hf]
    exact width_precision_run w pr R t _ ht hw hpr
  rcases hfl with rfl | rfl | rfl | rfl
  · cases w with
    | nil =>
      rcases hpr with rfl | ⟨ds, rfl, hds⟩
      · refine ⟨t, R, rfl, t6, ?_⟩
        rw [scan_flags_skip _ t1, scan_width, if_neg t7, scan_precision, if_neg t5]
        exact ⟨rfl, rfl⟩
      · refine ⟨ord '.', ds ++ t :: R, by simp, by decide, ?_⟩
        rw [scan_flags_take _ (by show ord '.' < ord '1'; decide)]
        have h := width_precision_run ds [] R t
          (scan_flags { ch := ord '.', fmt := ds ++ t :: R, p := p0 }).p ht hds (Or.inl rfl)
        rw [List.append_nil] at h
        exact h
    | cons d w1 =>
      have hd := hw d (List.mem_cons_self _ _)
      have hw1 : ∀ x ∈ w1, is_digit x := fun x hx => hw x (List.mem_cons_of_mem _ hx)
      have hne : d ≠ ord '%' := by
        unfold is_digit at hd
        simp only [ord_0, ord_9] at hd
        simp only [ord_pct]
        omega
      refine ⟨d, w1 ++ pr ++ t :: R, by simp, hne, ?_⟩
      by_cases hlt : d < ord '1'
      · rw [scan_flags_take _ hlt]
        exact width_precision_run w1 pr R t _ ht hw1 hpr
      · rw [scan_flags_skip _ hlt]
        have h := width_precision_run (d :: w1) pr R t p0 ht hw hpr
        simp only [List.cons_append, next] at h
        exact h
  · exact hflag (ord '-') (by decide) (by decide)
  · exact hflag (ord '0') (by decide) (by decide)
  · exact hflag (ord '#') (by decide) (by decide)

theorem dispatch_fmt_irrel (H : Helpers) (wide : Bool) (args : List Arg) (s : Scan)
    (st : State) (F : List Int) :
    dispatch H wide args s { st with fmt := F } = dispatch H wide args s st := by
  unfold dispatch
  rfl

/-- The scan of a directive `% [flag] [width] [. digits] t ...`, where `t` is a
character at which the first three blocks stop: they leave some request `p1` with the
buffer untouched, and the rest of the directive is `dispatch` entered at `t`. -/
theorem scan_head (H : Helpers) (wide : Bool) (args : List Arg) (st : State)
    (fl w pr R : List Int) (t : Int) (ht : ends_run t)
    (hfl : fl = [] ∨ fl = [ord '-'] ∨ fl = [ord '0'] ∨ fl = [ord '#'])
    (hw : ∀ d ∈ w, is_digit d)
    (hpr : pr = [] ∨ ∃ ds, pr = ord '.' :: ds ∧ ∀ d ∈ ds, is_digit d)
    (hfmt : st.fmt = ord '%' :: (fl ++ w ++ pr ++ t :: R)) :
    ∃ p1, same_buf p1 st.p ∧
      scan H wide args st =
        if (dispatch H wide args { ch := t, fmt := R, p := p1 } st).abort then
          { exit := Exit.aborted
            st := (dispatch H wide args { ch := t, fmt := R, p := p1 } st).st
            calls := (dispatch H wide args { ch := t, fmt := R, p := p1 } st).calls }
        else
          (scan H wide args (dispatch H wide args { ch := t, fmt := R, p := p1 } st).st).emit
            (dispatch H wide args { ch := t, fmt := R, p := p1 } st).calls := by
  obtain ⟨c, rest, he, hne, hch, hrest⟩ := stages_run fl w pr R t (init_param st.p) ht
    hfl hw hpr
  rw [he] at hfmt
  refine ⟨(scan_precision (scan_width (scan_flags
    { ch := c, fmt := rest, p := init_param st.p }))).p, stages_same_buf c rest st.p, ?_⟩
  rw [scan_directive H wide args st c rest hfmt hne]
  have hd : directive H wide args c { st with fmt := rest } =
      dispatch H wide args
        { ch := t, fmt := R
          p := (scan_precision (scan_width (scan_flags
            { ch := c, fmt := rest, p := init_param st.p }))).p } st := by
    unfold directive
    rw [dispatch_fmt_irrel]
    congr 1
    cases hs : scan_precision (scan_width (scan_flags
        { ch := c, fmt := rest, p := init_param st.p })) with
    | mk ch fmt p =>
      rw [hs] at hch hrest
      simp only at hch hrest
      rw [hch, hrest]
  rw [hd]

/-- Without wide-integer support a directive `% [flag] [width] [. digits] l` leaves by
`goto abort`: no call, no argument fetch, and `ul`, `l`, the buffer, the cursor and the
capacity stay as they are. -/
theorem l_directive_aborts (H : Helpers) (args : List Arg) (st : State)
    (fl w pr R : List Int)
    (hfl : fl = [] ∨ fl = [ord '-'] ∨ fl = [ord '0'] ∨ fl = [ord '#'])
    (hw : ∀ d ∈ w, is_digit d)
    (hpr : pr = [] ∨ ∃ ds, pr = ord '.' :: ds ∧ ∀ d ∈ ds, is_digit d)
    (hfmt : st.fmt = ord '%' :: (fl ++ w ++ pr ++ ord 'l' :: R)) :
    (scan H false args st).exit = Exit.aborted ∧ (scan H false args st).calls = [] ∧
    (scan H false args st).st.va = st.va ∧ same_buf (scan H false args st).st.p st.p ∧
    (scan H false args st).st.fmt = R := by
  obtain ⟨c, rest, he, hne, hch, hrest⟩ := stages_run fl w pr R (ord 'l') (init_param st.p)
    (by decide) hfl hw hpr
  rw [he] at hfmt
  rw [scan_directive H false args st c rest hfmt hne]
  have hd : directive H false args c { st with fmt := rest } =
      { abort := true
        st := { st with
          fmt := (scan_precision (scan_width (scan_flags
            { ch := c, fmt := rest, p := init_param st.p }))).fmt
          p := (scan_precision (scan_width (scan_flags
            { ch := c, fmt := rest, p := init_param st.p }))).p }
        calls := [] } := by
    unfold directive
    exact dispatch_l_abort H false args _ _ (by rw [hch]; decide) (by rw [hch]; decide)
      (by rw [hch, scan_l, if_pos rfl]; rfl)
  rw [hd, if_pos rfl]
  exact ⟨rfl, rfl, rfl, stages_same_buf c rest st.p, hrest⟩

/-! ## A directive from its text: where the blocks stop, when it aborts -/

theorem directive_eq_stages (H : Helpers) (wide : Bool) (args : List Arg) (ch : Int)
    (st : State) :
    directive H wide args ch st = dispatch H wide args (stages ch st.fmt st.p) st := rfl

theorem scan_l_eq_none (wide : Bool) (ch : Int) (fmt : List Int) :
    scan_l wide ch fmt = none ↔ ch = ord 'l' ∧ wide = false := by
  unfold scan_l
  by_cases h1 : ch = ord 'l'
  · cases wide <;> simp [h1]
  · rw [if_neg h1]
    constructor
    · intro h; cases h
    · intro h; exact absurd h.1 h1

/-- When a directive leaves by `goto abort`. -/
theorem dispatch_abort_iff (H : Helpers) (wide : Bool) (args : List Arg) (s : Scan)
    (st : State) :
    (dispatch H wide args s st).abort = true ↔
      s.ch ≠ ord 'c' ∧ s.ch ≠ ord 's' ∧
      ((s.ch = ord 'l' ∧ wide = false) ∨ ∃ e, switch_entry wide s = some e ∧ e.ch = 0) := by
  by_cases h1 : s.ch = ord 'c'
  · simp [dispatch, h1]
  by_cases h2 : s.ch = ord 's'
  · simp [dispatch, h1, h2]
  cases hsl : scan_l wide s.ch s.fmt with
  | none =>
    rw [dispatch_l_abort H wide args s st h1 h2 hsl]
    have := (scan_l_eq_none wide s.ch s.fmt).mp hsl
    exact ⟨fun _ => ⟨h1, h2, Or.inl this⟩, fun _ => rfl⟩
  | some s1 =>
    have hl : (scan_l wide s.ch s.fmt).map scan_h = some (scan_h s1) := by rw [hsl]; rfl
    have hn : ¬ (s.ch = ord 'l' ∧ wide = false) := by
      intro h
      rw [(scan_l_eq_none wide s.ch s.fmt).mpr h] at hsl
      cases hsl
    rw [dispatch_numeric H wide args s st (scan_h s1) h1 h2 hl]
    have he : switch_entry wide s = some (scan_h s1) := hl
    cases hc : convert H (scan_h s1).ch s.p
        (fetch wide (scan_h s1) (va_arg args st.va) st.ul st.l).1
        (fetch wide (scan_h s1) (va_arg args st.va) st.ul st.l).2 with
    | none =>
      have h0 := (convert_eq_none _ _ _ _ _).mp hc
      exact ⟨fun _ => ⟨h1, h2, Or.inr ⟨_, he, h0⟩⟩, fun _ => rfl⟩
    | some r =>
      have h0 : (scan_h s1).ch ≠ 0 := by
        intro h
        rw [(convert_eq_none _ _ _ _ _).mpr h] at hc
        cases hc
      constructor
      · intro h; cases h
      · rintro ⟨_, _, h | ⟨e, h3, h4⟩⟩
        · exact absurd h hn
        · rw [he] at h3
          cases h3
          exact absurd h4 h0

/-- A directive that leaves by `goto abort` has made no call and has left the request
as the flag, width and precision blocks left it. -/
theorem dispatch_abort_calls (H : Helpers) (wide : Bool) (args : List Arg) (s : Scan)
    (st : State) (h : (dispatch H wide args s st).abort = true) :
    (dispatch H wide args s st).calls = [] ∧ (dispatch H wide args s st).st.p = s.p := by
  have h3 := (dispatch_abort_iff H wide args s st).mp h
  obtain ⟨h1, h2, _⟩ := h3
  cases hsl : scan_l wide s.ch s.fmt with
  | none =>
    rw [dispatch_l_abort H wide args s st h1 h2 hsl]
    exact ⟨rfl, rfl⟩
  | some s1 =>
    have hl : (scan_l wide s.ch s.fmt).map scan_h = some (scan_h s1) := by rw [hsl]; rfl
    rw [dispatch_numeric H wide args s st (scan_h s1) h1 h2 hl] at h ⊢
    cases hc : convert H (scan_h s1).ch s.p
        (fetch wide (scan_h s1) (va_arg args st.va) st.ul st.l).1
        (fetch wide (scan_h s1) (va_arg args st.va) st.ul st.l).2 with
    | none => exact ⟨rfl, rfl⟩
    | some r =>
      rw [hc] at h
      cases h

/-- The switch on a character that has no case of its own (`default: break;`). -/
theorem convert_default (H : Helpers) (ch : Int) (p : param_t) (ul : Nat) (l : Int)
    (h : ch ∉ [0, ord 'o', ord 'u', ord 'd', ord 'i', ord 'p', ord 'x', ord 'X']) :
    convert H ch p ul l = some (p, []) := by
  simp only [List.mem_cons, List.mem_singleton, List.not_mem_nil, or_false, not_or] at h
  obtain ⟨n0, n1, n2, n3, n4, n5, n6, n7⟩ := h
  unfold convert
  rw [if_neg n0, if_neg n1, if_neg n2, if_neg (by tauto), if_neg (by tauto)]

/-- A directive whose conversion character has no case in the switch: no call, one
argument fetched, the request as the first three blocks left it. -/
theorem dispatch_skip (H : Helpers) (wide : Bool) (args : List Arg) (s : Scan)
    (st : State) (e : Len) (h1 : s.ch ≠ ord 'c') (h2 : s.ch ≠ ord 's')
    (he : switch_entry wide s = some e)
    (hc : e.ch ∉ [0, ord 'o', ord 'u', ord 'd', ord 'i', ord 'p', ord 'x', ord 'X']) :
    dispatch H wide args s st =
      { abort := false
        st := { fmt := e.fmt, p := s.p, va := st.va + 1
                ul := (fetch wide e (va_arg args st.va) st.ul st.l).1
                l := (fetch wide e (va_arg args st.va) st.ul st.l).2 }
        calls := [] } := by
  rw [dispatch_numeric H wide args s st e h1 h2 he, convert_default H _ _ _ _ hc]

/-- The tests for `l` and `h` on the text `[l] [h | hh] c`. -/
theorem switch_entry_mods (wide : Bool) (lm hm R : List Int) (c : Int) (p : param_t)
    (hlm : lm = [] ∨ (lm = [ord 'l'] ∧ wide = true))
    (hhm : hm = [] ∨ hm = [ord 'h'] ∨ hm = [ord 'h', ord 'h'])
    (hh : hm.length < 2 → c ≠ ord 'h') (hl : lm = [] → hm = [] → c ≠ ord 'l')
    (t : Int) (R1 : List Int) (hX : lm ++ hm ++ c :: R = t :: R1) :
    switch_entry wide { ch := t, fmt := R1, p := p } =
      some { ch := c, fmt := R, lng := lm.length, shr := hm.length } := by
  rcases hlm with rfl | ⟨rfl, rfl⟩ <;> rcases hhm with rfl | rfl | rfl <;>
    simp only [List.nil_append, List.cons_append, List.cons.injEq, List.length_nil,
      List.length_cons, List.length_singleton] at hX hh hl ⊢ <;>
    obtain ⟨rfl, rfl⟩ := hX <;>
    simp [switch_entry, scan_l, scan_h, next] <;> simp_all

/-- The first character of the text `[l] [h | hh] c` is neither `c` nor `s`, and the
width and precision blocks leave it alone, when `c` itself is such a character or a
modifier stands in front of it. -/
theorem mods_head (lm hm R : List Int) (c : Int) (wide : Bool)
    (hlm : lm = [] ∨ (lm = [ord 'l'] ∧ wide = true))
    (hhm : hm = [] ∨ hm = [ord 'h'] ∨ hm = [ord 'h', ord 'h'])
    (hp : lm = [] → hm = [] → ends_digits c ∧ c ≠ ord 'c' ∧ c ≠ ord 's')
    (t : Int) (R1 : List Int) (hX : lm ++ hm ++ c :: R = t :: R1) :
    ends_digits t ∧ t ≠ ord 'c' ∧ t ≠ ord 's' ∧ (¬ (lm = [] ∧ hm = []) → ¬ t < ord '1') := by
  rcases hlm with rfl | ⟨rfl, rfl⟩ <;> rcases hhm with rfl | rfl | rfl <;>
    simp only [List.nil_append, List.cons_append, List.cons.injEq] at hX <;>
    obtain ⟨rfl, rfl⟩ := hX
  · obtain ⟨a, b, c1⟩ := hp rfl rfl
    exact ⟨a, b, c1, fun h => absurd ⟨rfl, rfl⟩ h⟩
  all_goals exact ⟨by decide, by decide, by decide, fun _ => by decide⟩

/-- The width and precision blocks on width digits `w`, an optional `.` with digits and
a character `t` that they leave alone: the width is the value of `w`, zero-pad is set
when the `.` is there, and the scanner is at `t`. -/
theorem width_precision_exact (w pr R : List Int) (t : Int) (p1 : param_t)
    (ht : ends_digits t) (hw : ∀ d ∈ w, is_digit d)
    (hpr : pr = [] ∨ ∃ ds, pr = ord '.' :: ds ∧ ∀ d ∈ ds, is_digit d) :
    scan_precision (scan_width
      { ch := (next (w ++ pr ++ t :: R)).1, fmt := (next (w ++ pr ++ t :: R)).2, p := p1 }) =
    { ch := t, fmt := R
      p := { p1 with
        flags := { p1.flags with zero := p1.flags.zero || decide (pr ≠ []) }
        width := if w = [] then p1.width else decimal w % 2 ^ 32 } } := by
  obtain ⟨t2, t5, t3, t4⟩ := ht
  rcases hpr with rfl | ⟨ds, rfl, hds⟩
  · rw [List.append_nil, scan_width_run w t R p1 hw t2 t3 t4, scan_precision, if_neg t5]
    simp
  · have e : w ++ ord '.' :: ds ++ t :: R = w ++ ord '.' :: (ds ++ t :: R) := by
      simp
    rw [e, scan_width_run w (ord '.') _ p1 hw (by decide) (by decide) (by decide),
      scan_precision, if_pos rfl]
    simp only
    rw [skip_digits_run ds t R hds t2]
    simp

theorem is_digit_not_pct (d : Int) (hd : is_digit d) : d ≠ ord '%' := by
  unfold is_digit at hd
  simp only [ord_0, ord_9] at hd
  simp only [ord_pct]
  omega

/-- The flag, width and precision blocks on `[flag] [width] [. digits]` followed by a
character `t` that they leave alone: the scanner arrives at `t`, with the pointer
behind it. -/
theorem stages_stop (fl w pr R : List Int) (t : Int) (p : param_t) (ht : ends_digits t)
    (h1 : fl = [] → w = [] → pr = [] → ¬ t < ord '1')
    (hfl : fl = [] ∨ fl = [ord '-'] ∨ fl = [ord '0'] ∨ fl = [ord '#'])
    (hw : ∀ d ∈ w, is_digit d)
    (hpr : pr = [] ∨ ∃ ds, pr = ord '.' :: ds ∧ ∀ d ∈ ds, is_digit d)
    (c : Int) (rest : List Int) (hX : fl ++ w ++ pr ++ t :: R = c :: rest) :
    c ≠ ord '%' ∧ (stages c rest p).ch = t ∧ (stages c rest p).fmt = R := by
  have hflag : ∀ (f : Int) (w2 pr2 : List Int), (∀ d ∈ w2, is_digit d) →
      (pr2 = [] ∨ ∃ ds, pr2 = ord '.' :: ds ∧ ∀ d ∈ ds, is_digit d) →
      f < ord '1' → f ≠ ord '%' → f :: (w2 ++ pr2 ++ t :: R) = c :: rest →
      c ≠ ord '%' ∧ (stages c rest p).ch = t ∧ (stages c rest p).fmt = R := by
    intro f w2 pr2 hw2 hpr2 hf hne hY
    simp only [List.cons.injEq] at hY
    obtain ⟨rfl, rfl⟩ := hY
    refine ⟨hne, ?_⟩
    unfold stages
    rw [scan_flags_take _ hf]
    have h := width_precision_exact w2 pr2 R t
      (scan_flags { ch := f, fmt := w2 ++ pr2 ++ t :: R, p := init_param p }).p ht hw2 hpr2
    simp only [h, and_self]
  rcases hfl with rfl | rfl | rfl | rfl
  · cases w with
    | nil =>
      rcases hpr with rfl | ⟨ds, rfl, hds⟩
      · simp only [List.nil_append, List.cons.injEq] at hX
        obtain ⟨rfl, rfl⟩ := hX
        have t1 := h1 rfl rfl rfl
        obtain ⟨t2, t5, _, _⟩ := ht
        refine ⟨?_, ?_⟩
        · simp only [ord_1, ord_pct] at *
          omega
        · unfold stages
          rw [scan_flags_skip _ t1, scan_width, if_neg (fun h => t2 ⟨h.1, h.2⟩),
            scan_precision, if_neg t5]
          exact ⟨rfl, rfl⟩
      · exact hflag (ord '.') ds [] hds (Or.inl rfl) (by decide) (by decide)
          (by rw [← hX]; simp)
    | cons d w1 =>
      have hd := hw d (List.mem_cons_self _ _)
      have hw1 : ∀ x ∈ w1, is_digit x := fun x hx => hw x (List.mem_cons_of_mem _ hx)
      by_cases hlt : d < ord '1'
      · exact hflag d w1 pr hw1 hpr hlt (is_digit_not_pct d hd) (by rw [← hX]; simp)
      · simp only [List.nil_append, List.cons_append, List.cons.injEq] at hX
        obtain ⟨rfl, rfl⟩ := hX
        refine ⟨is_digit_not_pct _ hd, ?_⟩
        unfold stages
        rw [scan_flags_skip _ hlt]
        have h := width_precision_exact (d :: w1) pr R t (init_param p) ht hw hpr
        simp only [List.cons_append, next] at h
        simp only [h, and_self]
  · exact hflag (ord '-') w pr hw hpr (by decide) (by decide) (by rw [← hX]; simp)
  · exact hflag (ord '0') w pr hw hpr (by decide) (by decide) (by rw [← hX]; simp)
  · exact hflag (ord '#') w pr hw hpr (by decide) (by decide) (by rw [← hX]; simp)

theorem switch_entry_congr (wide : Bool) (s : Scan) (t : Int) (R1 : List Int)
    (h1 : s.ch = t) (h2 : s.fmt = R1) :
    switch_entry wide s = switch_entry wide { ch := t, fmt := R1, p := s.p } := by
  subst h1 h2
  rfl

/-- A directive that leaves by `goto abort` ends the scan with no call made for it, and
with the buffer, the cursor and the capacity of before. -/
theorem scan_directive_abort (H : Helpers) (wide : Bool) (args : List Arg) (st : State)
    (ch : Int) (rest : List Int) (hfmt : st.fmt = ord '%' :: ch :: rest)
    (hch : ch ≠ ord '%')
    (ha : (directive H wide args ch { st with fmt := rest }).abort = true) :
    (scan H wide args st).exit = Exit.aborted ∧ (scan H wide args st).calls = [] ∧
      same_buf (scan H wide args st).st.p st.p := by
  rw [scan_directive H wide args st ch rest hfmt hch, if_pos ha]
  rw [directive_eq_stages] at ha ⊢
  obtain ⟨h1, h2⟩ := dispatch_abort_calls H wide args _ _ ha
  refine ⟨rfl, h1, ?_⟩
  simp only [h2]
  exact stages_same_buf ch rest st.p

/-- A directive whose conversion character has no case in the switch is passed over:
the scan is the scan of what follows, with one more argument fetched. -/
theorem scan_directive_skip (H : Helpers) (wide : Bool) (args : List Arg) (st : State)
    (ch : Int) (rest : List Int) (hfmt : st.fmt = ord '%' :: ch :: rest)
    (hch : ch ≠ ord '%') (e : Len)
    (h1 : (stages ch rest st.p).ch ≠ ord 'c') (h2 : (stages ch rest st.p).ch ≠ ord 's')
    (he : switch_entry wide (stages ch rest st.p) = some e)
    (hc : e.ch ∉ [0, ord 'o', ord 'u', ord 'd', ord 'i', ord 'p', ord 'x', ord 'X']) :
    (directive H wide args ch { st with fmt := rest }).abort = false ∧
    (directive H wide args ch { st with fmt := rest }).calls = [] ∧
    scan H wide args st =
      scan H wide args
        { fmt := e.fmt, p := (stages ch rest st.p).p, va := st.va + 1
          ul := (fetch wide e (va_arg args st.va) st.ul st.l).1
          l := (fetch wide e (va_arg args st.va) st.ul st.l).2 } := by
  have hd : directive H wide args ch { st with fmt := rest } =
      { abort := false
        st := { fmt := e.fmt, p := (stages ch rest st.p).p, va := st.va + 1
                ul := (fetch wide e (va_arg args st.va) st.ul st.l).1
                l := (fetch wide e (va_arg args st.va) st.ul st.l).2 }
        calls := [] } := by
    rw [directive_eq_stages]
    exact dispatch_skip H wide args (stages ch rest st.p) _ e h1 h2 he hc
  refine ⟨by rw [hd], by rw [hd], ?_⟩
  rw [scan_directive H wide args st ch rest hfmt hch, hd]
  simp only [Bool.false_eq_true, if_false, emit_nil]

/-- The directive text `[flag] [width] [. digits] [l] [h | hh] c`: the flag, width and
precision blocks stop in front of the length modifier (or of `c`), and the switch is
entered on `c` with the pointer behind it. -/
theorem grammar_entry (wide : Bool) (p : param_t) (fl w pr lm hm R : List Int) (c : Int)
    (ch : Int) (rest : List Int)
    (hfl : fl = [] ∨ fl = [ord '-'] ∨ fl = [ord '0'] ∨ fl = [ord '#'])
    (hw : ∀ d ∈ w, is_digit d)
    (hpr : pr = [] ∨ ∃ ds, pr = ord '.' :: ds ∧ ∀ d ∈ ds, is_digit d)
    (hlm : lm = [] ∨ (lm = [ord 'l'] ∧ wide = true))
    (hhm : hm = [] ∨ hm = [ord 'h'] ∨ hm = [ord 'h', ord 'h'])
    (hh : hm.length < 2 → c ≠ ord 'h')
    (hp : lm = [] → hm = [] → ends_digits c ∧ c ≠ ord 'l' ∧ c ≠ ord 'c' ∧ c ≠ ord 's' ∧
      (fl = [] → w = [] → pr = [] → ¬ c < ord '1'))
    (hX : ch :: rest = fl ++ w ++ pr ++ lm ++ hm ++ c :: R) :
    ch ≠ ord '%' ∧ (stages ch rest p).ch ≠ ord 'c' ∧ (stages ch rest p).ch ≠ ord 's' ∧
    switch_entry wide (stages ch rest p) =
      some { ch := c, fmt := R, lng := lm.length, shr := hm.length } := by
  cases hT : lm ++ hm ++ c :: R with
  | nil => simp at hT
  | cons t R1 =>
    have hY : fl ++ w ++ pr ++ t :: R1 = ch :: rest := by
      rw [hX, ← hT]
      simp only [List.append_assoc]
    obtain ⟨m1, m2, m3, m4⟩ := mods_head lm hm R c wide hlm hhm
      (fun a b => ⟨(hp a b).1, (hp a b).2.2.1, (hp a b).2.2.2.1⟩) t R1 hT
    have hfirst : fl = [] → w = [] → pr = [] → ¬ t < ord '1' := by
      intro a b c1
      by_cases hm0 : lm = [] ∧ hm = []
      · obtain ⟨rfl, rfl⟩ := hm0
        simp only [List.nil_append, List.cons.injEq] at hT
        obtain ⟨rfl, rfl⟩ := hT
        exact (hp rfl rfl).2.2.2.2 a b c1
      · exact m4 hm0
    obtain ⟨s1, s2, s3⟩ := stages_stop fl w pr R1 t p m1 hfirst hfl hw hpr ch rest hY
    refine ⟨s1, by rw [s2]; exact m2, by rw [s2]; exact m3, ?_⟩
    rw [switch_entry_congr wide _ t R1 s2 s3]
    exact switch_entry_mods wide lm hm R c _ hlm hhm hh (fun a b => (hp a b).2.1) t R1 hT

/-- C1 (defect in the code): the directive `%X` does not convert its own argument.
`'X'` (88) fails the test `ch > 'i'`, so the argument is fetched into the signed
local `l`, and `__pocl_printf_ulong` receives what `ul` held before the directive:
for every directive `% [flag] [width] [. digits] X`, in every state, the value
converted is the old `ul`, whatever the argument is; `"%x%X"` with the arguments 1 and
255 converts 1 twice. -/
theorem C1_upper_hex_converts_stale_value (H : Helpers) (wide : Bool) (args : List Arg)
    (st : State) (fl w pr R : List Int)
    (hfl : fl = [] ∨ fl = [ord '-'] ∨ fl = [ord '0'] ∨ fl = [ord '#'])
    (hw : ∀ d ∈ w, is_digit d)
    (hpr : pr = [] ∨ ∃ ds, pr = ord '.' :: ds ∧ ∀ d ∈ ds, is_digit d) :
    (scan H wide args { st with fmt := ord '%' :: (fl ++ w ++ pr ++ ord 'X' :: R) }
      ).calls.head?.bind Call.toUlong = some st.ul ∧
    ulong_values (pocl_printf_format_simple H wide (cstr "%x%X") st.p
        [Arg.int 1, Arg.int 255] st.ul st.l).calls = [1, 1] := by
  constructor
  · obtain ⟨p1, _, he⟩ := scan_head H wide args
      { st with fmt := ord '%' :: (fl ++ w ++ pr ++ ord 'X' :: R) } fl w pr R (ord 'X')
      (by decide) hfl hw hpr rfl
    rw [he]
    simp [dispatch, scan_l, scan_h, fetch, convert, Result.emit, Call.toUlong]
  · have h2 : cstr "%x%X" = [37, 120, 37, 88] := by decide
    rw [h2]
    simp [pocl_printf_format_simple, scan, format_simple_loop, directive, dispatch,
      scan_flags, scan_width, scan_precision, scan_l, scan_h, fetch, convert, next,
      Result.emit, ulong_values, Call.toUlong, wrapU, va_arg, Arg.asInt]

/-- C1 at a concrete input: `"%08X"` with the argument 255 and 7 in `ul`. -/
theorem C1_upper_hex_converts_stale_value_witness :
    (scan stub_helpers false [Arg.int 255]
        { fmt := ord '%' :: ([ord '0'] ++ cstr "8" ++ [] ++ ord 'X' :: [])
          p := param_zero, va := 0, ul := 7, l := 0 }
      ).calls.head?.bind Call.toUlong = some 7 ∧
    ulong_values (pocl_printf_format_simple stub_helpers false (cstr "%x%X") param_zero
        [Arg.int 1, Arg.int 255] 7 0).calls = [1, 1] :=
  C1_upper_hex_converts_stale_value stub_helpers false [Arg.int 255]
    { fmt := [], p := param_zero, va := 0, ul := 7, l := 0 }
    [ord '0'] (cstr "8") [] [] (Or.inr (Or.inr (Or.inl rfl))) (by decide) (Or.inl rfl)

/-- C2 (counterexample): after the directive `%z` of `"%zabc"` the scan goes on, ends
at the terminator and has pushed `abc`, while nothing was produced before the
directive. -/
theorem C2_unknown_conversion_does_not_abort :
    putc_chars (pocl_printf_format_simple stub_helpers false (cstr "%zabc") param_zero
        [] 0 0).calls = cstr "abc" ∧
    (pocl_printf_format_simple stub_helpers false (cstr "%zabc") param_zero [] 0 0).exit
        = Exit.finished ∧
    (pocl_printf_format_simple stub_helpers false (cstr "") param_zero [] 0 0).calls
        = [] := by
  decide

/-- C2 (amended): a conversion character without a case in the switch does not abort
the scan.  The directive is entered at `% ch rest` (`ch` is not `%`); `stages` is the
position behind the flag, width and precision blocks, and `switch_entry` the position
at which the switch is entered, behind the length modifiers: its character is the
conversion character.
(1) The directive leaves by `goto abort` exactly when it is not a `c` or `s`
conversion and either the character behind the precision is `l` without wide-integer
support, or the conversion character is NUL.
(2) When it does, the scan ends as aborted, no call is made from the directive on, and
the buffer, the cursor and the capacity are those of before.
(3) When the directive is not a `c` or `s` conversion and its conversion character is
none of NUL, `o`, `u`, `d`, `i`, `p`, `x`, `X`, the directive does not abort, makes no
call, leaves the buffer, the cursor and the capacity as they are, and the scan is the
scan started behind the conversion character with one more argument fetched.
(4) For the directive text `[flag] [width] [. digits] [l] [h | hh] c` (`l` with
wide-integer support; `c` is not `h` unless `hh` stands in front of it; without a
length modifier `c` is not a digit, `.`, `a`, `A`, `l`, `c` or `s`, and not below `'1'`
directly behind the `%`) the conversion character is `c`: if `c` is none of NUL, `o`,
`u`, `d`, `i`, `p`, `x`, `X` the scan goes on behind `c` as in (3), and if `c` is NUL
the scan aborts as in (2).
(5) For the directive text `[flag] [width] [. digits] l` without wide-integer support
the scan aborts as in (2).
(6) `"%zabc"`, `"%-!abc"` and `"%hqabc"` push `abc` and end at the terminator; `"%labc"`
without wide-integer support aborts with no call made. -/
theorem C2_unknown_conversion_is_skipped (H : Helpers) (wide : Bool) (args : List Arg)
    (st : State) (ch : Int) (rest : List Int)
    (hfmt : st.fmt = ord '%' :: ch :: rest) (hch : ch ≠ ord '%') :
    ((directive H wide args ch { st with fmt := rest }).abort = true ↔
      (stages ch rest st.p).ch ≠ ord 'c' ∧ (stages ch rest st.p).ch ≠ ord 's' ∧
      (((stages ch rest st.p).ch = ord 'l' ∧ wide = false) ∨
        ∃ e, switch_entry wide (stages ch rest st.p) = some e ∧ e.ch = 0)) ∧
    ((directive H wide args ch { st with fmt := rest }).abort = true →
      (scan H wide args st).exit = Exit.aborted ∧ (scan H wide args st).calls = [] ∧
      same_buf (scan H wide args st).st.p st.p) ∧
    (∀ e : Len, (stages ch rest st.p).ch ≠ ord 'c' → (stages ch rest st.p).ch ≠ ord 's' →
      switch_entry wide (stages ch rest st.p) = some e →
      e.ch ∉ [0, ord 'o', ord 'u', ord 'd', ord 'i', ord 'p', ord 'x', ord 'X'] →
      (directive H wide args ch { st with fmt := rest }).abort = false ∧
      (directive H wide args ch { st with fmt := rest }).calls = [] ∧
      same_buf (stages ch rest st.p).p st.p ∧
      scan H wide args st =
        scan H wide args
          { fmt := e.fmt, p := (stages ch rest st.p).p, va := st.va + 1
            ul := (fetch wide e (va_arg args st.va) st.ul st.l).1
            l := (fetch wide e (va_arg args st.va) st.ul st.l).2 }) ∧
    (∀ (fl w pr lm hm R : List Int) (c : Int),
      (fl = [] ∨ fl = [ord '-'] ∨ fl = [ord '0'] ∨ fl = [ord '#']) →
      (∀ d ∈ w, is_digit d) →
      (pr = [] ∨ ∃ ds, pr = ord '.' :: ds ∧ ∀ d ∈ ds, is_digit d) →
      (lm = [] ∨ (lm = [ord 'l'] ∧ wide = true)) →
      (hm = [] ∨ hm = [ord 'h'] ∨ hm = [ord 'h', ord 'h']) →
      (hm.length < 2 → c ≠ ord 'h') →
      (lm = [] → hm = [] → ends_digits c ∧ c ≠ ord 'l' ∧ c ≠ ord 'c' ∧ c ≠ ord 's' ∧
        (fl = [] → w = [] → pr = [] → ¬ c < ord '1')) →
      ch :: rest = fl ++ w ++ pr ++ lm ++ hm ++ c :: R →
      (c ∉ [0, ord 'o', ord 'u', ord 'd', ord 'i', ord 'p', ord 'x', ord 'X'] →
        same_buf (stages ch rest st.p).p st.p ∧
        scan H wide args st =
          scan H wide args
            { fmt := R, p := (stages ch rest st.p).p, va := st.va + 1
              ul := (fetch wide { ch := c, fmt := R, lng := lm.length, shr := hm.length }
                (va_arg args st.va) st.ul st.l).1
              l := (fetch wide { ch := c, fmt := R, lng := lm.length, shr := hm.length }
                (va_arg args st.va) st.ul st.l).2 }) ∧
      (c = 0 →
        (scan H wide args st).exit = Exit.aborted ∧ (scan H wide args st).calls = [] ∧
        same_buf (scan H wide args st).st.p st.p)) ∧
    (∀ (fl w pr R : List Int),
      (fl = [] ∨ fl = [ord '-'] ∨ fl = [ord '0'] ∨ fl = [ord '#']) →
      (∀ d ∈ w, is_digit d) →
      (pr = [] ∨ ∃ ds, pr = ord '.' :: ds ∧ ∀ d ∈ ds, is_digit d) →
      wide = false → ch :: rest = fl ++ w ++ pr ++ ord 'l' :: R →
      (scan H wide args st).exit = Exit.aborted ∧ (scan H wide args st).calls = [] ∧
      same_buf (scan H wide args st).st.p st.p) ∧
    (∀ F ∈ [cstr "%zabc", cstr "%-!abc", cstr "%hqabc"],
      (putc_chars (pocl_printf_format_simple stub_helpers false F param_zero [] 0 0).calls,
        (pocl_printf_format_simple stub_helpers false F param_zero [] 0 0).exit)
          = (cstr "abc", Exit.finished)) ∧
    ((pocl_printf_format_simple stub_helpers false (cstr "%labc") param_zero [] 0 0).exit,
      (pocl_printf_format_simple stub_helpers false (cstr "%labc") param_zero [] 0 0).calls)
        = (Exit.aborted, []) := by
  have habort := dispatch_abort_iff H wide args (stages ch rest st.p) { st with fmt := rest }
  refine ⟨habort, scan_directive_abort H wide args st ch rest hfmt hch, ?_, ?_, ?_,
    by decide, by decide⟩
  · intro e h1 h2 he hc
    obtain ⟨a, b, c⟩ := scan_directive_skip H wide args st ch rest hfmt hch e h1 h2 he hc
    exact ⟨a, b, stages_same_buf ch rest st.p, c⟩
  · intro fl w pr lm hm R c hfl hw hpr hlm hhm hh hp hX
    obtain ⟨_, g1, g2, g3⟩ := grammar_entry wide st.p fl w pr lm hm R c ch rest hfl hw hpr
      hlm hhm hh hp hX
    constructor
    · intro hc
      exact ⟨stages_same_buf ch rest st.p,
        (scan_directive_skip H wide args st ch rest hfmt hch _ g1 g2 g3 hc).2.2⟩
    · intro hc
      exact scan_directive_abort H wide args st ch rest hfmt hch
        (habort.mpr ⟨g1, g2, Or.inr ⟨_, g3, hc⟩⟩)
  · intro fl w pr R hfl hw hpr hwide hX
    obtain ⟨_, s2, _⟩ := stages_stop fl w pr R (ord 'l') st.p (by decide)
      (fun _ _ _ => by decide) hfl hw hpr ch rest hX.symm
    exact scan_directive_abort H wide args st ch rest hfmt hch
      (habort.mpr ⟨by rw [s2]; decide, by rw [s2]; decide, Or.inl ⟨s2, hwide⟩⟩)

/-- C2 (amended), at concrete inputs: the scan of `"%-!abc"` and the scan of `"%hqabc"`
are the scan of `"abc"` started with one argument fetched. -/
theorem C2_unknown_conversion_is_skipped_witness :
    scan stub_helpers false []
        { fmt := cstr "%-!abc", p := param_zero, va := 0, ul := 0, l := 0 } =
      scan stub_helpers false []
        { fmt := cstr "abc", p := (stages (ord '-') (cstr "!abc") param_zero).p, va := 0 + 1
          ul := (fetch false { ch := ord '!', fmt := cstr "abc", lng := 0, shr := 0 }
            (va_arg [] 0) 0 0).1
          l := (fetch false { ch := ord '!', fmt := cstr "abc", lng := 0, shr := 0 }
            (va_arg [] 0) 0 0).2 } ∧
    scan stub_helpers false []
        { fmt := cstr "%hqabc", p := param_zero, va := 0, ul := 0, l := 0 } =
      scan stub_helpers false []
        { fmt := cstr "abc", p := (stages (ord 'h') (cstr "qabc") param_zero).p, va := 0 + 1
          ul := (fetch false { ch := ord 'q', fmt := cstr "abc", lng := 0, shr := 1 }
            (va_arg [] 0) 0 0).1
          l := (fetch false { ch := ord 'q', fmt := cstr "abc", lng := 0, shr := 1 }
            (va_arg [] 0) 0 0).2 } :=
  ⟨(((C2_unknown_conversion_is_skipped stub_helpers false []
      { fmt := cstr "%-!abc", p := param_zero, va := 0, ul := 0, l := 0 }
      (ord '-') (cstr "!abc") (by decide) (by decide)).2.2.2.1
      [ord '-'] [] [] [] [] (cstr "abc") (ord '!')
      (Or.inr (Or.inl rfl)) (by decide) (Or.inl rfl) (Or.inl rfl) (Or.inl rfl)
      (by decide) (by decide) (by decide)).1 (by decide)).2,
   (((C2_unknown_conversion_is_skipped stub_helpers false []
      { fmt := cstr "%hqabc", p := param_zero, va := 0, ul := 0, l := 0 }
      (ord 'h') (cstr "qabc") (by decide) (by decide)).2.2.2.1
      [] [] [] [] [ord 'h'] (cstr "abc") (ord 'q')
      (Or.inl rfl) (by decide) (Or.inl rfl) (Or.inl rfl) (Or.inr (Or.inl rfl))
      (by decide) (by decide) (by decide)).1 (by decide)).2⟩

/-- C3 (defect in the code): a format that ends in a lone `%`.  The terminator read
after the `%` passes the flag test `ch < '1'`, so the scanner reads the byte behind
the terminator (index 2, the terminator being at index 1) and goes on from there: for
every memory content `j :: junk` behind the string the pointer ends inside `junk`, and
with a `d` behind the terminator the argument 7 is handed to `__pocl_printf_long`. -/
theorem C3_lone_percent_reads_past_terminator (H : Helpers) (wide : Bool) (p : param_t)
    (args : List Arg) (ul0 : Nat) (l0 : Int) (j : Int) (junk : List Int) :
    (pocl_printf_format_simple H wide (ord '%' :: 0 :: j :: junk) p args ul0 l0).st.fmt
        <:+ junk ∧
    (pocl_printf_format_simple H wide (ord '%' :: 0 :: cstr "d") p [Arg.int 7]
        ul0 l0).calls.map Call.toLong = [some 7] := by
  constructor
  · rw [pocl_printf_format_simple, scan_directive H wide args _ 0 (j :: junk) rfl (by decide)]
    have hfl : (scan_flags { ch := 0, fmt := j :: junk, p := init_param p }).fmt = junk := by
      rw [scan_flags_fmt]; rfl
    have hd := directive_suffix_flags H wide args 0
      { fmt := j :: junk, p := p, va := 0, ul := ul0, l := l0 }
    simp only [hfl] at hd
    split_ifs
    · exact hd
    · exact (scan_suffix _ _ _ _).trans hd
  · have h1 : cstr "d" = [100] := by decide
    rw [h1]
    simp [pocl_printf_format_simple, scan, format_simple_loop, directive, dispatch, scan_flags,
      scan_width, scan_precision, scan_l, scan_h, fetch, convert, next, Result.emit,
      Call.toLong, wrapS, va_arg, Arg.asInt]

/-! ## Claims C4 to C6 -/

/-- C5 (defect in the code): a `.` directly after the `%` is taken by the flag test
`ch < '1'` (`'.'` is 46) and never reaches the test `ch == '.'`: for `"%.5d"` the
converter is invoked with zero-pad clear and width 5, and for `"%.d"` with zero-pad
clear.  With a width or a flag in front (`"%3.5d"`, `"%-.5d"`) the same code sets
zero-pad and discards the digits. -/
theorem C5_leading_dot_is_taken_as_flag (H : Helpers) (wide : Bool) (p : param_t)
    (a : Int) (ul0 : Nat) (l0 : Int) :
    (pocl_printf_format_simple H wide (cstr "%.5d") p [Arg.int a] ul0 l0).calls.map
        (fun c => (c.isConv, c.req.flags.zero, c.req.width)) = [(true, false, 5)] ∧
    (pocl_printf_format_simple H wide (cstr "%.d") p [Arg.int a] ul0 l0).calls.map
        (fun c => (c.isConv, c.req.flags.zero, c.req.width)) = [(true, false, 0)] ∧
    (pocl_printf_format_simple H wide (cstr "%3.5d") p [Arg.int a] ul0 l0).calls.map
        (fun c => (c.isConv, c.req.flags.zero, c.req.width)) = [(true, true, 3)] ∧
    (pocl_printf_format_simple H wide (cstr "%-.5d") p [Arg.int a] ul0 l0).calls.map
        (fun c => (c.isConv, c.req.flags.zero, c.req.width)) = [(true, true, 0)] := by
  have h1 : cstr "%.5d" = [37, 46, 53, 100] := by decide
  have h2 : cstr "%.d" = [37, 46, 100] := by decide
  have h3 : cstr "%3.5d" = [37, 51, 46, 53, 100] := by decide
  have h4 : cstr "%-.5d" = [37, 45, 46, 53, 100] := by decide
  rw [h1, h2, h3, h4]
  refine ⟨?_, ?_, ?_, ?_⟩ <;>
    simp [pocl_printf_format_simple, scan, format_simple_loop, directive, dispatch, scan_flags,
      scan_width, scan_precision, skip_digits, pocl_printf_a2u, a2u_loop, pocl_printf_a2d,
      scan_l, scan_h, convert, next, Result.emit, Call.isConv, Call.req, init_param]

/-- C6 (defect in the code): `__pocl_printf_a2u` takes the letters `a` and `A` as a
digit of value 10, because the guard is `digit > 10` where the digit values of a
decimal number end at 9.  Called with `'1'` and the string `"ad"` it sets the width to
1 * 10 + 10 = 20 and returns `'d'` with the pointer behind it, instead of width 1,
return value `'a'` and the pointer on `'d'`; the same for `"Ad"`. -/
theorem C6_a2u_takes_letter_a_as_digit :
    pocl_printf_a2u (ord '1') (cstr "ad") = (ord 'd', [], 20) ∧
    pocl_printf_a2u (ord '1') (cstr "Ad") = (ord 'd', [], 20) ∧
    pocl_printf_a2u (ord '1') (cstr "bd") = (ord 'b', cstr "d", 1) := by
  decide

/-! ## Claim C7 -/

/-- C7: without wide-integer support (`wide = false`), take a leading part `P` of the
format that the scanner works off completely (`P` has no NUL and the scan of `P`
alone ends at its terminator), followed by a directive `%`, an optional flag `fl`,
width digits `w`, an optional `.` with digits `pr`, and `l`, and then any text `R`.
The scan makes exactly the calls it makes for `P` alone, fetches exactly the arguments
it fetches for `P` alone, leaves buffer, cursor and capacity as the scan of `P` alone
leaves them (what `P` produced is kept), and ends by `goto abort` with the pointer
behind the `l`. -/
theorem C7_unsupported_l_aborts (H : Helpers) (args : List Arg) (p : param_t)
    (ul0 : Nat) (l0 : Int) (P fl w pr R : List Int)
    (hP0 : ∀ c ∈ P, c ≠ 0)
    (hPfin : (pocl_printf_format_simple H false P p args ul0 l0).exit = Exit.finished)
    (hfl : fl = [] ∨ fl = [ord '-'] ∨ fl = [ord '0'] ∨ fl = [ord '#'])
    (hw : ∀ d ∈ w, is_digit d)
    (hpr : pr = [] ∨ ∃ ds, pr = ord '.' :: ds ∧ ∀ d ∈ ds, is_digit d) :
    (pocl_printf_format_simple H false (P ++ ord '%' :: (fl ++ w ++ pr ++ ord 'l' :: R))
        p args ul0 l0).calls
      = (pocl_printf_format_simple H false P p args ul0 l0).calls ∧
    (pocl_printf_format_simple H false (P ++ ord '%' :: (fl ++ w ++ pr ++ ord 'l' :: R))
        p args ul0 l0).st.va
      = (pocl_printf_format_simple H false P p args ul0 l0).st.va ∧
    same_buf
      (pocl_printf_format_simple H false (P ++ ord '%' :: (fl ++ w ++ pr ++ ord 'l' :: R))
        p args ul0 l0).st.p
      (pocl_printf_format_simple H false P p args ul0 l0).st.p ∧
    (pocl_printf_format_simple H false (P ++ ord '%' :: (fl ++ w ++ pr ++ ord 'l' :: R))
        p args ul0 l0).exit = Exit.aborted ∧
    (pocl_printf_format_simple H false (P ++ ord '%' :: (fl ++ w ++ pr ++ ord 'l' :: R))
        p args ul0 l0).st.fmt = R := by
  unfold pocl_printf_format_simple at hPfin ⊢
  rw [scan_append H false args _ P.length P p 0 ul0 l0 (le_refl _) hP0 hPfin]
  obtain ⟨h1, h2, h3, h4, h5⟩ := l_directive_aborts H args
    { (scan H false args { fmt := P, p := p, va := 0, ul := ul0, l := l0 }).st with
      fmt := ord '%' :: (fl ++ w ++ pr ++ ord 'l' :: R) } fl w pr R hfl hw hpr rfl
  rw [emit_calls, emit_st, emit_exit, h2, List.append_nil]
  exact ⟨rfl, h3, h4, h1, h5⟩

/-- C7 at a concrete input: `"ab%-5.3ld"` against `"ab"`. -/
theorem C7_unsupported_l_aborts_witness :
    (pocl_printf_format_simple stub_helpers false
        (cstr "ab" ++ ord '%' :: ([ord '-'] ++ cstr "5" ++ cstr ".3" ++ ord 'l' :: cstr "d"))
        param_zero [Arg.int 1] 0 0).calls
      = (pocl_printf_format_simple stub_helpers false (cstr "ab") param_zero
          [Arg.int 1] 0 0).calls ∧
    (pocl_printf_format_simple stub_helpers false
        (cstr "ab" ++ ord '%' :: ([ord '-'] ++ cstr "5" ++ cstr ".3" ++ ord 'l' :: cstr "d"))
        param_zero [Arg.int 1] 0 0).st.va
      = (pocl_printf_format_simple stub_helpers false (cstr "ab") param_zero
          [Arg.int 1] 0 0).st.va ∧
    same_buf
      (pocl_printf_format_simple stub_helpers false
        (cstr "ab" ++ ord '%' :: ([ord '-'] ++ cstr "5" ++ cstr ".3" ++ ord 'l' :: cstr "d"))
        param_zero [Arg.int 1] 0 0).st.p
      (pocl_printf_format_simple stub_helpers false (cstr "ab") param_zero
        [Arg.int 1] 0 0).st.p ∧
    (pocl_printf_format_simple stub_helpers false
        (cstr "ab" ++ ord '%' :: ([ord '-'] ++ cstr "5" ++ cstr ".3" ++ ord 'l' :: cstr "d"))
        param_zero [Arg.int 1] 0 0).exit = Exit.aborted ∧
    (pocl_printf_format_simple stub_helpers false
        (cstr "ab" ++ ord '%' :: ([ord '-'] ++ cstr "5" ++ cstr ".3" ++ ord 'l' :: cstr "d"))
        param_zero [Arg.int 1] 0 0).st.fmt = cstr "d" :=
  C7_unsupported_l_aborts stub_helpers [Arg.int 1] param_zero 0 0
    (cstr "ab") [ord '-'] (cstr "5") (cstr ".3") (cstr "d")
    (by decide) (by decide) (Or.inr (Or.inl rfl)) (by decide)
    (Or.inr ⟨cstr "3", by decide, by decide⟩)

/-! ## Claim C8 -/

/-- C8 (over the sink as the specification describes it, for every rendering of the
numeric converters): `__pocl_printf` leaves every buffer offset in front of the
initial cursor `c` and every offset at or above the capacity `N` as it was; the cursor
it writes back is `c` plus the number of characters produced, stored or not; for a
format of literal characters `s` the cursor is `c + s.length` and every offset `o`
with `c ≤ o < min (c + s.length) N` inside the buffer holds `s[o - c]`; capacity 3,
cursor 0 and `"abcdef"` store `abc` and give cursor 6. -/
theorem C8_sink_respects_capacity (ru : param_t → Nat → List Int)
    (rl : param_t → Int → List Int) (wide : Bool) (buf : List Int) (c N : Nat)
    (fmt : List Int) (args : List Arg) (ul0 : Nat) (l0 : Int) :
    (∀ o, o < c ∨ N ≤ o →
      (pocl_printf (sink_helpers ru rl) wide buf c N fmt args ul0 l0).buffer[o]? = buf[o]?) ∧
    (pocl_printf (sink_helpers ru rl) wide buf c N fmt args ul0 l0).buffer_index =
      c + (produced ru rl (pocl_printf_format_simple (sink_helpers ru rl) wide fmt
        { param_zero with printf_buffer := buf, printf_buffer_capacity := N
                          printf_buffer_index := c } args ul0 l0).calls).length ∧
    (∀ s junk, (∀ x ∈ s, x ≠ 0 ∧ x ≠ ord '%') → fmt = s ++ 0 :: junk →
      (pocl_printf (sink_helpers ru rl) wide buf c N fmt args ul0 l0).buffer_index =
        c + s.length ∧
      ∀ o, c ≤ o → o < c + s.length → o < N → o < buf.length →
        (pocl_printf (sink_helpers ru rl) wide buf c N fmt args ul0 l0).buffer[o]?
          = s[o - c]?) ∧
    pocl_printf (sink_helpers (fun _ _ => []) (fun _ _ => [])) false [0, 0, 0] 0 3
        (cstr "abcdef") [] 0 0 = { ret := 0, buffer_index := 6, buffer := cstr "abc" } := by
  have hinv := loop_sink ru rl wide args (fmt.length + 1)
    { fmt := fmt
      p := { param_zero with printf_buffer := buf, printf_buffer_capacity := N
                             printf_buffer_index := c }
      va := 0, ul := ul0, l := l0 }
  obtain ⟨hb, hi, _⟩ := hinv
  rw [pocl_printf_eq]
  simp only [pocl_printf_format_simple, scan]
  refine ⟨?_, ?_, ?_, by decide⟩
  · intro o ho
    rw [hb]
    exact spec_push_outside _ _ o ho
  · rw [hi, spec_push_index]
  · intro s junk hs hfmt
    have hlit := scan_literals (sink_helpers ru rl) wide args s (0 :: junk) rfl
      { fmt := fmt
        p := { param_zero with printf_buffer := buf, printf_buffer_capacity := N
                               printf_buffer_index := c }
        va := 0, ul := ul0, l := l0 } hs hfmt
    have hprod := produced_of_chars ru rl _ s hlit.1
    simp only [scan] at hprod
    constructor
    · rw [hi, spec_push_index, hprod]
    · intro o h1 h2 h3 h4
      rw [hb, hprod]
      exact spec_push_inside s _ o h1 h2 h3 h4

/-! ## Claim C9 -/

/-- C9: the value handed to the converter is the argument `a` of the directive,
narrowed to the width of the length modifier, whatever flag, width and precision the
directive carries.  For `d` and `i` the signed converter receives `a` wrapped to a
signed 8-bit value after `hh`, to 16 bits after `h`, to 32 bits without modifier and to
64 bits after `l` (wide build); for `o`, `u` and `x` the unsigned converter receives
`a` modulo 2^8, 2^16, 2^32 and 2^64 respectively. -/
theorem C9_argument_is_narrowed (H : Helpers) (wide : Bool) (args : List Arg) (st : State)
    (c : Int) (fl w pr rest : List Int)
    (hfl : fl = [] ∨ fl = [ord '-'] ∨ fl = [ord '0'] ∨ fl = [ord '#'])
    (hw : ∀ d ∈ w, is_digit d)
    (hpr : pr = [] ∨ ∃ ds, pr = ord '.' :: ds ∧ ∀ d ∈ ds, is_digit d) :
    ((c = ord 'd' ∨ c = ord 'i') →
      (scan H wide args
        { st with fmt := ord '%' :: (fl ++ w ++ pr ++ ord 'h' :: ord 'h' :: c :: rest) }
        ).calls.head?.bind Call.toLong
        = some (((va_arg args st.va).asInt + 2 ^ 7) % 2 ^ 8 - 2 ^ 7) ∧
      (scan H wide args
        { st with fmt := ord '%' :: (fl ++ w ++ pr ++ ord 'h' :: c :: rest) }
        ).calls.head?.bind Call.toLong
        = some (((va_arg args st.va).asInt + 2 ^ 15) % 2 ^ 16 - 2 ^ 15) ∧
      (scan H wide args
        { st with fmt := ord '%' :: (fl ++ w ++ pr ++ c :: rest) }
        ).calls.head?.bind Call.toLong
        = some (((va_arg args st.va).asInt + 2 ^ 31) % 2 ^ 32 - 2 ^ 31) ∧
      (scan H true args
        { st with fmt := ord '%' :: (fl ++ w ++ pr ++ ord 'l' :: c :: rest) }
        ).calls.head?.bind Call.toLong
        = some (((va_arg args st.va).asInt + 2 ^ 63) % 2 ^ 64 - 2 ^ 63)) ∧
    ((c = ord 'o' ∨ c = ord 'u' ∨ c = ord 'x') →
      (scan H wide args
        { st with fmt := ord '%' :: (fl ++ w ++ pr ++ ord 'h' :: ord 'h' :: c :: rest) }
        ).calls.head?.bind Call.toUlong
        = some ((va_arg args st.va).asInt % 2 ^ 8).toNat ∧
      (scan H wide args
        { st with fmt := ord '%' :: (fl ++ w ++ pr ++ ord 'h' :: c :: rest) }
        ).calls.head?.bind Call.toUlong
        = some ((va_arg args st.va).asInt % 2 ^ 16).toNat ∧
      (scan H wide args
        { st with fmt := ord '%' :: (fl ++ w ++ pr ++ c :: rest) }
        ).calls.head?.bind Call.toUlong
        = some ((va_arg args st.va).asInt % 2 ^ 32).toNat ∧
      (scan H true args
        { st with fmt := ord '%' :: (fl ++ w ++ pr ++ ord 'l' :: c :: rest) }
        ).calls.head?.bind Call.toUlong
        = some ((va_arg args st.va).asInt % 2 ^ 64).toNat) := by
  have key : ∀ (wd : Bool) (t : Int) (R : List Int), ends_run t →
      ∃ p1, scan H wd args { st with fmt := ord '%' :: (fl ++ w ++ pr ++ t :: R) } =
        if (dispatch H wd args { ch := t, fmt := R, p := p1 } st).abort then
          { exit := Exit.aborted
            st := (dispatch H wd args { ch := t, fmt := R, p := p1 } st).st
            calls := (dispatch H wd args { ch := t, fmt := R, p := p1 } st).calls }
        else
          (scan H wd args (dispatch H wd args { ch := t, fmt := R, p := p1 } st).st).emit
            (dispatch H wd args { ch := t, fmt := R, p := p1 } st).calls := by
    intro wd t R ht
    obtain ⟨p1, _, he⟩ := scan_head H wd args
      { st with fmt := ord '%' :: (fl ++ w ++ pr ++ t :: R) } fl w pr R t ht hfl hw hpr rfl
    refine ⟨p1, ?_⟩
    rw [he]
    simp only [dispatch_fmt_irrel]
  constructor
  · intro hc
    refine ⟨?_, ?_, ?_, ?_⟩
    · obtain ⟨p1, he⟩ := key wide (ord 'h') (ord 'h' :: c :: rest) (by decide)
      rw [he]
      rcases hc with h | h <;> subst h <;>
        simp [dispatch, scan_l, scan_h, fetch, convert, next, Result.emit, Call.toLong,
          wrapS_8_32]
    · obtain ⟨p1, he⟩ := key wide (ord 'h') (c :: rest) (by decide)
      rw [he]
      rcases hc with h | h <;> subst h <;>
        simp [dispatch, scan_l, scan_h, fetch, convert, next, Result.emit, Call.toLong,
          wrapS_16_32]
    · obtain ⟨p1, he⟩ := key wide c rest (by rcases hc with h | h <;> subst h <;> decide)
      rw [he]
      rcases hc with h | h <;> subst h <;>
        simp [dispatch, scan_l, scan_h, fetch, convert, next, Result.emit, Call.toLong,
          wrapS_32]
    · obtain ⟨p1, he⟩ := key true (ord 'l') (c :: rest) (by decide)
      rw [he]
      rcases hc with h | h <;> subst h <;>
        simp [dispatch, scan_l, scan_h, fetch, convert, next, Result.emit, Call.toLong,
          wrapS_64]
  · intro hc
    refine ⟨?_, ?_, ?_, ?_⟩
    · obtain ⟨p1, he⟩ := key wide (ord 'h') (ord 'h' :: c :: rest) (by decide)
      rw [he]
      rcases hc with h | h | h <;> subst h <;>
        simp [dispatch, scan_l, scan_h, fetch, convert, next, Result.emit, Call.toUlong,
          wrapU_8_32]
    · obtain ⟨p1, he⟩ := key wide (ord 'h') (c :: rest) (by decide)
      rw [he]
      rcases hc with h | h | h <;> subst h <;>
        simp [dispatch, scan_l, scan_h, fetch, convert, next, Result.emit, Call.toUlong,
          wrapU_16_32]
    · obtain ⟨p1, he⟩ := key wide c rest
        (by rcases hc with h | h | h <;> subst h <;> decide)
      rw [he]
      rcases hc with h | h | h <;> subst h <;>
        simp [dispatch, scan_l, scan_h, fetch, convert, next, Result.emit, Call.toUlong,
          wrapU]
    · obtain ⟨p1, he⟩ := key true (ord 'l') (c :: rest) (by decide)
      rw [he]
      rcases hc with h | h | h <;> subst h <;>
        simp [dispatch, scan_l, scan_h, fetch, convert, next, Result.emit, Call.toUlong,
          wrapU]

/-- C9 at a concrete input: the argument 300 in `"%-5hhd"` and `"%-5hhu"` is handed
over as 44. -/
theorem C9_argument_is_narrowed_witness :
    (scan stub_helpers false [Arg.int 300]
        { fmt := cstr "%-5hhd", p := param_zero, va := 0, ul := 0, l := 0 }
      ).calls.head?.bind Call.toLong = some 44 ∧
    (scan stub_helpers false [Arg.int 300]
        { fmt := cstr "%-5hhu", p := param_zero, va := 0, ul := 0, l := 0 }
      ).calls.head?.bind Call.toUlong = some 44 :=
  ⟨((C9_argument_is_narrowed stub_helpers false [Arg.int 300]
      { fmt := [], p := param_zero, va := 0, ul := 0, l := 0 } (ord 'd')
      [ord '-'] (cstr "5") [] [] (Or.inr (Or.inl rfl)) (by decide) (Or.inl rfl)).1
      (Or.inl rfl)).1,
   ((C9_argument_is_narrowed stub_helpers false [Arg.int 300]
      { fmt := [], p := param_zero, va := 0, ul := 0, l := 0 } (ord 'u')
      [ord '-'] (cstr "5") [] [] (Or.inr (Or.inl rfl)) (by decide) (Or.inl rfl)).2
      (Or.inr (Or.inl rfl))).1⟩

/-! ## Claim C10 -/

/-- C10: for a format string `s` without `%` (its characters are not NUL, the
terminator follows, anything may lie behind it) the calls the scan makes are exactly
one `__pocl_printf_putcf` per character of `s`, in order; no argument is fetched, the
scan ends at the terminator and the pointer stops right behind it. -/
theorem C10_literal_text_is_copied (H : Helpers) (wide : Bool) (p : param_t)
    (args : List Arg) (ul0 : Nat) (l0 : Int) (s junk : List Int)
    (hs : ∀ c ∈ s, c ≠ 0 ∧ c ≠ ord '%') :
    (pocl_printf_format_simple H wide (s ++ 0 :: junk) p args ul0 l0).calls.map Call.char?
      = s.map some ∧
    (pocl_printf_format_simple H wide (s ++ 0 :: junk) p args ul0 l0).st.va = 0 ∧
    (pocl_printf_format_simple H wide (s ++ 0 :: junk) p args ul0 l0).exit
      = Exit.finished ∧
    (pocl_printf_format_simple H wide (s ++ 0 :: junk) p args ul0 l0).st.fmt = junk :=
  scan_literals H wide args s (0 :: junk) rfl _ hs rfl

/-- C10 at a concrete input: `"abc"`, its terminator, and a `%d` behind it. -/
theorem C10_literal_text_is_copied_witness :
    (pocl_printf_format_simple stub_helpers false (cstr "abc" ++ 0 :: cstr "%d") param_zero
        [Arg.int 1] 0 0).calls.map Call.char? = (cstr "abc").map some ∧
    (pocl_printf_format_simple stub_helpers false (cstr "abc" ++ 0 :: cstr "%d") param_zero
        [Arg.int 1] 0 0).st.va = 0 ∧
    (pocl_printf_format_simple stub_helpers false (cstr "abc" ++ 0 :: cstr "%d") param_zero
        [Arg.int 1] 0 0).exit = Exit.finished ∧
    (pocl_printf_format_simple stub_helpers false (cstr "abc" ++ 0 :: cstr "%d") param_zero
        [Arg.int 1] 0 0).st.fmt = cstr "%d" :=
  C10_literal_text_is_copied stub_helpers false param_zero [Arg.int 1] 0 0
    (cstr "abc") (cstr "%d") (by decide)

/-! ## Claim C11 -/

/-- C11: where the scanner meets `%%`, in whatever state (any flags and width left in
the request, any number of arguments fetched), it makes exactly one call, which is
`__pocl_printf_putcf (p, '%')`, fetches no argument, and goes on with the character
behind the second `%` as a scan started there would. -/
theorem C11_percent_percent_is_one_percent (H : Helpers) (wide : Bool) (args : List Arg)
    (st : State) (rest : List Int) :
    scan H wide args { st with fmt := ord '%' :: ord '%' :: rest } =
      (scan H wide args { st with fmt := rest, p := H.putcf st.p (ord '%') }).emit
        [Call.putcf st.p (ord '%')] :=
  scan_percent H wide args { st with fmt := ord '%' :: ord '%' :: rest } rest rfl

/-! ## Claim C16 -/

/-- C16: `__pocl_printf` returns 0 whatever the format and the arguments are, and what it
stores through `__buffer_index` (and leaves in the buffer) is the cursor (and buffer)
of the request in the state in which the scan stopped; this includes the formats that
leave by `goto abort`: an unsupported `l`, a string that ends inside a directive. -/
theorem C16_printf_returns_zero (H : Helpers) (wide : Bool) (buf : List Int) (c N : Nat)
    (fmt : List Int) (args : List Arg) (ul0 : Nat) (l0 : Int) :
    (pocl_printf H wide buf c N fmt args ul0 l0).ret = 0 ∧
    (pocl_printf H wide buf c N fmt args ul0 l0).buffer_index =
      (pocl_printf_format_simple H wide fmt
        { param_zero with printf_buffer := buf, printf_buffer_capacity := N
                          printf_buffer_index := c } args ul0 l0).st.p.printf_buffer_index ∧
    (pocl_printf_format_simple stub_helpers false (cstr "ab%ld") param_zero [Arg.int 1]
        0 0).exit = Exit.aborted ∧
    (pocl_printf stub_helpers false [] 0 0 (cstr "ab%ld") [Arg.int 1] 0 0).ret = 0 ∧
    (pocl_printf_format_simple stub_helpers false (cstr "ab%5") param_zero [Arg.int 1]
        0 0).exit = Exit.aborted ∧
    (pocl_printf stub_helpers false [] 0 0 (cstr "ab%5") [Arg.int 1] 0 0).ret = 0 :=
  ⟨rfl, rfl, by decide, by decide, by decide, by decide⟩

/-! ## Claim C20 -/

/-- C20: `__pocl_printf_a2d` returns the value of a hexadecimal digit (`'0'`-`'9'` give
0-9, `'a'`-`'f'` and `'A'`-`'F'` give 10-15, the same for both cases of a letter) and
-1 for every other character; the result lies between -1 and 15 and is non-negative
exactly for the hexadecimal digits. -/
theorem C20_a2d_is_hex_digit_value (ch : Int) :
    ((ord '0' ≤ ch ∧ ch ≤ ord '9') → pocl_printf_a2d ch = ch - ord '0') ∧
    ((ord 'a' ≤ ch ∧ ch ≤ ord 'f') → pocl_printf_a2d ch = ch - ord 'a' + 10) ∧
    ((ord 'A' ≤ ch ∧ ch ≤ ord 'F') → pocl_printf_a2d ch = ch - ord 'A' + 10) ∧
    ((0 ≤ ch ∧ ch ≤ 5) →
      pocl_printf_a2d (ord 'a' + ch) = pocl_printf_a2d (ord 'A' + ch)) ∧
    (¬ is_hex_digit ch → pocl_printf_a2d ch = -1) ∧
    (is_hex_digit ch → 0 ≤ pocl_printf_a2d ch ∧ pocl_printf_a2d ch ≤ 15) ∧
    -1 ≤ pocl_printf_a2d ch ∧ pocl_printf_a2d ch ≤ 15 ∧
    (0 ≤ pocl_printf_a2d ch ↔ is_hex_digit ch) := by
  unfold is_hex_digit pocl_printf_a2d
  simp only [ord_0, ord_9, ord_a, ord_f, ord_A, ord_F]
  refine ⟨?_, ?_, ?_, ?_, ?_, ?_, ?_, ?_, ?_⟩ <;> split_ifs <;> omega

/-! ## The request at a converter call -/

@[simp] theorem ord_plus : ord '+' = 43 := rfl

theorem scan_flags_keeps (s : Scan) :
    (scan_flags s).p.flags.always_sign = s.p.flags.always_sign ∧
    (scan_flags s).p.flags.uc = s.p.flags.uc ∧
    (scan_flags s).p.base = s.p.base ∧ (scan_flags s).p.alt = s.p.alt := by
  unfold scan_flags
  split_ifs <;> exact ⟨rfl, rfl, rfl, rfl⟩

theorem scan_width_keeps (s : Scan) :
    (scan_width s).p.flags = s.p.flags ∧
    (scan_width s).p.base = s.p.base ∧ (scan_width s).p.alt = s.p.alt := by
  unfold scan_width
  split_ifs <;> exact ⟨rfl, rfl, rfl⟩

theorem scan_precision_keeps (s : Scan) :
    (scan_precision s).p.flags.always_sign = s.p.flags.always_sign ∧
    (scan_precision s).p.flags.uc = s.p.flags.uc ∧
    (scan_precision s).p.base = s.p.base ∧ (scan_precision s).p.alt = s.p.alt ∧
    (scan_precision s).p.width = s.p.width := by
  unfold scan_precision
  split_ifs <;> exact ⟨rfl, rfl, rfl, rfl, rfl⟩

/-- Behind the flag, width and precision blocks always-sign and uppercase are clear,
and `base` and the member `alt` are those of before the directive. -/
theorem stages_keeps (ch : Int) (F : List Int) (p : param_t) :
    (scan_precision (scan_width (scan_flags
      { ch := ch, fmt := F, p := init_param p }))).p.flags.always_sign = false ∧
    (scan_precision (scan_width (scan_flags
      { ch := ch, fmt := F, p := init_param p }))).p.flags.uc = false ∧
    (scan_precision (scan_width (scan_flags
      { ch := ch, fmt := F, p := init_param p }))).p.base = p.base ∧
    (scan_precision (scan_width (scan_flags
      { ch := ch, fmt := F, p := init_param p }))).p.alt = p.alt := by
  obtain ⟨a1, a2, a3, a4⟩ := scan_flags_keeps { ch := ch, fmt := F, p := init_param p }
  obtain ⟨b1, b2, b3⟩ := scan_width_keeps (scan_flags { ch := ch, fmt := F, p := init_param p })
  obtain ⟨c1, c2, c3, c4, _⟩ := scan_precision_keeps
    (scan_width (scan_flags { ch := ch, fmt := F, p := init_param p }))
  refine ⟨?_, ?_, ?_, ?_⟩
  · rw [c1, b1, a1]; rfl
  · rw [c2, b1, a2]; rfl
  · rw [c3, b2, a3]; rfl
  · rw [c4, b3, a4]; rfl

theorem convert_req_ok (H : Helpers) (ch : Int) (p : param_t) (ul : Nat) (l : Int)
    (r : param_t × List Call) (h1 : p.flags.always_sign = false) (h2 : p.flags.uc = false)
    (h : convert H ch p ul l = some r) : ∀ k ∈ r.2, conv_req_ok k := by
  unfold convert at h
  split_ifs at h <;> cases h <;> intro k hk <;>
    simp only [List.mem_singleton, List.not_mem_nil] at hk <;>
    subst hk <;> unfold conv_req_ok <;> intro _ <;> simp [Call.req, h1, h2]

theorem dispatch_req_ok (H : Helpers) (wide : Bool) (args : List Arg) (s : Scan)
    (st : State) (h1 : s.p.flags.always_sign = false) (h2 : s.p.flags.uc = false) :
    ∀ k ∈ (dispatch H wide args s st).calls, conv_req_ok k := by
  unfold dispatch
  split_ifs
  · intro k hk
    simp only [List.mem_singleton] at hk
    subst hk
    intro h; cases h
  · intro k hk
    simp only [List.mem_singleton] at hk
    subst hk
    intro h; cases h
  · split
    · intro k hk; cases hk
    · simp only
      split
      · intro k hk; cases hk
      · rename_i r hr
        exact convert_req_ok H _ _ _ _ r h1 h2 hr

theorem directive_req_ok (H : Helpers) (wide : Bool) (args : List Arg) (ch : Int)
    (st : State) : ∀ k ∈ (directive H wide args ch st).calls, conv_req_ok k := by
  obtain ⟨h1, h2, _, _⟩ := stages_keeps ch st.fmt st.p
  unfold directive
  exact dispatch_req_ok H wide args _ st h1 h2

theorem loop_req_ok (H : Helpers) (wide : Bool) (args : List Arg) :
    ∀ (n : Nat) (st : State), ∀ k ∈ (format_simple_loop H wide args n st).calls,
      conv_req_ok k := by
  intro n
  induction n with
  | zero => intro st k hk; cases hk
  | succ n ih =>
    intro st k
    rw [loop_succ]
    split_ifs
    · intro hk; cases hk
    · rw [emit_calls]
      intro hk
      rcases List.mem_append.mp hk with h | h
      · simp only [List.mem_singleton] at h
        subst h
        intro hc; cases hc
      · exact ih _ k h
    · rw [emit_calls]
      intro hk
      rcases List.mem_append.mp hk with h | h
      · simp only [List.mem_singleton] at h
        subst h
        intro hc; cases hc
      · exact ih _ k h
    · exact directive_req_ok H wide args _ _ k
    · rw [emit_calls]
      intro hk
      rcases List.mem_append.mp hk with h | h
      · exact directive_req_ok H wide args _ _ k h
      · exact ih _ k h

/-- Every converter call of a scan has always-sign clear, a base of 8, 10 or 16, and
uppercase only with base 16. -/
theorem scan_req_ok (H : Helpers) (wide : Bool) (args : List Arg) (st : State) :
    ∀ k ∈ (scan H wide args st).calls, conv_req_ok k :=
  loop_req_ok H wide args _ st

/-! ## Claim C17 -/

/-- C17: the scanner never sets always-sign: in every scan the request of every
converter call has `always_sign` clear; and the scan of a format that starts with `%+d`
is, calls, requests, values, arguments fetched and final state, the scan of the same
format with `%d` in its place (the `+` is read and dropped by the flag block). -/
theorem C17_always_sign_is_never_set (H : Helpers) (wide : Bool) (args : List Arg)
    (st : State) (rest : List Int) :
    (∀ k ∈ (scan H wide args st).calls, k.isConv = true →
      k.req.flags.always_sign = false) ∧
    scan H wide args { st with fmt := ord '%' :: ord '+' :: ord 'd' :: rest } =
      scan H wide args { st with fmt := ord '%' :: ord 'd' :: rest } := by
  constructor
  · intro k hk hc
    exact (scan_req_ok H wide args st k hk hc).1
  · rw [scan_directive H wide args _ (ord '+') (ord 'd' :: rest) rfl (by decide),
      scan_directive H wide args { st with fmt := ord '%' :: ord 'd' :: rest }
        (ord 'd') rest rfl (by decide)]
    have hd : directive H wide args (ord '+') { st with fmt := ord 'd' :: rest } =
        directive H wide args (ord 'd') { st with fmt := rest } := by
      have e1 : scan_flags { ch := ord '+', fmt := ord 'd' :: rest, p := init_param st.p } =
          scan_flags { ch := ord 'd', fmt := rest, p := init_param st.p } := by
        rw [scan_flags_skip { ch := ord 'd', fmt := rest, p := init_param st.p }
          (by show ¬ ord 'd' < ord '1'; decide)]
        simp [scan_flags, next]
      simp only [directive, dispatch_fmt_irrel, e1]
    rw [hd]

/-- The lemma `scan_head` with what the first three blocks leave in the request:
always-sign and uppercase clear, `base` and the member `alt` as before. -/
theorem scan_head_keeps (H : Helpers) (wide : Bool) (args : List Arg) (st : State)
    (fl w pr R : List Int) (t : Int) (ht : ends_run t)
    (hfl : fl = [] ∨ fl = [ord '-'] ∨ fl = [ord '0'] ∨ fl = [ord '#'])
    (hw : ∀ d ∈ w, is_digit d)
    (hpr : pr = [] ∨ ∃ ds, pr = ord '.' :: ds ∧ ∀ d ∈ ds, is_digit d)
    (hfmt : st.fmt = ord '%' :: (fl ++ w ++ pr ++ t :: R)) :
    ∃ p1, same_buf p1 st.p ∧ p1.flags.always_sign = false ∧ p1.flags.uc = false ∧
      p1.base = st.p.base ∧ p1.alt = st.p.alt ∧
      scan H wide args st =
        if (dispatch H wide args { ch := t, fmt := R, p := p1 } st).abort then
          { exit := Exit.aborted
            st := (dispatch H wide args { ch := t, fmt := R, p := p1 } st).st
            calls := (dispatch H wide args { ch := t, fmt := R, p := p1 } st).calls }
        else
          (scan H wide args (dispatch H wide args { ch := t, fmt := R, p := p1 } st).st).emit
            (dispatch H wide args { ch := t, fmt := R, p := p1 } st).calls := by
  obtain ⟨c, rest, he, hne, hch, hrest⟩ := stages_run fl w pr R t (init_param st.p) ht
    hfl hw hpr
  rw [he] at hfmt
  obtain ⟨k1, k2, k3, k4⟩ := stages_keeps c rest st.p
  refine ⟨(scan_precision (scan_width (scan_flags
    { ch := c, fmt := rest, p := init_param st.p }))).p, stages_same_buf c rest st.p,
    k1, k2, k3, k4, ?_⟩
  rw [scan_directive H wide args st c rest hfmt hne]
  have hd : directive H wide args c { st with fmt := rest } =
      dispatch H wide args
        { ch := t, fmt := R
          p := (scan_precision (scan_width (scan_flags
            { ch := c, fmt := rest, p := init_param st.p }))).p } st := by
    unfold directive
    rw [dispatch_fmt_irrel]
    congr 1
    cases hs : scan_precision (scan_width (scan_flags
        { ch := c, fmt := rest, p := init_param st.p })) with
    | mk ch fmt p =>
      rw [hs] at hch hrest
      simp only at hch hrest
      rw [hch, hrest]
  rw [hd]

/-! ## Claim C13 -/

/-- C13: in every scan the request of every converter call has base 8, 10 or 16; and
for a directive `% [flag] [width] [. digits]`, a length modifier (none, `h`, `hh`, or
`l` in a wide build) and a numeric conversion character `c`, the converter is invoked
with the base that belongs to `c` alone (`o`: 8; `u`, `d`, `i`: 10; `x`, `X`, `p`: 16)
and with uppercase set exactly when `c` is `X`. -/
theorem C13_base_follows_conversion (H : Helpers) (wide : Bool) (args : List Arg)
    (st : State) (c : Int) (fl w pr rest : List Int)
    (hfl : fl = [] ∨ fl = [ord '-'] ∨ fl = [ord '0'] ∨ fl = [ord '#'])
    (hw : ∀ d ∈ w, is_digit d)
    (hpr : pr = [] ∨ ∃ ds, pr = ord '.' :: ds ∧ ∀ d ∈ ds, is_digit d)
    (hc : c ∈ [ord 'd', ord 'i', ord 'o', ord 'u', ord 'x', ord 'X', ord 'p']) :
    (∀ k ∈ (scan H wide args st).calls, k.isConv = true →
      k.req.base = 8 ∨ k.req.base = 10 ∨ k.req.base = 16) ∧
    (scan H wide args { st with fmt := ord '%' :: (fl ++ w ++ pr ++ c :: rest) }
      ).calls.head?.map (fun k => (k.isConv, k.req.base, k.req.flags.uc))
      = some (true, conv_base c, decide (c = ord 'X')) ∧
    (scan H wide args { st with fmt := ord '%' :: (fl ++ w ++ pr ++ ord 'h' :: c :: rest) }
      ).calls.head?.map (fun k => (k.isConv, k.req.base, k.req.flags.uc))
      = some (true, conv_base c, decide (c = ord 'X')) ∧
    (scan H wide args
      { st with fmt := ord '%' :: (fl ++ w ++ pr ++ ord 'h' :: ord 'h' :: c :: rest) }
      ).calls.head?.map (fun k => (k.isConv, k.req.base, k.req.flags.uc))
      = some (true, conv_base c, decide (c = ord 'X')) ∧
    (scan H true args { st with fmt := ord '%' :: (fl ++ w ++ pr ++ ord 'l' :: c :: rest) }
      ).calls.head?.map (fun k => (k.isConv, k.req.base, k.req.flags.uc))
      = some (true, conv_base c, decide (c = ord 'X')) := by
  have key : ∀ (wd : Bool) (t : Int) (R : List Int), ends_run t →
      ∃ p1, p1.flags.uc = false ∧
        scan H wd args { st with fmt := ord '%' :: (fl ++ w ++ pr ++ t :: R) } =
        if (dispatch H wd args { ch := t, fmt := R, p := p1 } st).abort then
          { exit := Exit.aborted
            st := (dispatch H wd args { ch := t, fmt := R, p := p1 } st).st
            calls := (dispatch H wd args { ch := t, fmt := R, p := p1 } st).calls }
        else
          (scan H wd args (dispatch H wd args { ch := t, fmt := R, p := p1 } st).st).emit
            (dispatch H wd args { ch := t, fmt := R, p := p1 } st).calls := by
    intro wd t R ht
    obtain ⟨p1, _, _, huc, _, _, he⟩ := scan_head_keeps H wd args
      { st with fmt := ord '%' :: (fl ++ w ++ pr ++ t :: R) } fl w pr R t ht hfl hw hpr rfl
    refine ⟨p1, huc, ?_⟩
    rw [he]
    simp only [dispatch_fmt_irrel]
  simp only [List.mem_cons, List.mem_singleton, List.not_mem_nil, or_false] at hc
  refine ⟨?_, ?_, ?_, ?_, ?_⟩
  · intro k hk hcv
    exact (scan_req_ok H wide args st k hk hcv).2.1
  · obtain ⟨p1, huc, he⟩ := key wide c rest
      (by rcases hc with h | h | h | h | h | h | h <;> subst h <;> decide)
    rw [he]
    rcases hc with h | h | h | h | h | h | h <;> subst h <;>
      simp [dispatch, scan_l, scan_h, convert, next, Result.emit, Call.isConv, Call.req,
        conv_base, huc]
  · obtain ⟨p1, huc, he⟩ := key wide (ord 'h') (c :: rest) (by decide)
    rw [he]
    rcases hc with h | h | h | h | h | h | h <;> subst h <;>
      simp [dispatch, scan_l, scan_h, convert, next, Result.emit, Call.isConv, Call.req,
        conv_base, huc]
  · obtain ⟨p1, huc, he⟩ := key wide (ord 'h') (ord 'h' :: c :: rest) (by decide)
    rw [he]
    rcases hc with h | h | h | h | h | h | h <;> subst h <;>
      simp [dispatch, scan_l, scan_h, convert, next, Result.emit, Call.isConv, Call.req,
        conv_base, huc]
  · obtain ⟨p1, huc, he⟩ := key true (ord 'l') (c :: rest) (by decide)
    rw [he]
    rcases hc with h | h | h | h | h | h | h <;> subst h <;>
      simp [dispatch, scan_l, scan_h, convert, next, Result.emit, Call.isConv, Call.req,
        conv_base, huc]

/-- C13 at a concrete input: `"%-5hX"` is converted with base 16 and uppercase,
`"%-5hd"` with base 10 and lowercase. -/
theorem C13_base_follows_conversion_witness :
    (scan stub_helpers false [Arg.int 1]
        { fmt := cstr "%-5hX", p := param_zero, va := 0, ul := 0, l := 0 }
      ).calls.head?.map (fun k => (k.isConv, k.req.base, k.req.flags.uc))
      = some (true, 16, true) ∧
    (scan stub_helpers false [Arg.int 1]
        { fmt := cstr "%-5hd", p := param_zero, va := 0, ul := 0, l := 0 }
      ).calls.head?.map (fun k => (k.isConv, k.req.base, k.req.flags.uc))
      = some (true, 10, false) :=
  ⟨(C13_base_follows_conversion stub_helpers false [Arg.int 1]
      { fmt := [], p := param_zero, va := 0, ul := 0, l := 0 } (ord 'X')
      [ord '-'] (cstr "5") [] [] (Or.inr (Or.inl rfl)) (by decide) (Or.inl rfl)
      (by decide)).2.2.1,
   (C13_base_follows_conversion stub_helpers false [Arg.int 1]
      { fmt := [], p := param_zero, va := 0, ul := 0, l := 0 } (ord 'd')
      [ord '-'] (cstr "5") [] [] (Or.inr (Or.inl rfl)) (by decide) (Or.inl rfl)
      (by decide)).2.2.1⟩

/-! ## Claim C14 -/

/-- C14 (defect in the code): for `%p` the switch executes `p->alt = 1`, which writes the
member `alt` of the request and not `flags.alt`, the flag that `#` sets and that the
start of every directive clears.  For `"%p"` the converter is invoked with base 16 and
lowercase, but with `flags.alt` clear (it is set for `"%#p"`, by the `#`), and the
member `alt` stays set: in `"%p%x"` it is still set when `%x` is converted. -/
theorem C14_pointer_sets_other_member (H : Helpers) (wide : Bool) (args : List Arg)
    (st : State) (rest : List Int) :
    (scan H wide args { st with fmt := ord '%' :: ord 'p' :: rest }).calls.head?.map
        (fun k => (k.toUlong.isSome, k.req.base, k.req.flags.uc, k.req.flags.alt, k.req.alt))
      = some (true, 16, false, false, true) ∧
    (scan H wide args { st with fmt := ord '%' :: ord '#' :: ord 'p' :: rest }
      ).calls.head?.map
        (fun k => (k.toUlong.isSome, k.req.base, k.req.flags.uc, k.req.flags.alt, k.req.alt))
      = some (true, 16, false, true, true) ∧
    (pocl_printf_format_simple stub_helpers false (cstr "%p%x") param_zero
        [Arg.int 1, Arg.int 2] 0 0).calls.map
        (fun k => (k.toUlong.isSome, k.req.flags.alt, k.req.alt))
      = [(true, false, true), (true, false, true)] ∧
    (pocl_printf_format_simple stub_helpers false (cstr "%x") param_zero
        [Arg.int 2] 0 0).calls.map
        (fun k => (k.toUlong.isSome, k.req.flags.alt, k.req.alt))
      = [(true, false, false)] := by
  refine ⟨?_, ?_, by decide, by decide⟩
  · rw [scan_directive H wide args _ (ord 'p') rest rfl (by decide)]
    simp [directive, dispatch, scan_flags, scan_width, scan_precision, scan_l, scan_h,
      convert, next, Result.emit, Call.toUlong, Call.req, init_param]
  · rw [scan_directive H wide args _ (ord '#') (ord 'p' :: rest) rfl (by decide)]
    simp [directive, dispatch, scan_flags, scan_width, scan_precision, scan_l, scan_h,
      convert, next, Result.emit, Call.toUlong, Call.req, init_param]

/-! ## Claim C12 -/

/-- C12 (with the sink and `__pocl_printf_puts` as the specification describes them):
for a directive `% [flag] [width] [. digits] c` the scan makes exactly one call,
`__pocl_printf_putcf` with the argument truncated to a `char`, and for
`% [flag] [width] [. digits] s` exactly one call, `__pocl_printf_puts` with the argument
string; one argument is fetched and the scan goes on behind the directive.  The
characters these calls hand to the sink are the one character, and the characters of
the string in front of its first NUL: they do not depend on the flag, the width or
the precision. -/
theorem C12_char_and_string_ignore_width (H : Helpers) (wide : Bool) (args : List Arg)
    (st : State) (fl w pr rest : List Int)
    (ru : param_t → Nat → List Int) (rl : param_t → Int → List Int)
    (hfl : fl = [] ∨ fl = [ord '-'] ∨ fl = [ord '0'] ∨ fl = [ord '#'])
    (hw : ∀ d ∈ w, is_digit d)
    (hpr : pr = [] ∨ ∃ ds, pr = ord '.' :: ds ∧ ∀ d ∈ ds, is_digit d) :
    (∃ p1, same_buf p1 st.p ∧
      scan H wide args { st with fmt := ord '%' :: (fl ++ w ++ pr ++ ord 'c' :: rest) } =
        (scan H wide args
          { st with
            fmt := rest
            p := H.putcf p1 (((va_arg args st.va).asInt + 2 ^ 7) % 2 ^ 8 - 2 ^ 7)
            va := st.va + 1 }).emit
          [Call.putcf p1 (((va_arg args st.va).asInt + 2 ^ 7) % 2 ^ 8 - 2 ^ 7)] ∧
      produced ru rl [Call.putcf p1 (((va_arg args st.va).asInt + 2 ^ 7) % 2 ^ 8 - 2 ^ 7)]
        = [((va_arg args st.va).asInt + 2 ^ 7) % 2 ^ 8 - 2 ^ 7]) ∧
    (∃ p1, same_buf p1 st.p ∧
      scan H wide args { st with fmt := ord '%' :: (fl ++ w ++ pr ++ ord 's' :: rest) } =
        (scan H wide args
          { st with
            fmt := rest
            p := H.puts p1 (va_arg args st.va).asStr
            va := st.va + 1 }).emit
          [Call.puts p1 (va_arg args st.va).asStr] ∧
      produced ru rl [Call.puts p1 (va_arg args st.va).asStr]
        = (va_arg args st.va).asStr.takeWhile (fun x => x ≠ 0)) := by
  constructor
  · obtain ⟨p1, hp1, he⟩ := scan_head H wide args
      { st with fmt := ord '%' :: (fl ++ w ++ pr ++ ord 'c' :: rest) } fl w pr rest (ord 'c')
      (by decide) hfl hw hpr rfl
    refine ⟨p1, hp1, ?_, ?_⟩
    · rw [he]
      simp [dispatch, Result.emit, wrapS_8_32]
    · rw [produced_single]
      rfl
  · obtain ⟨p1, hp1, he⟩ := scan_head H wide args
      { st with fmt := ord '%' :: (fl ++ w ++ pr ++ ord 's' :: rest) } fl w pr rest (ord 's')
      (by decide) hfl hw hpr rfl
    refine ⟨p1, hp1, ?_, ?_⟩
    · rw [he]
      simp [dispatch, Result.emit]
    · rw [produced_single]
      rfl

/-- C12 at a concrete input: `"%-5.3c"` with the argument 321 (65 as a `char`) and
`"%-5.3s"` with the string `"hi"`. -/
theorem C12_char_and_string_ignore_width_witness :
    (scan stub_helpers false [Arg.int 321]
        { fmt := cstr "%-5.3c", p := param_zero, va := 0, ul := 0, l := 0 }
      ).calls.map Call.char? = [some 65] ∧
    (scan stub_helpers false [Arg.str (cstr "hi" ++ [0, 7])]
        { fmt := cstr "%-5.3s", p := param_zero, va := 0, ul := 0, l := 0 }
      ).calls.map (Call.text (fun _ _ => []) (fun _ _ => [])) = [cstr "hi"] := by
  obtain ⟨⟨p1, _, h1, _⟩, _⟩ := C12_char_and_string_ignore_width stub_helpers false
    [Arg.int 321] { fmt := [], p := param_zero, va := 0, ul := 0, l := 0 }
    [ord '-'] (cstr "5") (cstr ".3") [] (fun _ _ => []) (fun _ _ => [])
    (Or.inr (Or.inl rfl)) (by decide) (Or.inr ⟨cstr "3", by decide, by decide⟩)
  obtain ⟨_, ⟨p2, _, h2, _⟩⟩ := C12_char_and_string_ignore_width stub_helpers false
    [Arg.str (cstr "hi" ++ [0, 7])] { fmt := [], p := param_zero, va := 0, ul := 0, l := 0 }
    [ord '-'] (cstr "5") (cstr ".3") [] (fun _ _ => []) (fun _ _ => [])
    (Or.inr (Or.inl rfl)) (by decide) (Or.inr ⟨cstr "3", by decide, by decide⟩)
  constructor
  · have e : cstr "%-5.3c" = ord '%' :: ([ord '-'] ++ cstr "5" ++ cstr ".3" ++ ord 'c' :: []) := by
      decide
    rw [e, h1, emit_calls, scan_nil stub_helpers false _ _ rfl]
    simp [Call.char?, va_arg, Arg.asInt]
  · have e : cstr "%-5.3s" = ord '%' :: ([ord '-'] ++ cstr "5" ++ cstr ".3" ++ ord 's' :: []) := by
      decide
    rw [e, h2, emit_calls, scan_nil stub_helpers false _ _ rfl]
    simp only [List.map_cons, List.map_nil, List.append_nil, Call.text, c_string, va_arg,
      List.getD_cons_zero, Arg.asStr]
    decide

/-! ## Claim C15 -/

theorem printf_sink_index_ge (ru : param_t → Nat → List Int) (rl : param_t → Int → List Int)
    (wide : Bool) (buf : List Int) (c N : Nat) (fmt : List Int) (args : List Arg)
    (ul0 : Nat) (l0 : Int) :
    c ≤ (pocl_printf (sink_helpers ru rl) wide buf c N fmt args ul0 l0).buffer_index := by
  have hinv := loop_sink ru rl wide args (fmt.length + 1)
    { fmt := fmt
      p := { param_zero with printf_buffer := buf, printf_buffer_capacity := N
                             printf_buffer_index := c }
      va := 0, ul := ul0, l := l0 }
  obtain ⟨_, hi, _⟩ := hinv
  rw [pocl_printf_eq]
  simp only [pocl_printf_format_simple, scan]
  rw [hi, spec_push_index]
  exact Nat.le_add_right _ _

theorem printf_sink_seq_ge (ru : param_t → Nat → List Int) (rl : param_t → Int → List Int)
    (wide : Bool) (N : Nat) (ul0 : Nat) (l0 : Int) :
    ∀ (calls : List (List Int × List Arg)) (c : Nat) (buf : List Int),
    c ≤ (calls.foldl (fun (acc : Nat × List Int) (fa : List Int × List Arg) =>
        ((pocl_printf (sink_helpers ru rl) wide acc.2 acc.1 N fa.1 fa.2 ul0 l0).buffer_index,
         (pocl_printf (sink_helpers ru rl) wide acc.2 acc.1 N fa.1 fa.2 ul0 l0).buffer))
      (c, buf)).1 := by
  intro calls
  induction calls with
  | nil => intro c buf; exact le_refl _
  | cons fa rest ih =>
    intro c buf
    rw [List.foldl_cons]
    exact le_trans (printf_sink_index_ge ru rl wide buf c N fa.1 fa.2 ul0 l0) (ih _ _)

/-- C15 (over the sink as the specification describes it, for every rendering of the
numeric converters): the cursor that `__pocl_printf` stores back is at least the cursor
it read at entry, for every buffer, capacity, format and argument list; hence after
any sequence of calls that hand the buffer and the cursor on from one to the next the
cursor is at least the initial one; a format that aborts (`"ab%ld"` without wide
support, entered with cursor 1) keeps the advance made before the abort. -/
theorem C15_cursor_never_decreases (ru : param_t → Nat → List Int)
    (rl : param_t → Int → List Int) (wide : Bool) (buf : List Int) (c N : Nat)
    (fmt : List Int) (args : List Arg) (ul0 : Nat) (l0 : Int)
    (calls : List (List Int × List Arg)) :
    c ≤ (pocl_printf (sink_helpers ru rl) wide buf c N fmt args ul0 l0).buffer_index ∧
    c ≤ (calls.foldl (fun (acc : Nat × List Int) (fa : List Int × List Arg) =>
        ((pocl_printf (sink_helpers ru rl) wide acc.2 acc.1 N fa.1 fa.2 ul0 l0).buffer_index,
         (pocl_printf (sink_helpers ru rl) wide acc.2 acc.1 N fa.1 fa.2 ul0 l0).buffer))
      (c, buf)).1 ∧
    (pocl_printf (sink_helpers (fun _ _ => []) (fun _ _ => [])) false [0, 0, 0, 0] 1 4
        (cstr "ab%ld") [Arg.int 1] 0 0).buffer_index = 3 :=
  ⟨printf_sink_index_ge ru rl wide buf c N fmt args ul0 l0,
   printf_sink_seq_ge ru rl wide N ul0 l0 calls c buf, by decide⟩

/-! ## Flags and width depend on the directive text only -/

theorem scan_flags_fw (s s' : Scan) (h : FW s s') : FW (scan_flags s) (scan_flags s') := by
  obtain ⟨h1, h2, h3, h4⟩ := h
  unfold FW
  rw [scan_flags_ch s, scan_flags_fmt s, scan_flags_p s, scan_flags_ch s',
    scan_flags_fmt s', scan_flags_p s', h1, h2]
  refine ⟨rfl, rfl, ?_, ?_⟩
  · split_ifs <;> simp [h3]
  · split_ifs <;> simp [h4]

theorem scan_width_fw (s s' : Scan) (h : FW s s') : FW (scan_width s) (scan_width s') := by
  obtain ⟨h1, h2, h3, h4⟩ := h
  unfold FW scan_width
  rw [h1, h2]
  split_ifs
  · exact ⟨rfl, rfl, h3, rfl⟩
  · exact ⟨h1, h2, h3, h4⟩

theorem scan_precision_fw (s s' : Scan) (h : FW s s') :
    FW (scan_precision s) (scan_precision s') := by
  obtain ⟨h1, h2, h3, h4⟩ := h
  unfold FW scan_precision
  rw [h1, h2]
  split_ifs
  · refine ⟨rfl, rfl, ?_, h4⟩
    simp [h3]
  · exact ⟨h1, h2, h3, h4⟩

theorem stages_fw (ch : Int) (F : List Int) (p q : param_t) :
    FW (scan_precision (scan_width (scan_flags { ch := ch, fmt := F, p := init_param p })))
      (scan_precision (scan_width (scan_flags { ch := ch, fmt := F, p := init_param q }))) :=
  scan_precision_fw _ _ (scan_width_fw _ _ (scan_flags_fw _ _ ⟨rfl, rfl, rfl, rfl⟩))

theorem convert_fw (H1 H2 : Helpers) (ch : Int) (p q : param_t) (ul ul2 : Nat) (l l2 : Int)
    (r1 r2 : param_t × List Call) (hf : p.flags = q.flags) (hw : p.width = q.width)
    (h1 : convert H1 ch p ul l = some r1) (h2 : convert H2 ch q ul2 l2 = some r2) :
    r1.2.map Call.fw = r2.2.map Call.fw := by
  unfold convert at h1 h2
  split_ifs at h1 h2 <;> cases h1 <;> cases h2 <;> simp [Call.fw, Call.req, hf, hw]

/-- The calls of the second half of a directive have the same flags and width, and the
directive aborts or not, whatever the helpers, the arguments and the other members of
the request are. -/
theorem dispatch_fw (H1 H2 : Helpers) (wide : Bool) (args1 args2 : List Arg)
    (s s' : Scan) (st1 st2 : State) (h : FW s s') :
    (dispatch H1 wide args1 s st1).calls.map Call.fw =
      (dispatch H2 wide args2 s' st2).calls.map Call.fw ∧
    (dispatch H1 wide args1 s st1).abort = (dispatch H2 wide args2 s' st2).abort := by
  obtain ⟨h1, h2, h3, h4⟩ := h
  unfold dispatch
  rw [h1, h2]
  by_cases hc : s'.ch = ord 'c'
  · rw [if_pos hc, if_pos hc]
    simp [Call.fw, Call.req, h3, h4]
  · rw [if_neg hc, if_neg hc]
    by_cases hs : s'.ch = ord 's'
    · rw [if_pos hs, if_pos hs]
      simp [Call.fw, Call.req, h3, h4]
    · rw [if_neg hs, if_neg hs]
      cases hl : scan_l wide s'.ch s'.fmt with
      | none => exact ⟨rfl, rfl⟩
      | some s1 =>
        simp only
        cases hc1 : convert H1 (scan_h s1).ch s.p
            (fetch wide (scan_h s1) (va_arg args1 st1.va) st1.ul st1.l).1
            (fetch wide (scan_h s1) (va_arg args1 st1.va) st1.ul st1.l).2 with
        | none =>
          have hz := (convert_eq_none _ _ _ _ _).mp hc1
          have hc2 := (convert_eq_none H2 (scan_h s1).ch s'.p
            (fetch wide (scan_h s1) (va_arg args2 st2.va) st2.ul st2.l).1
            (fetch wide (scan_h s1) (va_arg args2 st2.va) st2.ul st2.l).2).mpr hz
          rw [hc2]
          exact ⟨rfl, rfl⟩
        | some r1 =>
          cases hc2 : convert H2 (scan_h s1).ch s'.p
              (fetch wide (scan_h s1) (va_arg args2 st2.va) st2.ul st2.l).1
              (fetch wide (scan_h s1) (va_arg args2 st2.va) st2.ul st2.l).2 with
          | none =>
            have hz := (convert_eq_none _ _ _ _ _).mp hc2
            have hc3 := (convert_eq_none H1 (scan_h s1).ch s.p
              (fetch wide (scan_h s1) (va_arg args1 st1.va) st1.ul st1.l).1
              (fetch wide (scan_h s1) (va_arg args1 st1.va) st1.ul st1.l).2).mpr hz
            rw [hc3] at hc1
            cases hc1
          | some r2 =>
            exact ⟨convert_fw H1 H2 _ _ _ _ _ _ _ r1 r2 h3 h4 hc1 hc2, rfl⟩

theorem directive_fw (H1 H2 : Helpers) (wide : Bool) (args1 args2 : List Arg) (c : Int)
    (st1 st2 : State) (h : st1.fmt = st2.fmt) :
    (directive H1 wide args1 c st1).calls.map Call.fw =
      (directive H2 wide args2 c st2).calls.map Call.fw ∧
    (directive H1 wide args1 c st1).abort = (directive H2 wide args2 c st2).abort := by
  unfold directive
  rw [h]
  exact dispatch_fw H1 H2 wide args1 args2 _ _ st1 st2 (stages_fw c st2.fmt st1.p st2.p)

/-! ## Claim C18 -/

/-- C18: every directive starts from all five flags clear and width 0, and the flags
and the width in the requests of the calls a directive makes depend on the text at and
behind the `%` only.  `directive` is what the scanner runs once it has read `%` and a
next character `c` other than `%`.  Two runs of it on the same text `D`, with any
helpers, arguments and states (any contents of the request, any number of arguments
fetched), make calls with equal flags and width; and when `D` holds the whole
directive (run on `D` alone it does not abort) the same is true with different texts
`R1`, `R2` behind `D`. -/
theorem C18_flags_depend_on_directive_text (H1 H2 : Helpers) (wide : Bool)
    (args1 args2 : List Arg) (st1 st2 : State) (c : Int) (D R1 R2 : List Int) :
    ((init_param st1.p).flags = ⟨false, false, false, false, false⟩ ∧
      (init_param st1.p).width = 0) ∧
    (directive H1 wide args1 c { st1 with fmt := D }).calls.map Call.fw =
      (directive H2 wide args2 c { st2 with fmt := D }).calls.map Call.fw ∧
    (c ≠ 0 → (∀ x ∈ D, x ≠ 0) →
      (directive H1 wide args1 c { st1 with fmt := D }).abort = false →
      (directive H1 wide args1 c { st1 with fmt := D ++ R1 }).calls.map Call.fw =
        (directive H2 wide args2 c { st2 with fmt := D ++ R2 }).calls.map Call.fw) := by
  have hA := directive_fw H1 H2 wide args1 args2 c { st1 with fmt := D }
    { st2 with fmt := D } rfl
  refine ⟨⟨rfl, rfl⟩, hA.1, ?_⟩
  intro hc hD hab
  have hab2 : (directive H2 wide args2 c { st2 with fmt := D }).abort = false := by
    rw [← hA.2]; exact hab
  have e1 := directive_append H1 wide args1 R1 c { st1 with fmt := D } hD hc hab
  have e2 := directive_append H2 wide args2 R2 c { st2 with fmt := D } hD hc hab2
  simp only at e1 e2
  rw [e1, e2]
  exact hA.1

/-- C18 at a concrete input: the directive `%-5d`, once with `abc` behind it and an
empty request, once with `xyz` behind it, other helpers and arguments and a request
that has flags and a width set. -/
theorem C18_flags_depend_on_directive_text_witness :
    (directive stub_helpers false [Arg.int 1] (ord '-')
        { fmt := cstr "5d" ++ cstr "abc", p := param_zero, va := 0, ul := 0, l := 0 }
      ).calls.map Call.fw =
    (directive (sink_helpers (fun _ _ => []) (fun _ _ => [])) false [Arg.int 2, Arg.int 3]
        (ord '-')
        { fmt := cstr "5d" ++ cstr "xyz"
          p := { param_zero with
                 flags := { zero := true, alt := true, align_left := false,
                            always_sign := true, uc := true }
                 width := 9 }
          va := 1, ul := 7, l := 8 }
      ).calls.map Call.fw :=
  (C18_flags_depend_on_directive_text stub_helpers
    (sink_helpers (fun _ _ => []) (fun _ _ => [])) false [Arg.int 1] [Arg.int 2, Arg.int 3]
    { fmt := [], p := param_zero, va := 0, ul := 0, l := 0 }
    { fmt := []
      p := { param_zero with
             flags := { zero := true, alt := true, align_left := false,
                        always_sign := true, uc := true }
             width := 9 }
      va := 1, ul := 7, l := 8 }
    (ord '-') (cstr "5d") (cstr "abc") (cstr "xyz")).2.2 (by decide) (by decide) (by decide)

/-! ## Claim C19 -/

/-- A directive fetches one argument, except when the position behind the flag, width
and precision blocks is at an `l` in a build without wide support, where it fetches
none. -/
theorem directive_va (H : Helpers) (wide : Bool) (args : List Arg) (c : Int) (st : State) :
    (directive H wide args c st).st.va =
      if wide = false ∧ (scan_precision (scan_width (scan_flags
          { ch := c, fmt := st.fmt, p := init_param st.p }))).ch = ord 'l' then st.va
      else st.va + 1 := by
  unfold directive dispatch
  by_cases h1 : (scan_precision (scan_width (scan_flags
      { ch := c, fmt := st.fmt, p := init_param st.p }))).ch = ord 'c'
  · rw [if_pos h1, if_neg (fun h => by rw [h1] at h; exact absurd h.2 (by decide))]
  · rw [if_neg h1]
    by_cases h2 : (scan_precision (scan_width (scan_flags
        { ch := c, fmt := st.fmt, p := init_param st.p }))).ch = ord 's'
    · rw [if_pos h2, if_neg (fun h => by rw [h2] at h; exact absurd h.2 (by decide))]
    · rw [if_neg h2]
      unfold scan_l
      by_cases h3 : (scan_precision (scan_width (scan_flags
          { ch := c, fmt := st.fmt, p := init_param st.p }))).ch = ord 'l'
      · rw [if_pos h3]
        cases wide with
        | false => simp [h3]
        | true =>
          simp only [if_true]
          rw [if_neg (by simp)]
          split <;> rfl
      · rw [if_neg h3, if_neg (fun h => h3 h.2)]
        simp only
        split <;> rfl

theorem directive_va_le (H : Helpers) (wide : Bool) (args : List Arg) (c : Int)
    (st : State) : (directive H wide args c st).st.va ≤ st.va + 1 := by
  rw [directive_va]
  split_ifs <;> omega

/-- The number of arguments a scan fetches is at most the number of `%` bytes in the
memory it scans. -/
theorem loop_va_le (H : Helpers) (wide : Bool) (args : List Arg) :
    ∀ (n : Nat) (st : State),
      (format_simple_loop H wide args n st).st.va ≤ st.va + st.fmt.count (ord '%') := by
  intro n
  induction n with
  | zero => intro st; exact Nat.le_add_right _ _
  | succ n ih =>
    intro st
    rw [loop_succ]
    cases hf : st.fmt with
    | nil =>
      simp [next]
    | cons a r =>
      have hn : next (a :: r) = (a, r) := rfl
      simp only [hn]
      by_cases h0 : a = 0
      · rw [if_pos h0]
        exact Nat.le_add_right _ _
      · rw [if_neg h0]
        by_cases h1 : a ≠ ord '%'
        · rw [if_pos h1, emit_st]
          have := ih { st with fmt := r, p := H.putcf st.p a }
          simp only at this
          rw [List.count_cons_of_ne (fun h => h1 h.symm)]
          exact this
        · rw [if_neg h1]
          have ha : a = ord '%' := not_not.mp h1
          subst ha
          rw [List.count_cons_self]
          have hs2 : ((next r).2).count (ord '%') ≤ r.count (ord '%') :=
            (next_suffix r).sublist.count_le _
          by_cases h2 : (next r).1 = ord '%'
          · rw [if_pos h2, emit_st]
            have := ih { st with fmt := (next r).2, p := H.putcf st.p (ord '%') }
            simp only at this
            omega
          · rw [if_neg h2]
            have hv := directive_va_le H wide args (next r).1 { st with fmt := (next r).2 }
            have hs := (directive_suffix H wide args (next r).1
              { st with fmt := (next r).2 }).sublist.count_le (ord '%')
            simp only at hv hs
            split_ifs
            · simp only
              omega
            · rw [emit_st]
              have := ih (directive H wide args (next r).1 { st with fmt := (next r).2 }).st
              omega

/-- C19 (defect in the code, the one of C3): the scanner fetches no argument for a
literal character or for `%%` (the scan goes on with the same count), one argument for
every other directive, and none for a directive that stops at an unsupported `l`; the
number of arguments a scan fetches is at most the number of `%` bytes in the memory
it runs over.  That memory is not always the format: for the format `"%"` the scanner
runs past the terminator, and with `d%d` behind it in memory it fetches two arguments,
one more than the format has `%` characters. -/
theorem C19_fetches_follow_the_bytes_scanned (H : Helpers) (wide : Bool) (args : List Arg)
    (st : State) (c : Int) (rest : List Int) :
    (c ≠ 0 → c ≠ ord '%' →
      scan H wide args { st with fmt := c :: rest } =
        (scan H wide args { st with fmt := rest, p := H.putcf st.p c }).emit
          [Call.putcf st.p c]) ∧
    scan H wide args { st with fmt := ord '%' :: ord '%' :: rest } =
      (scan H wide args { st with fmt := rest, p := H.putcf st.p (ord '%') }).emit
        [Call.putcf st.p (ord '%')] ∧
    (directive H wide args c st).st.va =
      (if wide = false ∧ (scan_precision (scan_width (scan_flags
          { ch := c, fmt := st.fmt, p := init_param st.p }))).ch = ord 'l' then st.va
       else st.va + 1) ∧
    (scan H wide args st).st.va ≤ st.va + st.fmt.count (ord '%') ∧
    (pocl_printf_format_simple H wide (ord '%' :: 0 :: cstr "d%d") st.p
        [Arg.int 1, Arg.int 2] st.ul st.l).st.va = 2 ∧
    (cstr "%").count (ord '%') = 1 := by
  refine ⟨?_, ?_, directive_va H wide args c st, loop_va_le H wide args _ st, ?_, by decide⟩
  · intro h0 h1
    exact scan_literal H wide args { st with fmt := c :: rest } c rest rfl h0 h1
  · exact scan_percent H wide args { st with fmt := ord '%' :: ord '%' :: rest } rest rfl
  · have h1 : cstr "d%d" = [100, 37, 100] := by decide
    rw [h1]
    simp [pocl_printf_format_simple, scan, format_simple_loop, directive, dispatch,
      scan_flags, scan_width, scan_precision, scan_l, scan_h, convert, next, Result.emit]

end TinyPrintf
